import Mathlib

/-! Scheduling and resource arbitration of `PA2/pa2.c`, paging of `PA3/pa3.c`

A shallow embedding of the scheduler core: the process records, the resource
table, the ready queue, the FCFS and priority-aware arbitration functions and
the scheduling policies (namespace `PA2`), and of the page allocation and
process switch of the page-table simulator (namespace `PA3`), followed by the
properties proved about them.

A `struct process *` is modelled as a natural number (the address of the
record), `NULL` as `none`, and the records themselves live in a heap
`procs : Nat → process`, so that two pointers to the same record alias as they
do in C.  Every intrusive `list_head` list is modelled as the sequence of the
nodes reachable from its head, first entry first.
-/

namespace PA2

/-! ## Data model -/

/-- Modelled from the spec: `enum process_status` of the absent header
`process.h`; the three states named in the data model. -/
inductive process_status where
  | PROCESS_READY
  | PROCESS_RUNNING
  | PROCESS_WAIT
deriving DecidableEq, Repr

/-- Modelled from the spec: the fields of `struct process` (header `process.h`
is absent) that `pa2.c` reads or writes.  The embedded `list` node is
represented by the membership of the record's address in a queue.  The
integer fields are `unsigned int` of 32 bits; they are naturals here, and the
one place where `pa2.c` computes with them, `pos->prio += 1`, reduces modulo
`2 ^ 32`. -/
structure process where
  status : process_status
  age : Nat
  lifespan : Nat
  prio : Nat
  prio_orig : Nat
deriving DecidableEq, Repr

/-- Modelled from the spec: `struct resource` of the absent header
`resource.h`: an optional owner and a wait queue. -/
structure resource where
  owner : Option Nat
  waitqueue : List Nat
deriving DecidableEq, Repr

/-- The global `struct BoostingType boostingType`. -/
structure BoostingType where
  pip : Bool
  pcp : Bool
deriving DecidableEq, Repr

/-- The globals `pa2.c` works on: the process records, `current`,
`readyqueue`, `resources[]`, `boostingType` and `first`. -/
structure State where
  procs : Nat → process
  current : Option Nat
  readyqueue : List Nat
  resources : Nat → resource
  boostingType : BoostingType
  first : Bool

/-- The ways a call can abort: the ownership assertion of the release
functions, the waiter-status assertion of `fcfs_release`, and a dereference
of `NULL`. -/
inductive Fault where
  | assert_owner
  | assert_waiter_status
  | null_deref
deriving DecidableEq, Repr

/-- The list heads `pa2.c` passes to the list functions: `&readyqueue` and
`&r->waitqueue` for `r = resources + resource_id`. -/
inductive Head where
  | readyqueue
  | waitqueue (resource_id : Nat)
deriving DecidableEq, Repr

/-! ## Field updates -/

/-- The assignment `p->status = st`. -/
def set_status (s : State) (p : Nat) (st : process_status) : State :=
  { s with procs := fun q => if q = p then { s.procs p with status := st } else s.procs q }

/-- The assignment `p->prio = v`. -/
def set_prio (s : State) (p : Nat) (v : Nat) : State :=
  { s with procs := fun q => if q = p then { s.procs p with prio := v } else s.procs q }

/-- The assignment `p->prio_orig = v`. -/
def set_prio_orig (s : State) (p : Nat) (v : Nat) : State :=
  { s with procs := fun q => if q = p then { s.procs p with prio_orig := v } else s.procs q }

/-- The assignment `r->owner = o` for `r = resources + resource_id`. -/
def set_owner (s : State) (resource_id : Nat) (o : Option Nat) : State :=
  { s with resources := fun r =>
      if r = resource_id then { s.resources resource_id with owner := o } else s.resources r }

/-! ## The list functions of `list_head.h` -/

/-- The entries of a list, first entry first. -/
def entries (s : State) : Head → List Nat
  | .readyqueue => s.readyqueue
  | .waitqueue r => (s.resources r).waitqueue

/-- Replace the entries of one list. -/
def set_entries (s : State) (h : Head) (l : List Nat) : State :=
  match h with
  | .readyqueue => { s with readyqueue := l }
  | .waitqueue r => { s with resources := fun r' =>
      if r' = r then { s.resources r with waitqueue := l } else s.resources r' }

/-- Modelled from the spec: `list_empty(head)` of the absent header
`list_head.h` (the Linux kernel list interface): the head links to itself. -/
def list_empty (s : State) (h : Head) : Bool :=
  (entries s h).isEmpty

/-- Modelled from the spec: `list_add(new, head)` of the absent header
`list_head.h` (the Linux kernel list interface): `new` is linked right after
the head, so it becomes the first entry. -/
def list_add (s : State) (p : Nat) (h : Head) : State :=
  set_entries s h (p :: entries s h)

/-- Modelled from the spec: `list_add_tail(new, head)` of the absent header
`list_head.h` (the Linux kernel list interface): `new` is linked right before
the head, so it becomes the last entry. -/
def list_add_tail (s : State) (p : Nat) (h : Head) : State :=
  set_entries s h (entries s h ++ [p])

/-- Modelled from the spec: `list_del_init(entry)` of the absent header
`list_head.h` (the Linux kernel list interface): the node is unlinked from
the list that holds it and linked to itself; on a node that is in no list it
does nothing.  A node cannot tell which list it is in, so the model removes
its occurrence from the ready queue and from each wait queue. -/
def list_del_init (s : State) (p : Nat) : State :=
  { s with
    readyqueue := s.readyqueue.erase p
    resources := fun r =>
      { s.resources r with waitqueue := (s.resources r).waitqueue.erase p } }

/-- Modelled from the spec: `list_move(list, head)` of the absent header
`list_head.h` (the Linux kernel list interface): unlink the node, then
`list_add` it, so it becomes the first entry of `head`.  This is the
insertion at the head that the wake-all ordering of the protocol release
relies on; moving to the tail is the separate `list_move_tail`. -/
def list_move (s : State) (p : Nat) (h : Head) : State :=
  list_add (list_del_init s p) p h

/-- Modelled from the spec: `list_move_tail(list, head)` of the absent header
`list_head.h` (the Linux kernel list interface): unlink the node, then
`list_add_tail` it, so it becomes the last entry of `head`. -/
def list_move_tail (s : State) (p : Nat) (h : Head) : State :=
  list_add_tail (list_del_init s p) p h

/-! ## FCFS arbitration -/

/-- The function `fcfs_acquire` (pa2.c:78-102). -/
def fcfs_acquire (s : State) (resource_id : Nat) : Except (Fault × State) (Bool × State) :=
  match (s.resources resource_id).owner with
  | none =>
    -- This resource is not owned by any one. Take it!
    .ok (true, set_owner s resource_id s.current)
  | some _ =>
    match s.current with
    | none => .error (.null_deref, s)
    | some c =>
      let s1 := set_status s c .PROCESS_WAIT
      let s2 := list_add_tail s1 c (.waitqueue resource_id)
      .ok (false, s2)

/-- The function `fcfs_release` (pa2.c:113-150). -/
def fcfs_release (s : State) (resource_id : Nat) : Except (Fault × State) State :=
  if (s.resources resource_id).owner ≠ s.current then .error (.assert_owner, s)
  else
    let s1 := set_owner s resource_id none
    match entries s1 (.waitqueue resource_id) with
    | [] => .ok s1
    | waiter :: _ =>
      if (s1.procs waiter).status ≠ .PROCESS_WAIT then .error (.assert_waiter_status, s1)
      else
        let s2 := list_del_init s1 waiter
        let s3 := set_status s2 waiter .PROCESS_READY
        let s4 := list_add_tail s3 waiter .readyqueue
        .ok s4

/-! ## Priority-aware arbitration -/

/-- The function `prio_initialize` (pa2.c:410-425): both flags of
`boostingType` are cleared, `first` is set, and the loop over the ready queue
copies `prio` into `prio_orig` for each entry; the result is 0. -/
def prio_initialize (s : State) : Int × State :=
  let s1 : State := { s with boostingType := { pip := false, pcp := false }, first := true }
  (0, (entries s1 .readyqueue).foldl (fun st pos => set_prio_orig st pos (st.procs pos).prio) s1)

/-- The function `prio_acquire` (pa2.c:427-462).  `MAX_PRIO` is a macro of an
absent header and is taken as a parameter. -/
def prio_acquire ( MAX_PRIO : Nat) (s : State) (resource_id : Nat) :
    Except (Fault × State) (Bool × State) :=
  match (s.resources resource_id).owner with
  | none =>
    -- This resource is not owned by any one. Take it!
    let s1 := set_owner s resource_id s.current
    if s1.boostingType.pcp = true then
      match s1.current with
      | none => .error (.null_deref, s1)
      | some o => .ok (true, set_prio s1 o MAX_PRIO)
    else .ok (true, s1)
  | some o =>
    match s.current with
    | none => .error (.null_deref, s)
    | some c =>
      let s1 :=
        if s.boostingType.pip = true then
          if (s.procs c).prio > (s.procs o).prio then set_prio s o (s.procs c).prio else s
        else s
      let s2 := set_status s1 c .PROCESS_WAIT
      let s3 := list_move s2 c (.waitqueue resource_id)
      .ok (false, s3)

/-- The body of the loop of `prio_release` (pa2.c:491-494) for one `waiter`;
`cur` is `current`. -/
def prio_release_body (cur : Nat) (s : State) (waiter : Nat) : State :=
  let s1 := list_del_init s waiter
  let s2 := set_status s1 waiter .PROCESS_READY
  let s3 := list_move s2 waiter .readyqueue
  list_del_init s3 cur

/-- The function `prio_release` (pa2.c:473-499).  The loop
`list_for_each_entry_safe` visits the entries the wait queue had when the
loop started, since each iteration unlinks only the entry it is at. -/
def prio_release (s : State) (resource_id : Nat) : Except (Fault × State) State :=
  if (s.resources resource_id).owner ≠ s.current then .error (.assert_owner, s)
  else
    match (s.resources resource_id).owner with
    | none => .error (.null_deref, s)
    | some o =>
      let s1 := set_prio s o (s.procs o).prio_orig
      let s2 := set_owner s1 resource_id none
      if list_empty s2 (.waitqueue resource_id) then .ok s2
      else .ok ((entries s2 (.waitqueue resource_id)).foldl (prio_release_body o) s2)

/-! ## Scheduling policies -/

/-- The loop `list_for_each_entry_safe(pos, n, &readyqueue, list)` of the
selecting policies, run over the entries of the ready queue: `temp` starts as
`NULL`, becomes the first entry visited, and afterwards becomes each entry
`pos` for which the test `replace temp pos` of the policy holds. -/
def scan (s : State) (replace : process → process → Bool) :
    Option Nat → List Nat → Option Nat
  | temp, [] => temp
  | none, pos :: rest => scan s replace (some pos) rest
  | some temp, pos :: rest =>
    if replace (s.procs temp) (s.procs pos) then scan s replace (some pos) rest
    else scan s replace (some temp) rest

/-- The `pick_next` part shared by the selecting policies: when the ready
queue is not empty, scan it, take `next = temp` and `list_del_init` it.  The
scan of a list that is not empty never leaves `temp` at `NULL`. -/
def pick_by (s : State) (replace : process → process → Bool) : Option Nat × State :=
  if list_empty s .readyqueue then (none, s)
  else
    match scan s replace none (entries s .readyqueue) with
    | none => (none, s)
    | some next => (some next, list_del_init s next)

/-- The `pick_next` part of `fifo_schedule` and `rr_schedule`: the first
entry of the ready queue, if any, is taken out and returned. -/
def pick_first (s : State) : Option Nat × State :=
  if list_empty s .readyqueue then (none, s)
  else
    match entries s .readyqueue with
    | [] => (none, s)
    | next :: _ => (some next, list_del_init s next)

/-- The function `fifo_schedule` (pa2.c:168-213). -/
def fifo_schedule (s : State) : Option Nat × State :=
  match s.current with
  | none => pick_first s
  | some c =>
    if (s.procs c).status = .PROCESS_WAIT then pick_first s
    else if (s.procs c).age < (s.procs c).lifespan then (some c, s)
    else pick_first s

/-- The function `sjf_schedule` (pa2.c:228-278); the scan replaces `temp`
when `temp->lifespan > pos->lifespan`. -/
def sjf_schedule (s : State) : Option Nat × State :=
  match s.current with
  | none => pick_by s (fun temp pos => temp.lifespan > pos.lifespan)
  | some c =>
    if (s.procs c).status = .PROCESS_WAIT then
      pick_by s (fun temp pos => temp.lifespan > pos.lifespan)
    else if (s.procs c).age < (s.procs c).lifespan then (some c, s)
    else pick_by s (fun temp pos => temp.lifespan > pos.lifespan)

/-- The function `srtf_schedule` (pa2.c:295-340): an unfinished occupant is
moved to the ready queue with `list_move`; the scan replaces `temp` when
`temp->lifespan > pos->lifespan`. -/
def srtf_schedule (s : State) : Option Nat × State :=
  match s.current with
  | none => pick_by s (fun temp pos => temp.lifespan > pos.lifespan)
  | some c =>
    if (s.procs c).status = .PROCESS_WAIT then
      pick_by s (fun temp pos => temp.lifespan > pos.lifespan)
    else if (s.procs c).age < (s.procs c).lifespan then
      pick_by (list_move s c .readyqueue) (fun temp pos => temp.lifespan > pos.lifespan)
    else pick_by s (fun temp pos => temp.lifespan > pos.lifespan)

/-- The function `rr_schedule` (pa2.c:355-389): an unfinished occupant is
moved to the ready queue with `list_move_tail`. -/
def rr_schedule (s : State) : Option Nat × State :=
  match s.current with
  | none => pick_first s
  | some c =>
    if (s.procs c).status = .PROCESS_WAIT then pick_first s
    else if (s.procs c).age < (s.procs c).lifespan then
      pick_first (list_move_tail s c .readyqueue)
    else pick_first s

/-- The function `prio_schedule` (pa2.c:506-551): an unfinished occupant is
moved to the ready queue with `list_move`; the scan replaces `temp` when
`temp->prio < pos->prio`. -/
def prio_schedule (s : State) : Option Nat × State :=
  match s.current with
  | none => pick_by s (fun temp pos => temp.prio < pos.prio)
  | some c =>
    if (s.procs c).status = .PROCESS_WAIT then
      pick_by s (fun temp pos => temp.prio < pos.prio)
    else if (s.procs c).age < (s.procs c).lifespan then
      pick_by (list_move s c .readyqueue) (fun temp pos => temp.prio < pos.prio)
    else pick_by s (fun temp pos => temp.prio < pos.prio)

/-- The `pick_next` part of `pa_schedule` (pa2.c:592-652): the scan replaces
`temp` when `temp->prio < pos->prio`; the selected process gets
`prio = prio_orig` and is taken out, then the second loop adds 1 to the
`prio` of each entry left in the ready queue.  The statement `pos->prio += 1`
(pa2.c:617) works on an `unsigned int` of 32 bits, so the sum is taken modulo
`2 ^ 32`: at the top value `4294967295` the field goes back to 0. -/
def pa_pick_next (s : State) : Option Nat × State :=
  if list_empty s .readyqueue then (none, s)
  else
    match scan s (fun temp pos => temp.prio < pos.prio) none (entries s .readyqueue) with
    | none => (none, s)
    | some next =>
      let s1 := set_prio s next (s.procs next).prio_orig
      let s2 := list_del_init s1 next
      let s3 := (entries s2 .readyqueue).foldl
        (fun st pos => set_prio st pos (((st.procs pos).prio + 1) % 2 ^ 32)) s2
      (some next, s3)

/-- The function `pa_schedule` (pa2.c:571-656): an unfinished occupant is
moved to the ready queue with `list_move_tail`. -/
def pa_schedule (s : State) : Option Nat × State :=
  match s.current with
  | none => pa_pick_next s
  | some c =>
    if (s.procs c).status = .PROCESS_WAIT then pa_pick_next s
    else if (s.procs c).age < (s.procs c).lifespan then
      pa_pick_next (list_move_tail s c .readyqueue)
    else pa_pick_next s

/-- The function `pcp_schedule` (pa2.c:677-729): the flags are set to the PCP
mode, an unfinished occupant is moved to the ready queue with `list_move`, the
scan replaces `temp` when `temp->prio <= pos->prio && first == false`, and
`first` is cleared before the return. -/
def pcp_schedule (s : State) : Option Nat × State :=
  let s0 : State := { s with boostingType := { pip := false, pcp := true } }
  let r : Option Nat × State :=
    match s0.current with
    | none => pick_by s0 (fun temp pos => decide (temp.prio ≤ pos.prio) && (s0.first == false))
    | some c =>
      if (s0.procs c).status = .PROCESS_WAIT then
        pick_by s0 (fun temp pos => decide (temp.prio ≤ pos.prio) && (s0.first == false))
      else if (s0.procs c).age < (s0.procs c).lifespan then
        pick_by (list_move s0 c .readyqueue)
          (fun temp pos => decide (temp.prio ≤ pos.prio) && (s0.first == false))
      else pick_by s0 (fun temp pos => decide (temp.prio ≤ pos.prio) && (s0.first == false))
  (r.1, { r.2 with first := false })

/-- The function `pip_schedule` (pa2.c:749-815): the flags are set to the PIP
mode, an unfinished occupant is moved to the ready queue with `list_move`, the
scan replaces `temp` when `temp->prio < pos->prio && first == false`, and
`first` is cleared before the return. -/
def pip_schedule (s : State) : Option Nat × State :=
  let s0 : State := { s with boostingType := { pip := true, pcp := false } }
  let r : Option Nat × State :=
    match s0.current with
    | none => pick_by s0 (fun temp pos => decide (temp.prio < pos.prio) && (s0.first == false))
    | some c =>
      if (s0.procs c).status = .PROCESS_WAIT then
        pick_by s0 (fun temp pos => decide (temp.prio < pos.prio) && (s0.first == false))
      else if (s0.procs c).age < (s0.procs c).lifespan then
        pick_by (list_move s0 c .readyqueue)
          (fun temp pos => decide (temp.prio < pos.prio) && (s0.first == false))
      else pick_by s0 (fun temp pos => decide (temp.prio < pos.prio) && (s0.first == false))
  (r.1, { r.2 with first := false })

/-! ## Vocabulary of the properties -/

/-- Process `c` is the occupant of the running slot, is not waiting and has
remaining lifetime. -/
def occupant_unfinished (s : State) (c : Nat) : Prop :=
  s.current = some c ∧ (s.procs c).status ≠ .PROCESS_WAIT ∧
    (s.procs c).age < (s.procs c).lifespan

instance (s : State) (c : Nat) : Decidable (occupant_unfinished s c) :=
  inferInstanceAs (Decidable (s.current = some c ∧ (s.procs c).status ≠ .PROCESS_WAIT ∧
    (s.procs c).age < (s.procs c).lifespan))

/-- The candidates of a policy that re-enqueues the occupant with
`list_move`: the unfinished occupant, if there is one, in front of the ready
processes. -/
def candidates (s : State) : List Nat :=
  match s.current with
  | none => s.readyqueue
  | some c => if occupant_unfinished s c then c :: s.readyqueue else s.readyqueue

/-- The state on which a policy that re-enqueues with `list_move` runs its
selection: the unfinished, non-waiting occupant, if any, has been moved to the
head of the ready queue. -/
def sched_state (s : State) : State :=
  match s.current with
  | none => s
  | some c => if occupant_unfinished s c then list_move s c .readyqueue else s

/-- The state on which a policy that re-enqueues with `list_move_tail` runs
its selection: the unfinished, non-waiting occupant, if any, has been moved to
the tail of the ready queue. -/
def sched_state_tail (s : State) : State :=
  match s.current with
  | none => s
  | some c => if occupant_unfinished s c then list_move_tail s c .readyqueue else s

/-- The idle contract of a schedule function at a state: it returns no
process exactly when the ready queue is empty and there is no unfinished,
non-waiting occupant, and then the ready queue and the resource table are
unchanged. -/
def idle_contract (f : State → Option Nat × State) (s : State) : Prop :=
  ((f s).1 = none ↔ (s.readyqueue = [] ∧ ¬ ∃ c, occupant_unfinished s c)) ∧
  ((f s).1 = none → (f s).2.readyqueue = s.readyqueue ∧ (f s).2.resources = s.resources)

/-- What can happen after a state under the PIP policy without a call of the
arbitration functions: any number of `pip_schedule` calls, between which the
driver may install another occupant and update the process records (ages,
statuses) without touching `prio` and `prio_orig`. -/
inductive pip_later : State → State → Prop where
  | refl (s : State) : pip_later s s
  | schedule (s t : State) : pip_later s t → pip_later s (pip_schedule t).2
  | driver (s t : State) (procs' : Nat → process) (cur : Option Nat) :
      pip_later s t →
      (∀ q, (procs' q).prio = (t.procs q).prio ∧ (procs' q).prio_orig = (t.procs q).prio_orig) →
      pip_later s { t with procs := procs', current := cur }

/-- One step of a simulation under the PCP policy: a `pcp_schedule` call whose
result the driver installs as the occupant, a `prio_acquire` or
`prio_release` call that returns, or the driver updating the process records
(ages, statuses) without touching `prio` and `prio_orig`. -/
inductive pcp_step ( MAX_PRIO : Nat) : State → State → Prop where
  | schedule (s : State) :
      pcp_step MAX_PRIO s { (pcp_schedule s).2 with current := (pcp_schedule s).1 }
  | acquire (s : State) (r : Nat) (b : Bool) (s' : State) :
      prio_acquire MAX_PRIO s r = .ok (b, s') → pcp_step MAX_PRIO s s'
  | release (s : State) (r : Nat) (s' : State) :
      prio_release s r = .ok s' → pcp_step MAX_PRIO s s'
  | driver (s : State) (procs' : Nat → process) :
      (∀ q, (procs' q).prio = (s.procs q).prio ∧ (procs' q).prio_orig = (s.procs q).prio_orig) →
      pcp_step MAX_PRIO s { s with procs := procs' }

/-- No process owns two resources. -/
def single_holder (s : State) : Prop :=
  ∀ p r1 r2, (s.resources r1).owner = some p → (s.resources r2).owner = some p → r1 = r2

/-- The states reached from `s0` by steps of the PCP simulation along which no
process ever owns two resources at once. -/
inductive pcp_run ( MAX_PRIO : Nat) (s0 : State) : State → Prop where
  | init : pcp_run MAX_PRIO s0 s0
  | step (s t : State) :
      pcp_run MAX_PRIO s0 s → pcp_step MAX_PRIO s t → single_holder t → pcp_run MAX_PRIO s0 t

/-- The invariant of the PCP simulation when no process owns two resources:
the flags are in the PCP mode unless nothing runs and nothing is owned yet,
every owner has `prio = MAX_PRIO`, and every process that owns nothing has
`prio = prio_orig`. -/
def pcp_invariant ( MAX_PRIO : Nat) (s : State) : Prop :=
  ((s.boostingType.pcp = true ∧ s.boostingType.pip = false) ∨
    (s.current = none ∧ ∀ r, (s.resources r).owner = none)) ∧
  (∀ p r, (s.resources r).owner = some p → (s.procs p).prio = MAX_PRIO) ∧
  (∀ p, (∀ r, (s.resources r).owner ≠ some p) → (s.procs p).prio = (s.procs p).prio_orig) ∧
  single_holder s

/-- The driver installs the result of a schedule call as the occupant. -/
def install (x : Option Nat × State) : State :=
  { x.2 with current := x.1 }

/-- The eight schedule functions of `pa2.c`. -/
def is_schedule (f : State → Option Nat × State) : Prop :=
  f = fifo_schedule ∨ f = sjf_schedule ∨ f = srtf_schedule ∨ f = rr_schedule ∨
  f = prio_schedule ∨ f = pa_schedule ∨ f = pcp_schedule ∨ f = pip_schedule

/-- Two states have the same queues, the same resource table and, for every
process, the same status, age and lifespan. -/
def layout_eq (a b : State) : Prop :=
  a.readyqueue = b.readyqueue ∧ a.resources = b.resources ∧
  ∀ p, (a.procs p).status = (b.procs p).status ∧ (a.procs p).age = (b.procs p).age ∧
    (a.procs p).lifespan = (b.procs p).lifespan

/-- The membership part of the invariant: no process occurs twice in a queue
or in two queues, the occupant of the running slot is in no queue, and every
unfinished process is the occupant or in a queue. -/
structure single_membership (s : State) : Prop where
  rq_nodup : s.readyqueue.Nodup
  wq_nodup : ∀ r, (s.resources r).waitqueue.Nodup
  wq_rq : ∀ r p, p ∈ (s.resources r).waitqueue → p ∉ s.readyqueue
  wq_wq : ∀ r1 r2 p, p ∈ (s.resources r1).waitqueue → p ∈ (s.resources r2).waitqueue → r1 = r2
  cur_rq : ∀ c, s.current = some c → c ∉ s.readyqueue
  cur_wq : ∀ c r, s.current = some c → c ∉ (s.resources r).waitqueue
  placed : ∀ p, (s.procs p).age < (s.procs p).lifespan →
    s.current = some p ∨ p ∈ s.readyqueue ∨ ∃ r, p ∈ (s.resources r).waitqueue

/-- One step of the simulation: a schedule call of any policy whose result
the driver installs as the occupant; a granted acquire; a refused acquire
followed by the schedule call it requires (result installed); a release; or
the driver updating the process records between calls (ages only grow,
lifespans stay, no status becomes `PROCESS_WAIT`). -/
inductive sim_step ( MAX_PRIO : Nat) : State → State → Prop where
  | schedule (f : State → Option Nat × State) (s : State) :
      is_schedule f → sim_step MAX_PRIO s (install (f s))
  | granted (s : State) (r : Nat) (s' : State) :
      (fcfs_acquire s r = .ok (true, s') ∨ prio_acquire MAX_PRIO s r = .ok (true, s')) →
      sim_step MAX_PRIO s s'
  | refused (f : State → Option Nat × State) (s : State) (r : Nat) (s1 : State) :
      is_schedule f →
      (fcfs_acquire s r = .ok (false, s1) ∨ prio_acquire MAX_PRIO s r = .ok (false, s1)) →
      sim_step MAX_PRIO s (install (f s1))
  | release (s : State) (r : Nat) (s' : State) :
      (fcfs_release s r = .ok s' ∨ prio_release s r = .ok s') → sim_step MAX_PRIO s s'
  | driver (s : State) (procs' : Nat → process) :
      (∀ p, (procs' p).lifespan = (s.procs p).lifespan ∧ (s.procs p).age ≤ (procs' p).age ∧
        ((procs' p).status = .PROCESS_WAIT → (s.procs p).status = .PROCESS_WAIT)) →
      sim_step MAX_PRIO s { s with procs := procs' }

/-- No owner of a resource is in the wait queue of that resource. -/
def owner_not_waiting (s : State) : Prop :=
  ∀ r o, (s.resources r).owner = some o → o ∉ (s.resources r).waitqueue

/-- The assignment `p->age = p->age + 1` of the driver. -/
def age_tick (s : State) (p : Nat) : State :=
  { s with procs := fun q => if q = p then { s.procs p with age := (s.procs p).age + 1 }
                             else s.procs q }

/-- Modelled from the spec: one tick of the simulation driver (which is not
among the sources) as the scenarios describe it: the occupant becomes the
result of the schedule call, and the age of that occupant grows by 1. -/
def tick (f : State → Option Nat × State) (s : State) : State :=
  match (f s).1 with
  | none => install (f s)
  | some p => age_tick (install (f s)) p

/-- The processes dispatched in the first `n` ticks (`none` for an idle
tick). -/
def dispatches (f : State → Option Nat × State) : Nat → State → List (Option Nat)
  | 0, _ => []
  | n + 1, s => (tick f s).current :: dispatches f n (tick f s)

/-- The processes that complete in the first `n` ticks, in order: a process
completes in the tick after which its age equals its lifespan. -/
def completions (f : State → Option Nat × State) : Nat → State → List Nat
  | 0, _ => []
  | n + 1, s =>
    match (tick f s).current with
    | none => completions f n (tick f s)
    | some p =>
      if ((tick f s).procs p).age = ((tick f s).procs p).lifespan then
        p :: completions f n (tick f s)
      else completions f n (tick f s)

/-- The remaining lifetime `lifespan - age` of a process. -/
def remaining (s : State) (p : Nat) : Int :=
  ((s.procs p).lifespan : Int) - ((s.procs p).age : Int)

/-- The processes of a list block on resource `r` one after the other, in
the order of the list: each in turn is installed as the occupant and its
`prio_acquire` of `r` is refused. -/
inductive blocked_in_order ( MAX_PRIO : Nat) (r : Nat) : State → List Nat → State → Prop where
  | done (s : State) : blocked_in_order MAX_PRIO r s [] s
  | step (s : State) (a : Nat) (s1 : State) (l : List Nat) (t : State) :
      prio_acquire MAX_PRIO (install (some a, s)) r = .ok (false, s1) →
      blocked_in_order MAX_PRIO r s1 l t →
      blocked_in_order MAX_PRIO r s (a :: l) t

/-! ## Example states -/

/-- A process record with the given status, age, lifespan and priority. -/
def mkproc (st : process_status) (age lifespan prio : Nat) : process :=
  { status := st, age := age, lifespan := lifespan, prio := prio, prio_orig := prio }

/-- An example: process 1 runs, processes 2 and 3 are ready, process 4 waits
for resource 0, which process 1 owns; resource 1 is free. -/
def ex_state : State :=
  { procs := fun p =>
      if p = 1 then mkproc .PROCESS_RUNNING 1 4 3
      else if p = 4 then mkproc .PROCESS_WAIT 2 6 1
      else mkproc .PROCESS_READY 0 5 2
    current := some 1
    readyqueue := [2, 3]
    resources := fun r => if r = 0 then { owner := some 1, waitqueue := [4] }
                          else { owner := none, waitqueue := [] }
    boostingType := { pip := false, pcp := false }
    first := false }

/-- An example: as `ex_state`, but process 5 runs and resource 0 belongs to
process 1, which is ready. -/
def ex_state_owned : State :=
  { ex_state with current := some 5, readyqueue := [1, 2, 3] }

/-- An example: the occupant, process 1, is finished (age 4 of lifespan 4);
processes 2, 3 and 4 are ready with lifespans 5, 3, 3 and priorities 2, 7, 7. -/
def ex_sched : State :=
  { procs := fun p =>
      if p = 1 then mkproc .PROCESS_RUNNING 4 4 3
      else if p = 2 then mkproc .PROCESS_READY 0 5 2
      else if p = 3 then mkproc .PROCESS_READY 0 3 7
      else mkproc .PROCESS_READY 1 3 7
    current := some 1
    readyqueue := [2, 3, 4]
    resources := fun _ => { owner := none, waitqueue := [] }
    boostingType := { pip := false, pcp := false }
    first := false }

/-- An input of `srtf_schedule`: process 1 (lifespan 10) has run alone for 9
ticks and is the occupant; process 2 (lifespan 5, age 0) has just been
created and is the only ready process. -/
def ex_srtf_select : State :=
  { procs := fun p =>
      if p = 1 then mkproc .PROCESS_RUNNING 9 10 0 else mkproc .PROCESS_READY 0 5 0
    current := some 1
    readyqueue := [2]
    resources := fun _ => { owner := none, waitqueue := [] }
    boostingType := { pip := false, pcp := false }
    first := false }

/-- An input of `srtf_schedule`: process 2 (lifespan 5) ran 3 ticks and was
then displaced by the new process 1 (lifespan 4), which has run 1 tick and is
the occupant; process 2 is the only ready process. -/
def ex_srtf_keep : State :=
  { procs := fun p =>
      if p = 1 then mkproc .PROCESS_RUNNING 1 4 0 else mkproc .PROCESS_READY 3 5 0
    current := some 1
    readyqueue := [2]
    resources := fun _ => { owner := none, waitqueue := [] }
    boostingType := { pip := false, pcp := false }
    first := false }

/-- An example under the PIP mode: process 1 (prio 5) runs, process 2 (prio 2)
is ready and owns resource 0, process 3 is ready; resource 1 is free. -/
def ex_pip : State :=
  { procs := fun p =>
      if p = 1 then mkproc .PROCESS_RUNNING 0 5 5
      else if p = 2 then mkproc .PROCESS_READY 1 5 2
      else mkproc .PROCESS_READY 0 5 1
    current := some 1
    readyqueue := [2, 3]
    resources := fun r => if r = 0 then { owner := some 2, waitqueue := [] }
                          else { owner := none, waitqueue := [] }
    boostingType := { pip := true, pcp := false }
    first := false }

/-- An example under the PCP mode: as `ex_pip` with the flags of the PCP mode. -/
def ex_pcp : State :=
  { ex_pip with boostingType := { pip := false, pcp := true } }

/-- An example with a tie: the occupant, process 1 (prio 2), is unfinished;
the ready processes are 3 (prio 1) and 2 (prio 2), in this order. -/
def ex_tie : State :=
  { procs := fun p =>
      if p = 1 then mkproc .PROCESS_RUNNING 1 4 2
      else if p = 2 then mkproc .PROCESS_READY 0 5 2
      else mkproc .PROCESS_READY 0 5 1
    current := some 1
    readyqueue := [3, 2]
    resources := fun _ => { owner := none, waitqueue := [] }
    boostingType := { pip := false, pcp := false }
    first := false }

/-- An example of a first call: `first` is set, nothing runs, and the ready
processes are 2 (prio 1) and 3 (prio 9), in this order. -/
def ex_first : State :=
  { procs := fun p =>
      if p = 3 then mkproc .PROCESS_READY 0 5 9 else mkproc .PROCESS_READY 0 5 1
    current := none
    readyqueue := [2, 3]
    resources := fun _ => { owner := none, waitqueue := [] }
    boostingType := { pip := false, pcp := false }
    first := true }

/-- An initial state of the PCP simulation, as `prio_initialize` leaves it:
nothing runs, no resource is owned, process 1 (prio 3) is the only ready
process. -/
def ex_pcp_init : State :=
  { procs := fun _ => mkproc .PROCESS_READY 0 9 3
    current := none
    readyqueue := [1]
    resources := fun _ => { owner := none, waitqueue := [] }
    boostingType := { pip := false, pcp := false }
    first := true }

/-- The state after the first `pcp_schedule` call on `ex_pcp_init`, with its
result, process 1, installed as the occupant. -/
def ex_pcp_running : State :=
  { (pcp_schedule ex_pcp_init).2 with current := (pcp_schedule ex_pcp_init).1 }

/-- The scenario of the testable properties: nothing runs; P1 (lifespan 5),
P2 (lifespan 3) and P3 (lifespan 1) are ready in this order at age 0; every
other record is finished. -/
def ex_scenario : State :=
  { procs := fun p =>
      if p = 1 then mkproc .PROCESS_READY 0 5 0
      else if p = 2 then mkproc .PROCESS_READY 0 3 0
      else if p = 3 then mkproc .PROCESS_READY 0 1 0
      else mkproc .PROCESS_READY 0 0 0
    current := none
    readyqueue := [1, 2, 3]
    resources := fun _ => { owner := none, waitqueue := [] }
    boostingType := { pip := false, pcp := false }
    first := true }

/-- An example in which the current process is in a wait queue: as
`ex_state`, but resource 0 has no owner and process 4, the only entry of its
wait queue, is the current process. -/
def ex_current_waiting : State :=
  { ex_state with
    current := some 4
    resources := fun _ => { owner := none, waitqueue := [4] } }

/-- An input of `srtf_schedule` with a tie: the occupant, process 1, and the
only ready process, process 2, both have age 1 of lifespan 4. -/
def ex_srtf_tie : State :=
  { procs := fun _ => mkproc .PROCESS_READY 1 4 0
    current := some 1
    readyqueue := [2]
    resources := fun _ => { owner := none, waitqueue := [] }
    boostingType := { pip := false, pcp := false }
    first := false }

/-- An input of `srtf_schedule` in which the occupant is displaced: the
occupant, process 1, and the ready process 2 have age 1 of lifespan 4; the
ready process 3, behind process 2, has age 0 of lifespan 2. -/
def ex_srtf_head : State :=
  { procs := fun p =>
      if p = 3 then mkproc .PROCESS_READY 0 2 0 else mkproc .PROCESS_READY 1 4 0
    current := some 1
    readyqueue := [2, 3]
    resources := fun _ => { owner := none, waitqueue := [] }
    boostingType := { pip := false, pcp := false }
    first := false }

/-- An example with an aged process: the occupant, process 1 (prio 2), is
unfinished; the ready processes are 3 (prio 1) and 2, whose `prio` 7 is above
its `prio_orig` 4, in this order. -/
def ex_aged : State :=
  { procs := fun p =>
      if p = 1 then mkproc .PROCESS_RUNNING 1 4 2
      else if p = 2 then
        { status := .PROCESS_READY, age := 0, lifespan := 5, prio := 7, prio_orig := 4 }
      else mkproc .PROCESS_READY 0 5 1
    current := some 1
    readyqueue := [3, 2]
    resources := fun _ => { owner := none, waitqueue := [] }
    boostingType := { pip := false, pcp := false }
    first := false }

/-- An example at the top value of `prio`: nothing runs, and the ready
processes 2 and 3 both have `prio = 4294967295`, the greatest `unsigned int`
of 32 bits. -/
def ex_prio_top : State :=
  { procs := fun _ => mkproc .PROCESS_READY 0 5 4294967295
    current := none
    readyqueue := [2, 3]
    resources := fun _ => { owner := none, waitqueue := [] }
    boostingType := { pip := false, pcp := false }
    first := false }

/-- An example with a boosted owner and two waiters: process 1 runs with
`prio` 9 above its `prio_orig` 3 and owns resource 0, for which process 4 and
then process 5 blocked in `prio_acquire` (wait queue `[5, 4]`); the ready
queue is `[2, 3]`. -/
def ex_boosted : State :=
  { procs := fun p =>
      if p = 1 then
        { status := .PROCESS_RUNNING, age := 1, lifespan := 4, prio := 9, prio_orig := 3 }
      else if p = 4 then mkproc .PROCESS_WAIT 2 6 9
      else if p = 5 then mkproc .PROCESS_WAIT 1 6 5
      else mkproc .PROCESS_READY 0 5 2
    current := some 1
    readyqueue := [2, 3]
    resources := fun r =>
      if r = 0 then { owner := some 1, waitqueue := [5, 4] }
      else { owner := none, waitqueue := [] }
    boostingType := { pip := true, pcp := false }
    first := false }

/-- The state after `prio_acquire` for resource 0 in `ex_pcp_running`: the
occupant, process 1, owns resource 0 and its `prio` is `MAX_PRIO = 64`. -/
def ex_pcp_owned : State :=
  set_prio (set_owner ex_pcp_running 0 ex_pcp_running.current) 1 64

/-- The state after a `pcp_schedule` call on `ex_pcp_owned`, with its result,
process 1 again, installed as the occupant. -/
def ex_pcp_owned_later : State :=
  { (pcp_schedule ex_pcp_owned).2 with current := (pcp_schedule ex_pcp_owned).1 }

/-- An example with a stale status: process 1 (age 0 of lifespan 3) occupies
the running slot in status `PROCESS_WAIT` without being in a wait queue;
process 2 (lifespan 2) is ready and every other record is finished.  The
functions of `pa2.c` produce no such state: they write `PROCESS_WAIT` at
pa2.c:91 and pa2.c:451 only, each time right before the process is put on a
wait queue.  The example serves to show what the schedule functions rely
on. -/
def ex_stale : State :=
  { procs := fun p =>
      if p = 1 then mkproc .PROCESS_WAIT 0 3 0
      else if p = 2 then mkproc .PROCESS_READY 0 2 0
      else mkproc .PROCESS_READY 0 0 0
    current := some 1
    readyqueue := [2]
    resources := fun _ => { owner := none, waitqueue := [] }
    boostingType := { pip := false, pcp := false }
    first := false }

end PA2

namespace PA3

/-! ## Data model of the page-table simulator

Pointers to process records are natural numbers and `NULL` is `none`.  The
heap of process records is the function `procs`.  A page table holds its
second-level directories by value: every directory is reached through one
`outer_ptes` slot only, since each is allocated by the function that stores
it.  The list `processes` is the list of the addresses of its entries, first
entry first.  The constants `NR_PAGEFRAMES`, `NR_PTES_PER_PAGE` and
`RW_WRITE` of the absent header `vm.h` are parameters. -/

/-- Modelled from the spec: `struct pte` of the absent header `vm.h`, with the
fields that pa3.c reads and writes (`private_` stands for the field
`private`). -/
structure pte where
  valid : Bool
  writable : Bool
  pfn : Nat
  private_ : Nat
  deriving DecidableEq, Repr

/-- Modelled from the spec: `struct pte_directory` of the absent header
`vm.h`: the array `ptes`. -/
structure pte_directory where
  ptes : Nat → pte

/-- Modelled from the spec: `struct pagetable` of the absent header `vm.h`:
the array `outer_ptes` of pointers to directories. -/
structure pagetable where
  outer_ptes : Nat → Option pte_directory

/-- Modelled from the spec: `struct process` of the absent header `vm.h`: the
fields `pid` and `pagetable`; the field `list` is represented by the list
`processes` of the state. -/
structure process where
  pid : Nat
  pagetable : pagetable

/-- The globals of pa3.c: `processes`, `current`, `ptbr` and `mapcounts`,
together with the heap of process records.  `ptbr` is the address of the
process whose `pagetable` it points to. -/
structure State where
  procs : Nat → process
  current : Option Nat
  ptbr : Option Nat
  processes : List Nat
  mapcounts : Nat → Nat

/-- The entry `outer_ptes[outer]->ptes[inner]` of the page table of the
process at address `a`; `none` when the directory pointer is `NULL`. -/
def get_pte (s : State) (a outer inner : Nat) : Option pte :=
  match (s.procs a).pagetable.outer_ptes outer with
  | none => none
  | some d => some (d.ptes inner)

/-- The assignment `outer_ptes[outer] = d` in the page table of the process at
address `a`. -/
def set_dir (s : State) (a outer : Nat) (d : pte_directory) : State :=
  { s with procs := fun q =>
      if q = a then
        { s.procs a with pagetable :=
            { outer_ptes := fun o =>
                if o = outer then some d else (s.procs a).pagetable.outer_ptes o } }
      else s.procs q }

/-- An assignment to fields of the entry `outer_ptes[outer]->ptes[inner]` of
the page table of the process at address `a`; `none` when the directory
pointer is `NULL`. -/
def upd_pte (s : State) (a outer inner : Nat) (f : pte → pte) : Option State :=
  match (s.procs a).pagetable.outer_ptes outer with
  | none => none
  | some d =>
    some (set_dir s a outer { ptes := fun k => if k = inner then f (d.ptes inner) else d.ptes k })

/-- The statement `mapcounts[pfn]++` on an `unsigned int`. -/
def inc_mapcount (s : State) (pfn : Nat) : State :=
  { s with mapcounts := fun i =>
      if i = pfn then (s.mapcounts pfn + 1) % 2 ^ 32 else s.mapcounts i }

/-- The loop of `alloc_page` (pa3.c:69-76) with `n` iterations left at index
`i`: the first index from `i` on whose mapcount is 0, or `limit` when the
iterations run out. -/
def free_scan (mapcounts : Nat → Nat) (limit : Nat) : Nat → Nat → Nat
  | 0, _ => limit
  | n + 1, i => if mapcounts i = 0 then i else free_scan mapcounts limit n (i + 1)

/-- The function `alloc_page` (pa3.c:63-95).  `fresh` is the content of the
block that `malloc` returns when the directory is allocated.  The result is
the return value (`-1` is `2 ^ 32 - 1` as `unsigned int`) and the state
afterwards; `none` is the dereference of a `NULL` `ptbr`. -/
def alloc_page ( NR_PAGEFRAMES NR_PTES_PER_PAGE RW_WRITE : Nat) (fresh : pte_directory)
    (s : State) (vpn rw : Nat) : Option (Nat × State) :=
  let outer := vpn / NR_PTES_PER_PAGE
  let inner := vpn % NR_PTES_PER_PAGE
  let pfn := free_scan s.mapcounts NR_PAGEFRAMES NR_PAGEFRAMES 0
  if pfn ≥ NR_PAGEFRAMES then some (2 ^ 32 - 1, s)
  else
    match s.ptbr with
    | none => none
    | some a =>
      let s1 : State :=
        match (s.procs a).pagetable.outer_ptes outer with
        | none => set_dir s a outer fresh
        | some _ => s
      (upd_pte s1 a outer inner (fun e => { e with valid := true })).bind fun s2 =>
      (upd_pte s2 a outer inner (fun e => { e with pfn := pfn })).bind fun s3 =>
      let s4 := inc_mapcount s3 pfn
      if rw ≥ RW_WRITE then
        (upd_pte s4 a outer inner (fun e => { e with writable := true })).bind fun s5 =>
        some (pfn, s5)
      else some (pfn, s4)

/-- The body of the inner loop of the fork path of `switch_process`
(pa3.c:215-231) for the entry `j` of directory `i`; `a` is the process whose
page table `ptbr` points to and `cp` is the child. -/
def fork_entry (a cp : Nat) (i : Nat) (s : State) (j : Nat) : Option State :=
  (get_pte s a i j).bind fun e0 =>
  if e0.valid = true then
    (if e0.writable ≠ false then
      (upd_pte s a i j (fun e => { e with writable := false })).bind fun t1 =>
      (upd_pte t1 a i j (fun e => { e with private_ := 1 })).bind fun t2 =>
      upd_pte t2 cp i j (fun e => { e with private_ := 1 })
     else some s).bind fun s1 =>
    (get_pte s1 a i j).bind fun e1 =>
    (if e1.private_ = 1 then
      (upd_pte s1 a i j (fun e => { e with writable := false })).bind fun t1 =>
      upd_pte t1 cp i j (fun e => { e with private_ := 1 })
     else some s1).bind fun s2 =>
    (get_pte s2 a i j).bind fun e2 =>
    (upd_pte s2 cp i j (fun e => { e with pfn := e2.pfn })).bind fun s3 =>
    (upd_pte s3 cp i j (fun e => { e with valid := true })).bind fun s4 =>
    (get_pte s4 a i j).bind fun e4 =>
    some (inc_mapcount s4 e4.pfn)
  else some s

/-- The body of the outer loop of the fork path of `switch_process`
(pa3.c:211-233) for directory `i`; `junkdir i` is the content of the block
that `malloc` returns for the directory of the child. -/
def fork_dir ( NR_PTES_PER_PAGE : Nat) (a cp : Nat) (junkdir : Nat → pte_directory)
    (s : State) (i : Nat) : Option State :=
  match (s.procs a).pagetable.outer_ptes i with
  | none => some s
  | some _ =>
    (List.range NR_PTES_PER_PAGE).foldl
      (fun st j => st.bind fun t => fork_entry a cp i t j)
      (some (set_dir s cp i (junkdir i)))

/-- The function `switch_process` (pa3.c:190-239).  `cp` is the address of
the block that `malloc` returns for the child, `junk` its content, and
`junkdir i` the content of the block that `malloc` returns for directory `i`
of the child.  `none` is the dereference of a `NULL` pointer. -/
def switch_process ( NR_PTES_PER_PAGE : Nat) (cp : Nat) (junk : process)
    (junkdir : Nat → pte_directory) (s : State) (pid : Nat) : Option State :=
  match s.processes.find? (fun pos => (s.procs pos).pid = pid) with
  | some pos =>
    match s.current with
    | none => none
    | some c => some { s with processes := s.processes ++ [c], current := some pos,
                              ptbr := some pos }
  | none =>
    let s0 : State := { s with procs := fun q => if q = cp then junk else s.procs q }
    let forked : Option State :=
      (List.range NR_PTES_PER_PAGE).foldl
        (fun st i => st.bind fun t =>
          match t.ptbr with
          | none => none
          | some a => fork_dir NR_PTES_PER_PAGE a cp junkdir t i)
        (some s0)
    forked.bind fun s1 =>
    match s1.current with
    | none => none
    | some c =>
      let s2 : State := { s1 with processes := s1.processes ++ [c] }
      let s3 : State := { s2 with procs := fun q =>
        if q = cp then { s2.procs cp with pid := pid } else s2.procs q }
      some { s3 with current := some cp, ptbr := some cp }

/-- The statement `mapcounts[pfn]--` on an `unsigned int`. -/
def dec_mapcount (s : State) (pfn : Nat) : State :=
  { s with mapcounts := fun i =>
      if i = pfn then (s.mapcounts pfn + 2 ^ 32 - 1) % 2 ^ 32 else s.mapcounts i }

/-- The function `handle_page_fault` (pa3.c:138-169).  The first statement
reads `ptbr->outer_ptes[outer]->ptes[inner].pfn`, before the test of the
directory pointer against `NULL`; `none` is that dereference of a `NULL`
pointer.  The value that `alloc_page` returns is not used. -/
def handle_page_fault ( NR_PAGEFRAMES NR_PTES_PER_PAGE RW_WRITE : Nat) (fresh : pte_directory)
    (s : State) (vpn rw : Nat) : Option (Bool × State) :=
  let outer := vpn / NR_PTES_PER_PAGE
  let inner := vpn % NR_PTES_PER_PAGE
  match s.ptbr with
  | none => none
  | some a =>
    (get_pte s a outer inner).bind fun e0 =>
    let pfn := e0.pfn
    match (s.procs a).pagetable.outer_ptes outer with
    | none => some (false, s)
    | some d =>
      if (d.ptes inner).valid = false then some (false, s)
      else if rw = RW_WRITE ∧ (d.ptes inner).writable = false ∧ (d.ptes inner).private_ = 1 then
        (upd_pte s a outer inner (fun e => { e with writable := true })).bind fun s1 =>
        if s1.mapcounts pfn = 1 then some (true, s1)
        else if s1.mapcounts pfn ≥ 2 then
          let s2 := dec_mapcount s1 pfn
          (alloc_page NR_PAGEFRAMES NR_PTES_PER_PAGE RW_WRITE fresh s2 vpn RW_WRITE).bind
            fun res => some (true, res.2)
        else some (false, s1)
      else some (false, s)

/-- The sum of the mapcounts of the page frames. -/
def mapcount_sum ( NR_PAGEFRAMES : Nat) (s : State) : Nat :=
  ((List.range NR_PAGEFRAMES).map s.mapcounts).sum

/-! ## Example states of the page-table simulator -/

/-- A directory in which every entry is invalid, not writable, with frame 0. -/
def zero_dir : pte_directory :=
  { ptes := fun _ => { valid := false, writable := false, pfn := 0, private_ := 0 } }

/-- A directory as an uninitialised block may hold it: every entry is valid
and writable with frame 3. -/
def junk_dir : pte_directory :=
  { ptes := fun _ => { valid := true, writable := true, pfn := 3, private_ := 0 } }

/-- A process record with no directory. -/
def empty_process (pid : Nat) : process :=
  { pid := pid, pagetable := { outer_ptes := fun _ => none } }

/-- An example with `NR_PTES_PER_PAGE = 2` and `NR_PAGEFRAMES = 4`: the
process at address 0 (pid 0) is current and `ptbr` points to its page table,
whose directory 0 maps page 0 to frame 0, valid and writable, and leaves
page 1 invalid; it has no directory 1.  The process at address 1 (pid 1) is
the only entry of `processes`.  Frame 0 has mapcount 1 and every other frame
mapcount 0. -/
def ex_vm : State :=
  { procs := fun q =>
      if q = 0 then
        { pid := 0
          pagetable :=
            { outer_ptes := fun o =>
                if o = 0 then
                  some { ptes := fun k =>
                    if k = 0 then { valid := true, writable := true, pfn := 0, private_ := 0 }
                    else { valid := false, writable := false, pfn := 0, private_ := 0 } }
                else none } }
      else empty_process q
    current := some 0
    ptbr := some 0
    processes := [1]
    mapcounts := fun i => if i = 0 then 1 else 0 }

/-- An example as `ex_vm`, but every frame has mapcount 1. -/
def ex_vm_full : State :=
  { ex_vm with mapcounts := fun _ => 1 }

/-- A directory that maps page 0 to frame 0 and page 1 to frame 1, both
entries valid, not writable and marked `private`, as a fork leaves them. -/
def shared_dir : pte_directory :=
  { ptes := fun k =>
      if k = 0 then { valid := true, writable := false, pfn := 0, private_ := 1 }
      else if k = 1 then { valid := true, writable := false, pfn := 1, private_ := 1 }
      else { valid := false, writable := false, pfn := 0, private_ := 0 } }

/-- An example with `NR_PTES_PER_PAGE = 2` and `NR_PAGEFRAMES = 2`, as a fork
leaves it when every frame is in use: the parent at address 0 (in
`processes`) and the child at address 1 (current, `ptbr` points to its page
table) both hold `shared_dir` as directory 0, and both frames have
mapcount 2. -/
def ex_cow : State :=
  { procs := fun q =>
      if q = 0 ∨ q = 1 then
        { pid := q
          pagetable := { outer_ptes := fun o => if o = 0 then some shared_dir else none } }
      else empty_process q
    current := some 1
    ptbr := some 1
    processes := [0]
    mapcounts := fun i => if i = 0 ∨ i = 1 then 2 else 0 }

/-- An example as `ex_cow`, but the parent has released page 0, so that
frame 0 has mapcount 1 and only the child maps it. -/
def ex_cow_single : State :=
  { ex_cow with
    procs := fun q =>
      if q = 0 then
        { pid := 0
          pagetable :=
            { outer_ptes := fun o =>
                if o = 0 then
                  some { ptes := fun k =>
                    if k = 1 then { valid := true, writable := false, pfn := 1, private_ := 1 }
                    else { valid := false, writable := false, pfn := 0, private_ := 0 } }
                else none } }
      else ex_cow.procs q
    mapcounts := fun i => if i = 0 then 1 else if i = 1 then 2 else 0 }

end PA3

namespace PA2

/-! ## Theorems -/

/-- C1: on a resource without owner, `fcfs_acquire` returns true, makes the
current process the owner of that resource, and changes nothing else: the
ready queue, every wait queue, every other owner and every process record
(so the status of the current process) are as before. -/
theorem fcfs_acquire_free (s : State) (r : Nat) (h : (s.resources r).owner = none) :
    ∃ s', fcfs_acquire s r = .ok (true, s') ∧
      (s'.resources r).owner = s.current ∧
      s'.readyqueue = s.readyqueue ∧
      (∀ r', (s'.resources r').waitqueue = (s.resources r').waitqueue) ∧
      (∀ r', r' ≠ r → (s'.resources r').owner = (s.resources r').owner) ∧
      s'.procs = s.procs ∧
      (∀ c, s.current = some c → (s'.procs c).status = (s.procs c).status) ∧
      s'.current = s.current := by
  refine ⟨set_owner s r s.current, ?_, ?_, rfl, ?_, ?_, rfl, fun _ _ => rfl, rfl⟩
  · simp [fcfs_acquire, h]
  · simp [set_owner]
  · intro r'
    by_cases hr : r' = r <;> simp [set_owner, hr]
  · intro r' hr
    simp [set_owner, hr]

/-- Witness of C1: resource 1 of `ex_state` is free. -/
theorem fcfs_acquire_free_witness :
    (ex_state.resources 1).owner = none ∧
    ∃ s', fcfs_acquire ex_state 1 = .ok (true, s') ∧
      (s'.resources 1).owner = ex_state.current ∧
      s'.readyqueue = ex_state.readyqueue ∧
      (∀ r', (s'.resources r').waitqueue = (ex_state.resources r').waitqueue) ∧
      (∀ r', r' ≠ 1 → (s'.resources r').owner = (ex_state.resources r').owner) ∧
      s'.procs = ex_state.procs ∧
      (∀ c, ex_state.current = some c → (s'.procs c).status = (ex_state.procs c).status) ∧
      s'.current = ex_state.current :=
  ⟨rfl, fcfs_acquire_free ex_state 1 rfl⟩

/-- C2: on a resource that has an owner, `fcfs_acquire` called for the current
process `c` returns false, sets the status of `c` to `PROCESS_WAIT`, appends
`c` behind the earlier waiters of that resource, and leaves every owner, the
ready queue, the other wait queues and the other process records unchanged. -/
theorem fcfs_acquire_owned (s : State) (r o c : Nat)
    (ho : (s.resources r).owner = some o) (hc : s.current = some c) :
    ∃ s', fcfs_acquire s r = .ok (false, s') ∧
      (s'.procs c).status = .PROCESS_WAIT ∧
      (s'.resources r).waitqueue = (s.resources r).waitqueue ++ [c] ∧
      (s'.resources r).owner = some o ∧
      (∀ r', (s'.resources r').owner = (s.resources r').owner) ∧
      s'.readyqueue = s.readyqueue ∧
      (∀ r', r' ≠ r → (s'.resources r').waitqueue = (s.resources r').waitqueue) ∧
      (∀ p, p ≠ c → s'.procs p = s.procs p) ∧
      s'.current = s.current := by
  refine ⟨list_add_tail (set_status s c .PROCESS_WAIT) c (.waitqueue r), ?_, ?_, ?_, ?_, ?_,
    rfl, ?_, ?_, rfl⟩
  · simp [fcfs_acquire, ho, hc]
  · simp [list_add_tail, set_entries, set_status]
  · simp [list_add_tail, set_entries, set_status, entries]
  · simp [list_add_tail, set_entries, set_status, ho]
  · intro r'
    by_cases hr : r' = r
    · subst hr
      simp [list_add_tail, set_entries, set_status]
    · simp [list_add_tail, set_entries, set_status, hr]
  · intro r' hr
    simp [list_add_tail, set_entries, set_status, hr]
  · intro p hp
    simp [list_add_tail, set_entries, set_status, hp]

/-- Witness of C2: in `ex_state_owned` process 5 asks for resource 0, which
process 1 owns. -/
theorem fcfs_acquire_owned_witness :
    ∃ s', fcfs_acquire ex_state_owned 0 = .ok (false, s') ∧
      (s'.procs 5).status = .PROCESS_WAIT ∧
      (s'.resources 0).waitqueue = (ex_state_owned.resources 0).waitqueue ++ [5] ∧
      (s'.resources 0).owner = some 1 ∧
      (∀ r', (s'.resources r').owner = (ex_state_owned.resources r').owner) ∧
      s'.readyqueue = ex_state_owned.readyqueue ∧
      (∀ r', r' ≠ 0 →
        (s'.resources r').waitqueue = (ex_state_owned.resources r').waitqueue) ∧
      (∀ p, p ≠ 5 → s'.procs p = ex_state_owned.procs p) ∧
      s'.current = ex_state_owned.current :=
  fcfs_acquire_owned ex_state_owned 0 1 5 rfl rfl

/-- C3: when the current process `c` owns the resource, the waiters of the
resource are all in status `PROCESS_WAIT`, no waiter is queued twice and no
waiter is in the ready queue, `fcfs_release` succeeds and clears the owner;
if the wait queue was `w :: rest` it becomes `rest`, whose members are still
in status `PROCESS_WAIT`, while `w` gets status `PROCESS_READY` and is
appended to the ready queue; if the wait queue was empty the ready queue is
unchanged. -/
theorem fcfs_release_wakes_one (s : State) (r c : Nat)
    (hc : s.current = some c) (ho : (s.resources r).owner = some c)
    (hwait : ∀ x ∈ (s.resources r).waitqueue, (s.procs x).status = .PROCESS_WAIT)
    (hnodup : (s.resources r).waitqueue.Nodup)
    (hdisj : ∀ x ∈ (s.resources r).waitqueue, x ∉ s.readyqueue) :
    ∃ s', fcfs_release s r = .ok s' ∧
      (s'.resources r).owner = none ∧
      (∀ w rest, (s.resources r).waitqueue = w :: rest →
        (s'.resources r).waitqueue = rest ∧
        (∀ x ∈ rest, (s'.procs x).status = .PROCESS_WAIT) ∧
        (s'.procs w).status = .PROCESS_READY ∧
        s'.readyqueue = s.readyqueue ++ [w]) ∧
      ((s.resources r).waitqueue = [] →
        s'.readyqueue = s.readyqueue ∧ (s'.resources r).waitqueue = []) := by
  cases hq : (s.resources r).waitqueue with
  | nil =>
    refine ⟨set_owner s r none, ?_, ?_, ?_, ?_⟩
    · simp [fcfs_release, ho, hc, entries, set_owner, hq]
    · simp [set_owner]
    · intro w rest h
      simp at h
    · intro _
      simp [set_owner, hq]
  | cons w rest =>
    have hw : (s.procs w).status = .PROCESS_WAIT := hwait w (by simp [hq])
    have hwr : w ∉ rest := by
      rw [hq] at hnodup
      exact (List.nodup_cons.mp hnodup).1
    have hwq : w ∉ s.readyqueue := hdisj w (by simp [hq])
    refine ⟨list_add_tail (set_status (list_del_init (set_owner s r none) w) w .PROCESS_READY)
      w .readyqueue, ?_, ?_, ?_, ?_⟩
    · simp [fcfs_release, ho, hc, entries, set_owner, hq, hw]
    · simp [list_add_tail, set_entries, set_status, list_del_init, set_owner]
    · intro w' rest' h
      obtain ⟨h1, h2⟩ := List.cons.inj h
      subst h1
      subst h2
      refine ⟨?_, ?_, ?_, ?_⟩
      · simp [list_add_tail, set_entries, set_status, list_del_init, set_owner, hq]
      · intro x hx
        have hxw : x ≠ w := fun e => hwr (e ▸ hx)
        have := hwait x (by simp [hq, hx])
        simp [list_add_tail, set_entries, set_status, list_del_init, set_owner, hxw, this]
      · simp [list_add_tail, set_entries, set_status, list_del_init, set_owner]
      · simp [list_add_tail, set_entries, set_status, list_del_init, set_owner, entries,
          List.erase_of_not_mem hwq]
    · intro h
      simp at h

/-- Witness of C3: in `ex_state` process 1 runs and owns resource 0, for which
process 4 waits. -/
theorem fcfs_release_wakes_one_witness :
    ∃ s', fcfs_release ex_state 0 = .ok s' ∧
      (s'.resources 0).owner = none ∧
      (∀ w rest, (ex_state.resources 0).waitqueue = w :: rest →
        (s'.resources 0).waitqueue = rest ∧
        (∀ x ∈ rest, (s'.procs x).status = .PROCESS_WAIT) ∧
        (s'.procs w).status = .PROCESS_READY ∧
        s'.readyqueue = ex_state.readyqueue ++ [w]) ∧
      ((ex_state.resources 0).waitqueue = [] →
        s'.readyqueue = ex_state.readyqueue ∧ (s'.resources 0).waitqueue = []) :=
  fcfs_release_wakes_one ex_state 0 1 rfl rfl (by decide) (by decide) (by decide)

/-- C4: `fcfs_release` and `prio_release` abort on the ownership assertion
exactly when the owner of the resource is not the current process, and the
state at that abort is the state of the call: no owner, queue, status or
priority has been changed.  When there is a current process (and, for
`fcfs_release`, the waiters are in status `PROCESS_WAIT`) this is the only
way either function fails. -/
theorem release_not_owner_fatal (s : State) (r : Nat) :
    ((∃ s', fcfs_release s r = .error (.assert_owner, s')) ↔
        (s.resources r).owner ≠ s.current) ∧
    ((∃ s', prio_release s r = .error (.assert_owner, s')) ↔
        (s.resources r).owner ≠ s.current) ∧
    ((s.resources r).owner ≠ s.current →
        fcfs_release s r = .error (.assert_owner, s) ∧
        prio_release s r = .error (.assert_owner, s)) ∧
    ((∀ x ∈ (s.resources r).waitqueue, (s.procs x).status = .PROCESS_WAIT) →
        ((∃ e, fcfs_release s r = .error e) ↔ (s.resources r).owner ≠ s.current)) ∧
    (s.current ≠ none →
        ((∃ e, prio_release s r = .error e) ↔ (s.resources r).owner ≠ s.current)) := by
  by_cases h : (s.resources r).owner = s.current
  · refine ⟨?_, ?_, ?_, ?_, ?_⟩
    · simp only [ne_eq, h, not_true_eq_false, iff_false, not_exists]
      intro s'
      simp only [fcfs_release, h, ne_eq, not_true_eq_false, if_false]
      split
      · simp
      · split <;> simp
    · simp only [ne_eq, h, not_true_eq_false, iff_false, not_exists]
      intro s'
      simp only [prio_release, h, ne_eq, not_true_eq_false, if_false]
      split
      · simp
      · split <;> simp
    · intro h'
      exact absurd h h'
    · intro hwait
      simp only [ne_eq, h, not_true_eq_false, iff_false, not_exists]
      intro e
      simp only [fcfs_release, h, ne_eq, not_true_eq_false, if_false]
      split
      · simp
      · rename_i waiter tl hq
        have hmem : waiter ∈ (s.resources r).waitqueue := by
          simp [entries, set_owner] at hq
          simp [hq]
        have := hwait waiter hmem
        simp [set_owner, this]
    · intro hcur
      simp only [ne_eq, h, not_true_eq_false, iff_false, not_exists]
      intro e
      simp only [prio_release, h, ne_eq, not_true_eq_false, if_false]
      split
      · rename_i hnone
        exact absurd hnone hcur
      · split <;> simp
  · refine ⟨?_, ?_, ?_, ?_, ?_⟩
    · simp only [ne_eq, h, not_false_eq_true, iff_true]
      exact ⟨s, by simp [fcfs_release, h]⟩
    · simp only [ne_eq, h, not_false_eq_true, iff_true]
      exact ⟨s, by simp [prio_release, h]⟩
    · intro _
      exact ⟨by simp [fcfs_release, h], by simp [prio_release, h]⟩
    · intro _
      simp only [ne_eq, h, not_false_eq_true, iff_true]
      exact ⟨(.assert_owner, s), by simp [fcfs_release, h]⟩
    · intro _
      simp only [ne_eq, h, not_false_eq_true, iff_true]
      exact ⟨(.assert_owner, s), by simp [prio_release, h]⟩

/-! ### Selection lemmas -/

/-- The first entry of the ready queue is returned and taken out. -/
theorem pick_first_spec (s : State) :
    (pick_first s).1 = s.readyqueue.head? ∧
      (pick_first s).2.readyqueue = s.readyqueue.tail := by
  cases h : s.readyqueue with
  | nil => simp [pick_first, list_empty, entries, h]
  | cons a l => simp [pick_first, list_empty, entries, h, list_del_init]

/-- The scan started with `temp = t`: either `t` survives and no entry has a
smaller key, or the result is the first entry of least key, which is below
the key of `t`. -/
theorem scan_some_spec {α : Type} [LinearOrder α] (s : State)
    (replace : process → process → Bool) (key : Nat → α)
    (hrep : ∀ a b, replace (s.procs a) (s.procs b) = true ↔ key b < key a)
    (l : List Nat) (t : Nat) :
    (scan s replace (some t) l = some t ∧ ∀ q ∈ l, key t ≤ key q) ∨
    ∃ p l1 l2, l = l1 ++ p :: l2 ∧ scan s replace (some t) l = some p ∧ key p < key t ∧
      (∀ q ∈ l1, key p < key q) ∧ (∀ q ∈ l2, key p ≤ key q) := by
  induction l generalizing t with
  | nil => exact Or.inl ⟨by simp [scan], by simp⟩
  | cons pos rest ih =>
    by_cases h : replace (s.procs t) (s.procs pos) = true
    · have hlt := (hrep t pos).mp h
      rcases ih pos with ⟨he, hall⟩ | ⟨p, l1, l2, hl, he, hlt2, h1, h2⟩
      · exact Or.inr ⟨pos, [], rest, rfl, by simp [scan, h, he], hlt, by simp, hall⟩
      · refine Or.inr ⟨p, pos :: l1, l2, by simp [hl], by simp [scan, h, he],
          lt_trans hlt2 hlt, ?_, h2⟩
        intro q hq
        rcases List.mem_cons.mp hq with hq | hq
        · exact hq ▸ hlt2
        · exact h1 q hq
    · have hge : key t ≤ key pos := not_lt.mp (fun hh => h ((hrep t pos).mpr hh))
      rcases ih t with ⟨he, hall⟩ | ⟨p, l1, l2, hl, he, hlt2, h1, h2⟩
      · refine Or.inl ⟨by simp [scan, h, he], ?_⟩
        intro q hq
        rcases List.mem_cons.mp hq with hq | hq
        · exact hq ▸ hge
        · exact hall q hq
      · refine Or.inr ⟨p, pos :: l1, l2, by simp [hl], by simp [scan, h, he], hlt2, ?_, h2⟩
        intro q hq
        rcases List.mem_cons.mp hq with hq | hq
        · exact hq ▸ lt_of_lt_of_le hlt2 hge
        · exact h1 q hq

/-- The selecting `pick_next`: on an empty ready queue nothing is returned and
nothing changes; otherwise the first entry of least key is returned and is the
only entry taken out of the ready queue. -/
theorem pick_by_spec {α : Type} [LinearOrder α] (s : State)
    (replace : process → process → Bool) (key : Nat → α)
    (hrep : ∀ a b, replace (s.procs a) (s.procs b) = true ↔ key b < key a) :
    (s.readyqueue = [] → pick_by s replace = (none, s)) ∧
    (s.readyqueue ≠ [] → ∃ p l1 l2, s.readyqueue = l1 ++ p :: l2 ∧
      pick_by s replace = (some p, list_del_init s p) ∧
      (∀ q ∈ l1, key p < key q) ∧ (∀ q ∈ l2, key p ≤ key q) ∧
      (list_del_init s p).readyqueue = l1 ++ l2) := by
  constructor
  · intro h
    simp [pick_by, list_empty, entries, h]
  · intro hne
    cases hq : s.readyqueue with
    | nil => exact absurd hq hne
    | cons x rest =>
      have key_fact : ∃ p l1 l2, x :: rest = l1 ++ p :: l2 ∧
          scan s replace (some x) rest = some p ∧
          (∀ q ∈ l1, key p < key q) ∧ (∀ q ∈ l2, key p ≤ key q) := by
        rcases scan_some_spec s replace key hrep rest x with
          ⟨he, hall⟩ | ⟨p, l1, l2, hl, he, hlt, h1, h2⟩
        · exact ⟨x, [], rest, rfl, he, by simp, hall⟩
        · refine ⟨p, x :: l1, l2, by simp [hl], he, ?_, h2⟩
          intro q hq'
          rcases List.mem_cons.mp hq' with hq' | hq'
          · exact hq' ▸ hlt
          · exact h1 q hq'
      obtain ⟨p, l1, l2, hl, he, h1, h2⟩ := key_fact
      have hp : p ∉ l1 := fun hmem => lt_irrefl _ (h1 p hmem)
      refine ⟨p, l1, l2, hl, ?_, h1, h2, ?_⟩
      · simp [pick_by, list_empty, entries, hq, scan, he]
      · simp only [list_del_init, hq, hl]
        rw [List.erase_append_right _ hp, List.erase_cons_head]

/-! ### The policies -/

/-- C5: `fifo_schedule` returns the occupant and changes nothing when the
occupant exists, is not waiting and has `age < lifespan`; in every other case
it returns the first entry of the ready queue (nothing when the queue is
empty) and the ready queue becomes its tail: only that entry is removed and
the others keep their order. -/
theorem fifo_schedule_spec (s : State) :
    (∀ c, occupant_unfinished s c → fifo_schedule s = (some c, s)) ∧
    ((¬ ∃ c, occupant_unfinished s c) →
      (fifo_schedule s).1 = s.readyqueue.head? ∧
      (fifo_schedule s).2.readyqueue = s.readyqueue.tail) := by
  constructor
  · rintro c ⟨hc, hw, hl⟩
    simp [fifo_schedule, hc, hw, hl]
  · intro hno
    have hp := pick_first_spec s
    cases hc : s.current with
    | none => simpa [fifo_schedule, hc] using hp
    | some c =>
      by_cases hw : (s.procs c).status = .PROCESS_WAIT
      · simpa [fifo_schedule, hc, hw] using hp
      · by_cases hl : (s.procs c).age < (s.procs c).lifespan
        · exact absurd ⟨c, hc, hw, hl⟩ hno
        · simpa [fifo_schedule, hc, hw, hl] using hp

/-- Witness of C5: in `ex_state` the occupant, process 1, is unfinished and is
returned; in `ex_sched` the occupant is finished and process 2, the first
ready process, is returned. -/
theorem fifo_schedule_spec_witness :
    fifo_schedule ex_state = (some 1, ex_state) ∧
    ((fifo_schedule ex_sched).1 = ex_sched.readyqueue.head? ∧
      (fifo_schedule ex_sched).2.readyqueue = ex_sched.readyqueue.tail) :=
  ⟨(fifo_schedule_spec ex_state).1 1 (by decide),
   (fifo_schedule_spec ex_sched).2 (by
      rintro ⟨c, hc, _, hl⟩
      obtain rfl : 1 = c := Option.some.inj hc
      exact absurd hl (by decide))⟩

/-- C6: `sjf_schedule` returns the occupant and changes nothing when the
occupant exists, is not waiting and is unfinished; otherwise, on a ready
queue that is not empty, it returns a process `p` of the ready queue whose
lifespan is the minimum over the ready queue, every entry in front of `p` has
a strictly larger lifespan (so `p` is the entry nearest the head with that
minimum), and the ready queue loses exactly `p`. -/
theorem sjf_schedule_spec (s : State) :
    (∀ c, occupant_unfinished s c → sjf_schedule s = (some c, s)) ∧
    ((¬ ∃ c, occupant_unfinished s c) → s.readyqueue ≠ [] →
      ∃ p l1 l2, s.readyqueue = l1 ++ p :: l2 ∧
        (sjf_schedule s).1 = some p ∧
        (∀ q ∈ s.readyqueue, (s.procs p).lifespan ≤ (s.procs q).lifespan) ∧
        (∀ q ∈ l1, (s.procs p).lifespan < (s.procs q).lifespan) ∧
        (sjf_schedule s).2.readyqueue = l1 ++ l2) := by
  constructor
  · rintro c ⟨hc, hw, hl⟩
    simp [sjf_schedule, hc, hw, hl]
  · intro hno hne
    have hpick : sjf_schedule s = pick_by s (fun temp pos => temp.lifespan > pos.lifespan) := by
      cases hc : s.current with
      | none => simp [sjf_schedule, hc]
      | some c =>
        by_cases hw : (s.procs c).status = .PROCESS_WAIT
        · simp [sjf_schedule, hc, hw]
        · by_cases hl : (s.procs c).age < (s.procs c).lifespan
          · exact absurd ⟨c, hc, hw, hl⟩ hno
          · simp [sjf_schedule, hc, hw, hl]
    obtain ⟨p, l1, l2, hq, he, h1, h2, hdel⟩ :=
      (pick_by_spec s (fun temp pos => temp.lifespan > pos.lifespan)
        (fun q => (s.procs q).lifespan) (by intro a b; simp)).2 hne
    refine ⟨p, l1, l2, hq, by rw [hpick, he], ?_, h1, by rw [hpick, he]; exact hdel⟩
    intro q hmem
    rw [hq] at hmem
    rcases List.mem_append.mp hmem with hm | hm
    · exact le_of_lt (h1 q hm)
    · rcases List.mem_cons.mp hm with hm | hm
      · rw [hm]
      · exact h2 q hm

/-- Witness of C6: in `ex_sched` the occupant is finished and the ready queue
is not empty. -/
theorem sjf_schedule_spec_witness :
    ∃ p l1 l2, ex_sched.readyqueue = l1 ++ p :: l2 ∧
      (sjf_schedule ex_sched).1 = some p ∧
      (∀ q ∈ ex_sched.readyqueue, (ex_sched.procs p).lifespan ≤ (ex_sched.procs q).lifespan) ∧
      (∀ q ∈ l1, (ex_sched.procs p).lifespan < (ex_sched.procs q).lifespan) ∧
      (sjf_schedule ex_sched).2.readyqueue = l1 ++ l2 :=
  (sjf_schedule_spec ex_sched).2 (by
      rintro ⟨c, hc, _, hl⟩
      obtain rfl : 1 = c := Option.some.inj hc
      exact absurd hl (by decide)) (by decide)

/-- C7, the code at `ex_srtf_select`: the occupant, process 1, is unfinished
with remaining lifetime 1, the ready process 2 has remaining lifetime 5, and
`srtf_schedule` returns process 2, leaving process 1 in the ready queue: the
scan compares `lifespan` (10 against 5), not `lifespan - age`. -/
theorem srtf_schedule_selects_longer_remaining :
    occupant_unfinished ex_srtf_select 1 ∧
    ex_srtf_select.readyqueue = [2] ∧
    remaining ex_srtf_select 1 = 1 ∧
    remaining ex_srtf_select 2 = 5 ∧
    (srtf_schedule ex_srtf_select).1 = some 2 ∧
    (srtf_schedule ex_srtf_select).2.readyqueue = [1] := by
  decide

/-- C8, the code at `ex_srtf_keep`: the occupant, process 1, is unfinished
with remaining lifetime 3, the ready process 2 has the strictly smaller
remaining lifetime 2, and `srtf_schedule` still returns process 1: the scan
compares `lifespan` (4 against 5), not `lifespan - age`. -/
theorem srtf_schedule_keeps_longer_remaining :
    occupant_unfinished ex_srtf_keep 1 ∧
    2 ∈ ex_srtf_keep.readyqueue ∧
    remaining ex_srtf_keep 2 < remaining ex_srtf_keep 1 ∧
    (srtf_schedule ex_srtf_keep).1 = some 1 ∧
    (srtf_schedule ex_srtf_keep).2.readyqueue = [2] := by
  decide

/-- C9: with an unfinished, non-waiting occupant `c` (which is not itself in
the ready queue) and ready queue `h :: rest`, `rr_schedule` returns `h` and
leaves the ready queue `rest ++ [c]`; with such an occupant and an empty ready
queue it returns `c` and the ready queue stays empty; without such an
occupant it returns the first entry of the ready queue and removes only it. -/
theorem rr_schedule_spec (s : State) :
    (∀ c h rest, occupant_unfinished s c → c ∉ s.readyqueue → s.readyqueue = h :: rest →
      (rr_schedule s).1 = some h ∧ (rr_schedule s).2.readyqueue = rest ++ [c]) ∧
    (∀ c, occupant_unfinished s c → s.readyqueue = [] →
      (rr_schedule s).1 = some c ∧ (rr_schedule s).2.readyqueue = []) ∧
    ((¬ ∃ c, occupant_unfinished s c) →
      (rr_schedule s).1 = s.readyqueue.head? ∧
      (rr_schedule s).2.readyqueue = s.readyqueue.tail) := by
  refine ⟨?_, ?_, ?_⟩
  · rintro c h rest ⟨hc, hw, hl⟩ hnot hq
    have hmove : (list_move_tail s c .readyqueue).readyqueue = h :: (rest ++ [c]) := by
      have hnot2 : c ∉ h :: rest := hq ▸ hnot
      simp [list_move_tail, list_add_tail, set_entries, entries, list_del_init, hq,
        List.erase_of_not_mem hnot2]
    have hp := pick_first_spec (list_move_tail s c .readyqueue)
    rw [hmove] at hp
    simpa [rr_schedule, hc, hw, hl] using hp
  · rintro c ⟨hc, hw, hl⟩ hq
    have hmove : (list_move_tail s c .readyqueue).readyqueue = [c] := by
      simp [list_move_tail, list_add_tail, set_entries, entries, list_del_init, hq]
    have hp := pick_first_spec (list_move_tail s c .readyqueue)
    rw [hmove] at hp
    simpa [rr_schedule, hc, hw, hl] using hp
  · intro hno
    have hp := pick_first_spec s
    cases hc : s.current with
    | none => simpa [rr_schedule, hc] using hp
    | some c =>
      by_cases hw : (s.procs c).status = .PROCESS_WAIT
      · simpa [rr_schedule, hc, hw] using hp
      · by_cases hl : (s.procs c).age < (s.procs c).lifespan
        · exact absurd ⟨c, hc, hw, hl⟩ hno
        · simpa [rr_schedule, hc, hw, hl] using hp

/-- Witness of C9: in `ex_state` the occupant, process 1, is unfinished and
the ready queue is `[2, 3]`. -/
theorem rr_schedule_spec_witness :
    (rr_schedule ex_state).1 = some 2 ∧ (rr_schedule ex_state).2.readyqueue = [3] ++ [1] :=
  (rr_schedule_spec ex_state).1 1 2 [3] (by decide) (by decide) rfl

/-- C10: when the occupant is not itself in the ready queue, `prio_schedule`
selects among the candidates (the unfinished, non-waiting occupant, put in
front, followed by the ready processes): with no candidate it returns nothing
and changes nothing; otherwise it returns a candidate `p` of maximum `prio`,
every candidate in front of `p` has a strictly smaller `prio` (ties go to the
candidate met first), and the ready queue afterwards is the candidates
without `p`, in their order. -/
theorem prio_schedule_spec (s : State)
    (hdet : ∀ c, s.current = some c → c ∉ s.readyqueue) :
    (candidates s = [] → prio_schedule s = (none, s)) ∧
    (candidates s ≠ [] → ∃ p l1 l2, candidates s = l1 ++ p :: l2 ∧
      (prio_schedule s).1 = some p ∧
      (∀ q ∈ candidates s, (s.procs q).prio ≤ (s.procs p).prio) ∧
      (∀ q ∈ l1, (s.procs q).prio < (s.procs p).prio) ∧
      (prio_schedule s).2.readyqueue = l1 ++ l2) := by
  -- the state the selection runs on
  have hsel : ∃ s1, prio_schedule s = pick_by s1 (fun temp pos => temp.prio < pos.prio) ∧
      s1.readyqueue = candidates s ∧ s1.procs = s.procs ∧ (candidates s = [] → s1 = s) := by
    cases hc : s.current with
    | none => exact ⟨s, by simp [prio_schedule, hc], by simp [candidates, hc], rfl, fun _ => rfl⟩
    | some c =>
      by_cases hw : (s.procs c).status = .PROCESS_WAIT
      · exact ⟨s, by simp [prio_schedule, hc, hw],
          by simp [candidates, hc, occupant_unfinished, hw], rfl, fun _ => rfl⟩
      · by_cases hl : (s.procs c).age < (s.procs c).lifespan
        · refine ⟨list_move s c .readyqueue, by simp [prio_schedule, hc, hw, hl], ?_, ?_, ?_⟩
          · simp [candidates, hc, occupant_unfinished, hw, hl, list_move, list_add,
              set_entries, entries, list_del_init, List.erase_of_not_mem (hdet c hc)]
          · simp [list_move, list_add, set_entries, list_del_init]
          · intro h
            simp [candidates, hc, occupant_unfinished, hw, hl] at h
        · exact ⟨s, by simp [prio_schedule, hc, hw, hl],
            by simp [candidates, hc, occupant_unfinished, hw, hl], rfl, fun _ => rfl⟩
  obtain ⟨s1, hrun, hrq, hprocs, hsame⟩ := hsel
  have hspec := pick_by_spec s1 (fun temp pos => temp.prio < pos.prio)
    (fun q => OrderDual.toDual (s1.procs q).prio) (by intro a b; simp)
  constructor
  · intro hnil
    rw [hrun, hspec.1 (by rw [hrq]; exact hnil), hsame hnil]
  · intro hne
    obtain ⟨p, l1, l2, hq, he, h1, h2, hdel⟩ := hspec.2 (by rw [hrq]; exact hne)
    rw [hrq] at hq
    refine ⟨p, l1, l2, hq, by rw [hrun, he], ?_, ?_, by rw [hrun, he]; exact hdel⟩
    · intro q hmem
      rw [hq] at hmem
      rcases List.mem_append.mp hmem with hm | hm
      · have := h1 q hm
        rw [hprocs] at this
        exact le_of_lt (OrderDual.toDual_lt_toDual.mp this)
      · rcases List.mem_cons.mp hm with hm | hm
        · rw [hm]
        · have := h2 q hm
          rw [hprocs] at this
          exact OrderDual.toDual_le_toDual.mp this
    · intro q hm
      have := h1 q hm
      rw [hprocs] at this
      exact OrderDual.toDual_lt_toDual.mp this

/-- Witness of C10: in `ex_state` the occupant, process 1, is unfinished and
not in the ready queue `[2, 3]`. -/
theorem prio_schedule_spec_witness :
    (∀ c, ex_state.current = some c → c ∉ ex_state.readyqueue) ∧
    ∃ p l1 l2, candidates ex_state = l1 ++ p :: l2 ∧
      (prio_schedule ex_state).1 = some p ∧
      (∀ q ∈ candidates ex_state, (ex_state.procs q).prio ≤ (ex_state.procs p).prio) ∧
      (∀ q ∈ l1, (ex_state.procs q).prio < (ex_state.procs p).prio) ∧
      (prio_schedule ex_state).2.readyqueue = l1 ++ l2 :=
  have h : ∀ c, ex_state.current = some c → c ∉ ex_state.readyqueue := by
    intro c hc
    obtain rfl : 1 = c := Option.some.inj hc
    decide
  ⟨h, (prio_schedule_spec ex_state h).2 (by decide)⟩

/-! ### Priority-family initialisation and arbitration -/

/-- The loop of `prio_initialize` over a list of entries: only `prio_orig` of
the entries changes, to their `prio`. -/
theorem initialize_loop_spec (l : List Nat) (st : State) :
    (l.foldl (fun st pos => set_prio_orig st pos (st.procs pos).prio) st).readyqueue
        = st.readyqueue ∧
    (l.foldl (fun st pos => set_prio_orig st pos (st.procs pos).prio) st).resources
        = st.resources ∧
    (l.foldl (fun st pos => set_prio_orig st pos (st.procs pos).prio) st).current
        = st.current ∧
    (l.foldl (fun st pos => set_prio_orig st pos (st.procs pos).prio) st).boostingType
        = st.boostingType ∧
    (l.foldl (fun st pos => set_prio_orig st pos (st.procs pos).prio) st).first = st.first ∧
    ∀ p, (l.foldl (fun st pos => set_prio_orig st pos (st.procs pos).prio) st).procs p
        = if p ∈ l then { st.procs p with prio_orig := (st.procs p).prio } else st.procs p := by
  induction l generalizing st with
  | nil => simp
  | cons a l ih =>
    obtain ⟨h1, h2, h3, h4, h5, h6⟩ := ih (set_prio_orig st a (st.procs a).prio)
    simp only [List.foldl_cons]
    refine ⟨h1, h2, h3, h4, h5, ?_⟩
    intro p
    rw [h6 p]
    by_cases hpa : p = a
    · subst hpa
      by_cases hpl : p ∈ l <;> simp [set_prio_orig, hpl]
    · by_cases hpl : p ∈ l <;> simp [set_prio_orig, hpl, hpa]

/-- C13: `prio_initialize` returns 0; afterwards every process of the ready
queue has `prio_orig` equal to its `prio`, both flags `pip` and `pcp` are
clear, the ready queue is the same list, and no `prio` has changed (nor any
record outside the ready queue, the resource table or `current`). -/
theorem prio_initialize_spec (s : State) :
    ( prio_initialize s).1 = 0 ∧
    (∀ p ∈ s.readyqueue, (( prio_initialize s).2.procs p).prio_orig = (s.procs p).prio) ∧
    ( prio_initialize s).2.boostingType.pip = false ∧
    ( prio_initialize s).2.boostingType.pcp = false ∧
    ( prio_initialize s).2.readyqueue = s.readyqueue ∧
    (∀ p, (( prio_initialize s).2.procs p).prio = (s.procs p).prio) ∧
    (∀ p, p ∉ s.readyqueue → ( prio_initialize s).2.procs p = s.procs p) ∧
    ( prio_initialize s).2.resources = s.resources ∧
    ( prio_initialize s).2.current = s.current := by
  obtain ⟨h1, h2, h3, h4, h5, h6⟩ := initialize_loop_spec s.readyqueue
    { s with boostingType := { pip := false, pcp := false }, first := true }
  refine ⟨rfl, ?_, ?_, ?_, ?_, ?_, ?_, ?_, ?_⟩
  · intro p hp
    simp only [ prio_initialize, entries]
    rw [h6 p]
    simp [hp]
  · simp only [ prio_initialize, entries]
    rw [h4]
  · simp only [ prio_initialize, entries]
    rw [h4]
  · simp only [ prio_initialize, entries]
    rw [h1]
  · intro p
    simp only [ prio_initialize, entries]
    rw [h6 p]
    by_cases hp : p ∈ s.readyqueue <;> simp [hp]
  · intro p hp
    simp only [ prio_initialize, entries]
    rw [h6 p]
    simp [hp]
  · simp only [ prio_initialize, entries]
    rw [h2]
  · simp only [ prio_initialize, entries]
    rw [h3]

/-- C14: under the PIP mode, `prio_acquire` on a free resource returns true,
makes the current process the owner and changes no `prio`; on a resource
owned by `o`, called for the current process `c`, it returns false and leaves
the `prio` of `o` equal to the maximum of the `prio` of `o` and of `c`, every
other `prio` and the owner being unchanged. -/
theorem prio_acquire_pip ( MAX_PRIO : Nat) (s : State) (r : Nat)
    (hpip : s.boostingType.pip = true) (hpcp : s.boostingType.pcp = false) :
    ((s.resources r).owner = none →
      ∃ s', prio_acquire MAX_PRIO s r = .ok (true, s') ∧
        (s'.resources r).owner = s.current ∧
        ∀ p, (s'.procs p).prio = (s.procs p).prio) ∧
    (∀ o c, (s.resources r).owner = some o → s.current = some c →
      ∃ s', prio_acquire MAX_PRIO s r = .ok (false, s') ∧
        (s'.procs o).prio = max (s.procs o).prio (s.procs c).prio ∧
        ((s.procs o).prio < (s.procs c).prio → (s'.procs o).prio = (s.procs c).prio) ∧
        (¬ (s.procs o).prio < (s.procs c).prio → (s'.procs o).prio = (s.procs o).prio) ∧
        (∀ p, p ≠ o → (s'.procs p).prio = (s.procs p).prio) ∧
        (s'.resources r).owner = some o) := by
  constructor
  · intro ho
    refine ⟨set_owner s r s.current, ?_, ?_, fun _ => rfl⟩
    · simp [prio_acquire, ho, set_owner, hpcp]
    · simp [set_owner]
  · intro o c ho hc
    by_cases hlt : (s.procs o).prio < (s.procs c).prio
    · refine ⟨list_move (set_status (set_prio s o (s.procs c).prio) c .PROCESS_WAIT) c
        (.waitqueue r), ?_, ?_, ?_, ?_, ?_, ?_⟩
      · simp [prio_acquire, ho, hc, hpip, hlt]
      · by_cases hoc : o = c
        · subst hoc
          simp [list_move, list_add, set_entries, list_del_init, set_status, set_prio]
        · simp [list_move, list_add, set_entries, list_del_init, set_status, set_prio, hoc,
            max_eq_right (le_of_lt hlt)]
      · intro _
        by_cases hoc : o = c
        · subst hoc
          simp [list_move, list_add, set_entries, list_del_init, set_status, set_prio]
        · simp [list_move, list_add, set_entries, list_del_init, set_status, set_prio, hoc]
      · intro h
        exact absurd hlt h
      · intro p hp
        by_cases hpc : p = c
        · subst hpc
          simp [list_move, list_add, set_entries, list_del_init, set_status, set_prio, hp]
        · simp [list_move, list_add, set_entries, list_del_init, set_status, set_prio, hp, hpc]
      · simp [list_move, list_add, set_entries, list_del_init, set_status, set_prio, ho]
    · refine ⟨list_move (set_status s c .PROCESS_WAIT) c (.waitqueue r), ?_, ?_, ?_, ?_, ?_, ?_⟩
      · simp [prio_acquire, ho, hc, hpip, hlt]
      · by_cases hoc : o = c
        · subst hoc
          simp [list_move, list_add, set_entries, list_del_init, set_status]
        · simp [list_move, list_add, set_entries, list_del_init, set_status, hoc,
            max_eq_left (not_lt.mp hlt)]
      · intro h
        exact absurd h hlt
      · intro _
        by_cases hoc : o = c
        · subst hoc
          simp [list_move, list_add, set_entries, list_del_init, set_status]
        · simp [list_move, list_add, set_entries, list_del_init, set_status, hoc]
      · intro p _
        by_cases hpc : p = c
        · subst hpc
          simp [list_move, list_add, set_entries, list_del_init, set_status]
        · simp [list_move, list_add, set_entries, list_del_init, set_status, hpc]
      · simp [list_move, list_add, set_entries, list_del_init, set_status, ho]

/-- Witness of C14: in `ex_pip` process 1 (prio 5) asks for resource 0, owned
by process 2 (prio 2). -/
theorem prio_acquire_pip_witness :
    ∃ s', prio_acquire 64 ex_pip 0 = .ok (false, s') ∧
      (s'.procs 2).prio = max (ex_pip.procs 2).prio (ex_pip.procs 1).prio ∧
      ((ex_pip.procs 2).prio < (ex_pip.procs 1).prio →
        (s'.procs 2).prio = (ex_pip.procs 1).prio) ∧
      (¬ (ex_pip.procs 2).prio < (ex_pip.procs 1).prio →
        (s'.procs 2).prio = (ex_pip.procs 2).prio) ∧
      (∀ p, p ≠ 2 → (s'.procs p).prio = (ex_pip.procs p).prio) ∧
      (s'.resources 0).owner = some 2 :=
  (prio_acquire_pip 64 ex_pip 0 rfl rfl).2 2 1 rfl rfl

/-- C15: under the PCP mode, `prio_acquire` called for the current process
`c` on a free resource returns true, makes `c` the owner and sets the `prio`
of `c` to `MAX_PRIO`; on a resource owned by `o` it returns false and leaves
the owner and the `prio` of `o` (and every other `prio`) unchanged. -/
theorem prio_acquire_pcp ( MAX_PRIO : Nat) (s : State) (r c : Nat)
    (hpip : s.boostingType.pip = false) (hpcp : s.boostingType.pcp = true)
    (hc : s.current = some c) :
    ((s.resources r).owner = none →
      ∃ s', prio_acquire MAX_PRIO s r = .ok (true, s') ∧
        (s'.resources r).owner = some c ∧
        (s'.procs c).prio = MAX_PRIO ∧
        (∀ p, p ≠ c → (s'.procs p).prio = (s.procs p).prio)) ∧
    (∀ o, (s.resources r).owner = some o →
      ∃ s', prio_acquire MAX_PRIO s r = .ok (false, s') ∧
        (s'.procs o).prio = (s.procs o).prio ∧
        (∀ p, (s'.procs p).prio = (s.procs p).prio) ∧
        (s'.resources r).owner = some o) := by
  constructor
  · intro ho
    refine ⟨set_prio (set_owner s r s.current) c MAX_PRIO, ?_, ?_, ?_, ?_⟩
    · simp [prio_acquire, ho, set_owner, hpcp, hc]
    · simp [set_prio, set_owner, hc]
    · simp [set_prio, set_owner]
    · intro p hp
      simp [set_prio, set_owner, hp]
  · intro o ho
    have hall : ∀ p, ((list_move (set_status s c .PROCESS_WAIT) c (.waitqueue r)).procs p).prio
        = (s.procs p).prio := by
      intro p
      by_cases hpc : p = c
      · subst hpc
        simp [list_move, list_add, set_entries, list_del_init, set_status]
      · simp [list_move, list_add, set_entries, list_del_init, set_status, hpc]
    refine ⟨list_move (set_status s c .PROCESS_WAIT) c (.waitqueue r), ?_, hall o, hall, ?_⟩
    · simp [prio_acquire, ho, hc, hpip]
    · simp [list_move, list_add, set_entries, list_del_init, set_status, ho]

/-- Witness of C15: in `ex_pcp` process 1 asks for the free resource 1. -/
theorem prio_acquire_pcp_witness :
    ∃ s', prio_acquire 64 ex_pcp 1 = .ok (true, s') ∧
      (s'.resources 1).owner = some 1 ∧
      (s'.procs 1).prio = 64 ∧
      (∀ p, p ≠ 1 → (s'.procs p).prio = (ex_pcp.procs p).prio) :=
  (prio_acquire_pcp 64 ex_pcp 1 1 rfl rfl rfl).1 rfl

/-! ### Priority with aging -/

/-- A list that is not empty is scanned to its first entry of least key. -/
theorem scan_none_spec {α : Type} [LinearOrder α] (s : State)
    (replace : process → process → Bool) (key : Nat → α)
    (hrep : ∀ a b, replace (s.procs a) (s.procs b) = true ↔ key b < key a)
    (l : List Nat) (hne : l ≠ []) :
    ∃ p l1 l2, l = l1 ++ p :: l2 ∧ scan s replace none l = some p ∧
      (∀ q ∈ l1, key p < key q) ∧ (∀ q ∈ l2, key p ≤ key q) := by
  cases l with
  | nil => exact absurd rfl hne
  | cons x rest =>
    rcases scan_some_spec s replace key hrep rest x with
      ⟨he, hall⟩ | ⟨p, l1, l2, hl, he, hlt, h1, h2⟩
    · exact ⟨x, [], rest, rfl, by simp [scan, he], by simp, hall⟩
    · refine ⟨p, x :: l1, l2, by simp [hl], by simp [scan, he], ?_, h2⟩
      intro q hq
      rcases List.mem_cons.mp hq with hq | hq
      · exact hq ▸ hlt
      · exact h1 q hq

/-- A list has at most one splitting around a first entry of least key. -/
theorem first_least_unique {α : Type} [LinearOrder α] (key : Nat → α)
    (l1 : List Nat) (p : Nat) (l2 : List Nat) (m1 : List Nat) (p' : Nat) (m2 : List Nat)
    (h : l1 ++ p :: l2 = m1 ++ p' :: m2)
    (h1 : ∀ q ∈ l1, key p < key q) (h2 : ∀ q ∈ l2, key p ≤ key q)
    (k1 : ∀ q ∈ m1, key p' < key q) (k2 : ∀ q ∈ m2, key p' ≤ key q) :
    l1 = m1 ∧ p = p' ∧ l2 = m2 := by
  induction l1 generalizing m1 with
  | nil =>
    cases m1 with
    | nil =>
      simp only [List.nil_append, List.cons.injEq] at h
      exact ⟨rfl, h.1, h.2⟩
    | cons a t =>
      simp only [List.nil_append, List.cons_append, List.cons.injEq] at h
      have hlt : key p' < key p := by
        have := k1 a (by simp)
        rwa [← h.1] at this
      have hle : key p ≤ key p' := h2 p' (by rw [h.2]; simp)
      exact absurd hlt (not_lt.mpr hle)
  | cons a t ih =>
    cases m1 with
    | nil =>
      simp only [List.nil_append, List.cons_append, List.cons.injEq] at h
      have hlt : key p < key p' := by
        have := h1 a (by simp)
        rwa [h.1] at this
      have hle : key p' ≤ key p := k2 p (by rw [← h.2]; simp)
      exact absurd hlt (not_lt.mpr hle)
    | cons b u =>
      simp only [List.cons_append, List.cons.injEq] at h
      obtain ⟨e1, e2, e3⟩ := ih u h.2 (fun q hq => h1 q (by simp [hq]))
        (fun q hq => k1 q (by simp [hq]))
      exact ⟨by rw [h.1, e1], e2, e3⟩

/-- The aging loop of `pa_schedule` over a list without repetition: the
`prio` of each entry grows by 1 modulo `2 ^ 32` and nothing else changes. -/
theorem aging_loop_spec (l : List Nat) (hnd : l.Nodup) (st : State) :
    (l.foldl (fun st pos => set_prio st pos (((st.procs pos).prio + 1) % 2 ^ 32)) st).readyqueue
        = st.readyqueue ∧
    (l.foldl (fun st pos => set_prio st pos (((st.procs pos).prio + 1) % 2 ^ 32)) st).resources
        = st.resources ∧
    ∀ p, (l.foldl (fun st pos => set_prio st pos (((st.procs pos).prio + 1) % 2 ^ 32)) st).procs p
        = if p ∈ l then { st.procs p with prio := ((st.procs p).prio + 1) % 2 ^ 32 }
          else st.procs p := by
  induction l generalizing st with
  | nil => simp
  | cons a l ih =>
    obtain ⟨hal, hl⟩ := List.nodup_cons.mp hnd
    obtain ⟨h1, h2, h3⟩ := ih hl (set_prio st a (((st.procs a).prio + 1) % 2 ^ 32))
    simp only [List.foldl_cons]
    refine ⟨h1, h2, ?_⟩
    intro p
    rw [h3 p]
    by_cases hpa : p = a
    · subst hpa
      simp [set_prio, hal]
    · by_cases hpl : p ∈ l <;> simp [set_prio, hpl, hpa]

/-- The aging loop leaves the ready queue as it is, whatever the list. -/
theorem aging_loop_readyqueue (l : List Nat) (st : State) :
    (l.foldl (fun st pos => set_prio st pos (((st.procs pos).prio + 1) % 2 ^ 32)) st).readyqueue
        = st.readyqueue := by
  induction l generalizing st with
  | nil => rfl
  | cons a l ih =>
    simp only [List.foldl_cons]
    rw [ih]
    rfl

/-- The selection of `pa_schedule` returns the process the selection of
`prio_schedule` returns, and leaves the same ready queue. -/
theorem pa_pick_next_eq_pick_by (s : State) :
    (pa_pick_next s).1 = (pick_by s (fun temp pos => temp.prio < pos.prio)).1 ∧
    (pa_pick_next s).2.readyqueue
      = (pick_by s (fun temp pos => temp.prio < pos.prio)).2.readyqueue := by
  unfold pa_pick_next pick_by
  by_cases he : list_empty s .readyqueue = true
  · simp [he]
  · simp only [he]
    cases hs : scan s (fun temp pos => decide (temp.prio < pos.prio)) none
        (entries s .readyqueue) with
    | none => simp
    | some next =>
      simp only [Bool.false_eq_true, if_false]
      constructor
      · first | rfl | trivial
      · rw [aging_loop_readyqueue]
        simp [list_del_init, set_prio]

/-- The selection of `pa_schedule` on a ready queue without repetition: the
selected process gets `prio = prio_orig`, the others of the ready queue get
`prio + 1` modulo `2 ^ 32`, every other record is unchanged. -/
theorem pa_pick_next_procs (s : State) (hnd : s.readyqueue.Nodup) (p : Nat) (s' : State)
    (h : pa_pick_next s = (some p, s')) :
    p ∈ s.readyqueue ∧ s'.readyqueue = s.readyqueue.erase p ∧
    ∀ q, s'.procs q =
      if q ∈ s.readyqueue.erase p then
        { s.procs q with prio := ((s.procs q).prio + 1) % 2 ^ 32 }
      else if q = p then { s.procs p with prio := (s.procs p).prio_orig }
      else s.procs q := by
  unfold pa_pick_next at h
  by_cases he : list_empty s .readyqueue = true
  · simp [he] at h
  · simp only [he] at h
    have hne : s.readyqueue ≠ [] := by
      intro hnil
      simp [list_empty, entries, hnil] at he
    obtain ⟨p0, l1, l2, hl, hs, -, -⟩ := scan_none_spec s (fun temp pos => temp.prio < pos.prio)
      (fun q => OrderDual.toDual (s.procs q).prio) (by intro a b; simp) s.readyqueue hne
    simp only [entries] at h
    rw [hs] at h
    simp only [Bool.false_eq_true, if_false, Prod.mk.injEq, Option.some.injEq] at h
    obtain ⟨hp, hs'⟩ := h
    subst hp
    have hmem : p0 ∈ s.readyqueue := by rw [hl]; simp
    have hnd2 : (s.readyqueue.erase p0).Nodup := hnd.erase p0
    obtain ⟨h1, _, h3⟩ := aging_loop_spec (s.readyqueue.erase p0) hnd2
      (list_del_init (set_prio s p0 (s.procs p0).prio_orig) p0)
    have hrq : (list_del_init (set_prio s p0 (s.procs p0).prio_orig) p0).readyqueue
        = s.readyqueue.erase p0 := by simp [list_del_init, set_prio]
    rw [hrq] at hs'
    refine ⟨hmem, by rw [← hs']; exact h1, ?_⟩
    intro q
    rw [← hs', h3 q]
    by_cases hq : q ∈ s.readyqueue.erase p0
    · have hqp : q ≠ p0 := fun e => (List.Nodup.not_mem_erase hnd) (e ▸ hq)
      simp [hq, list_del_init, set_prio, hqp]
    · by_cases hqp : q = p0
      · subst hqp
        simp [hq, list_del_init, set_prio]
      · simp [hq, list_del_init, set_prio, hqp]

/-- Moving a process that is not in the ready queue to its head. -/
theorem list_move_readyqueue (s : State) (c : Nat) (hc : c ∉ s.readyqueue) :
    (list_move s c .readyqueue).readyqueue = c :: s.readyqueue ∧
    (list_move s c .readyqueue).procs = s.procs := by
  simp [list_move, list_add, set_entries, entries, list_del_init, List.erase_of_not_mem hc]

/-- Moving a process that is not in the ready queue to its tail. -/
theorem list_move_tail_readyqueue (s : State) (c : Nat) (hc : c ∉ s.readyqueue) :
    (list_move_tail s c .readyqueue).readyqueue = s.readyqueue ++ [c] ∧
    (list_move_tail s c .readyqueue).procs = s.procs := by
  simp [list_move_tail, list_add_tail, set_entries, entries, list_del_init,
    List.erase_of_not_mem hc]

/-- With an unfinished occupant `prio_schedule` selects after `list_move`. -/
theorem prio_schedule_unfinished (s : State) (c : Nat) (h : occupant_unfinished s c) :
    prio_schedule s
      = pick_by (list_move s c .readyqueue) (fun temp pos => temp.prio < pos.prio) := by
  obtain ⟨hc, hw, hl⟩ := h
  simp [prio_schedule, hc, hw, hl]

/-- Without an unfinished occupant `prio_schedule` selects from the ready
queue as it is. -/
theorem prio_schedule_no_occupant (s : State) (h : ¬ ∃ c, occupant_unfinished s c) :
    prio_schedule s = pick_by s (fun temp pos => temp.prio < pos.prio) := by
  cases hc : s.current with
  | none => simp [prio_schedule, hc]
  | some c =>
    by_cases hw : (s.procs c).status = .PROCESS_WAIT
    · simp [prio_schedule, hc, hw]
    · by_cases hl : (s.procs c).age < (s.procs c).lifespan
      · exact absurd ⟨c, hc, hw, hl⟩ h
      · simp [prio_schedule, hc, hw, hl]

/-- With an unfinished occupant `pa_schedule` selects after `list_move_tail`. -/
theorem pa_schedule_unfinished (s : State) (c : Nat) (h : occupant_unfinished s c) :
    pa_schedule s = pa_pick_next (list_move_tail s c .readyqueue) := by
  obtain ⟨hc, hw, hl⟩ := h
  simp [pa_schedule, hc, hw, hl]

/-- Without an unfinished occupant `pa_schedule` selects from the ready queue
as it is. -/
theorem pa_schedule_no_occupant (s : State) (h : ¬ ∃ c, occupant_unfinished s c) :
    pa_schedule s = pa_pick_next s := by
  cases hc : s.current with
  | none => simp [pa_schedule, hc]
  | some c =>
    by_cases hw : (s.procs c).status = .PROCESS_WAIT
    · simp [pa_schedule, hc, hw]
    · by_cases hl : (s.procs c).age < (s.procs c).lifespan
      · exact absurd ⟨c, hc, hw, hl⟩ h
      · simp [pa_schedule, hc, hw, hl]

/-- C11: on a ready queue without repetition that does not hold the occupant,
whenever `pa_schedule` returns a process `p`, the `prio` of `p` equals its
`prio_orig` on return, every process left in the ready queue has its `prio`
of before the call plus 1 in the 32 bits of the field, which is exactly one
greater than before whenever that sum is below `2 ^ 32`, and no `prio_orig`
has changed; a process is returned whenever the ready queue is not empty or
the occupant is unfinished and not waiting, and such an occupant, when not
returned, is in the ready queue afterwards. -/
theorem pa_schedule_prio_update (s : State) (hnd : s.readyqueue.Nodup)
    (hdet : ∀ c, s.current = some c → c ∉ s.readyqueue) :
    (∀ p s', pa_schedule s = (some p, s') →
      (s'.procs p).prio = (s'.procs p).prio_orig ∧
      (∀ q ∈ s'.readyqueue,
        (s'.procs q).prio = ((s.procs q).prio + 1) % 2 ^ 32 ∧
        ((s.procs q).prio + 1 < 2 ^ 32 → (s'.procs q).prio = (s.procs q).prio + 1)) ∧
      (∀ q, (s'.procs q).prio_orig = (s.procs q).prio_orig)) ∧
    ((s.readyqueue ≠ [] ∨ ∃ c, occupant_unfinished s c) →
      ∃ p, (pa_schedule s).1 = some p) ∧
    (∀ c, occupant_unfinished s c → (pa_schedule s).1 ≠ some c →
      c ∈ (pa_schedule s).2.readyqueue) := by
  -- the state the selection runs on
  have hsel : ∃ s1, pa_schedule s = pa_pick_next s1 ∧ s1.procs = s.procs ∧
      s1.readyqueue.Nodup ∧
      ((s.readyqueue ≠ [] ∨ ∃ c, occupant_unfinished s c) → s1.readyqueue ≠ []) ∧
      (∀ c, occupant_unfinished s c → c ∈ s1.readyqueue) := by
    by_cases hocc : ∃ c, occupant_unfinished s c
    · obtain ⟨c, hc⟩ := hocc
      obtain ⟨hrq, hprocs⟩ := list_move_tail_readyqueue s c (hdet c hc.1)
      refine ⟨list_move_tail s c .readyqueue, pa_schedule_unfinished s c hc, hprocs, ?_, ?_, ?_⟩
      · rw [hrq]
        exact List.Nodup.append hnd (List.nodup_singleton c)
          (by simpa using hdet c hc.1)
      · intro _
        rw [hrq]
        simp
      · intro c' hc'
        have : c' = c := Option.some.inj (hc'.1.symm.trans hc.1)
        rw [hrq, this]
        simp
    · refine ⟨s, pa_schedule_no_occupant s hocc, rfl, hnd, ?_, ?_⟩
      · intro h
        rcases h with h | h
        · exact h
        · exact absurd h hocc
      · intro c hc
        exact absurd ⟨c, hc⟩ hocc
  obtain ⟨s1, hrun, hprocs, hnd1, hne1, hocc1⟩ := hsel
  have htotal : (s.readyqueue ≠ [] ∨ ∃ c, occupant_unfinished s c) →
      ∃ p, (pa_schedule s).1 = some p := by
    intro h
    obtain ⟨p, l1, l2, -, he, -⟩ := (pick_by_spec s1 (fun temp pos => temp.prio < pos.prio)
      (fun q => OrderDual.toDual (s1.procs q).prio) (by intro a b; simp)).2 (hne1 h)
    exact ⟨p, by rw [hrun, (pa_pick_next_eq_pick_by s1).1, he]⟩
  refine ⟨?_, htotal, ?_⟩
  · intro p s' h
    rw [hrun] at h
    obtain ⟨-, hrq', hp'⟩ := pa_pick_next_procs s1 hnd1 p s' h
    have hpn : p ∉ s1.readyqueue.erase p := List.Nodup.not_mem_erase hnd1
    refine ⟨?_, ?_, ?_⟩
    · rw [hp' p]
      simp [hpn]
    · intro q hq
      rw [hrq'] at hq
      have hq' : (s'.procs q).prio = ((s.procs q).prio + 1) % 2 ^ 32 := by
        rw [hp' q]
        simp [hq, hprocs]
      exact ⟨hq', fun hlt => by rw [hq', Nat.mod_eq_of_lt hlt]⟩
    · intro q
      rw [hp' q]
      by_cases hq : q ∈ s1.readyqueue.erase p
      · simp [hq, hprocs]
      · by_cases hqp : q = p
        · subst hqp
          simp [hq, hprocs]
        · simp [hq, hqp, hprocs]
  · intro c hc hne
    obtain ⟨p, hp⟩ := htotal (Or.inr ⟨c, hc⟩)
    have hcp : c ≠ p := by
      intro e
      exact hne (e ▸ hp)
    have hpair : pa_pick_next s1 = (some p, (pa_pick_next s1).2) := by
      rw [hrun] at hp
      exact Prod.ext hp rfl
    obtain ⟨-, hrq', -⟩ := pa_pick_next_procs s1 hnd1 p _ hpair
    rw [hrun, hrq']
    exact (List.mem_erase_of_ne hcp).mpr (hocc1 c hc)

/-- Witness of C11: in `ex_aged` the ready queue `[3, 2]` has no repetition
and does not hold the occupant, process 1; `pa_schedule` returns process 2,
whose `prio` goes from 7 back to its `prio_orig` 4; process 3 goes from 1 to 2
and the preempted occupant from 2 to 3, and each `prio_orig` is as before. -/
theorem pa_schedule_prio_update_witness :
    (pa_schedule ex_aged).1 = some 2 ∧
    (ex_aged.procs 2).prio = 7 ∧
    ((pa_schedule ex_aged).2.procs 2).prio = 4 ∧
    (pa_schedule ex_aged).2.readyqueue = [3, 1] ∧
    ((pa_schedule ex_aged).2.procs 3).prio = 2 ∧
    ((pa_schedule ex_aged).2.procs 1).prio = 3 ∧
    (((pa_schedule ex_aged).2.procs 2).prio = ((pa_schedule ex_aged).2.procs 2).prio_orig ∧
      (∀ q ∈ (pa_schedule ex_aged).2.readyqueue,
        ((pa_schedule ex_aged).2.procs q).prio = ((ex_aged.procs q).prio + 1) % 2 ^ 32 ∧
        ((ex_aged.procs q).prio + 1 < 2 ^ 32 →
          ((pa_schedule ex_aged).2.procs q).prio = (ex_aged.procs q).prio + 1)) ∧
      (∀ q, ((pa_schedule ex_aged).2.procs q).prio_orig = (ex_aged.procs q).prio_orig)) :=
  ⟨by decide, by decide, by decide, by decide, by decide, by decide,
    (pa_schedule_prio_update ex_aged (by decide) (by
      intro c hc
      obtain rfl : 1 = c := Option.some.inj hc
      decide)).1 2 (pa_schedule ex_aged).2 (Prod.ext (by decide) rfl)⟩

/-- The aging step at the top value of the field: in `ex_prio_top` the ready
processes 2 and 3 both have `prio = 4294967295`; `pa_schedule` returns
process 2, the first of them, and the `prio` of process 3, left in the ready
queue, is 0 afterwards. -/
theorem pa_schedule_aging_at_top :
    (ex_prio_top.procs 3).prio = 4294967295 ∧
    (pa_schedule ex_prio_top).1 = some 2 ∧
    ((pa_schedule ex_prio_top).2.procs 3).prio = 0 := by
  decide

/-- C12, counterexample: in `ex_tie` the occupant, process 1, ties with the
ready process 2 for the maximum `prio`; `prio_schedule` returns process 1 and
`pa_schedule` returns process 2, and the ready queues left differ. -/
theorem pa_schedule_differs_from_prio_schedule :
    ¬ ((pa_schedule ex_tie).1 = (prio_schedule ex_tie).1 ∧
       (pa_schedule ex_tie).2.readyqueue = (prio_schedule ex_tie).2.readyqueue) := by
  decide

/-- C12, amended: when the occupant is not itself in the ready queue,
`pa_schedule` and `prio_schedule` return the same process and leave the same
ready queue if there is no unfinished, non-waiting occupant.  With such an
occupant `c`, `pa_schedule` selects the first process of maximum `prio` of
`readyqueue ++ [c]` (the occupant is re-enqueued last, not first) and takes
only it out; if some ready process has a strictly greater `prio` than `c`
both return the same process `p`, the ready queue being `readyqueue` without
`p` followed by `c` after `pa_schedule` and preceded by `c` after
`prio_schedule`; if every ready process has a strictly smaller `prio` than
`c` both return `c` and leave the ready queue as it was. -/
theorem pa_schedule_vs_prio_schedule (s : State)
    (hdet : ∀ c, s.current = some c → c ∉ s.readyqueue) :
    ((¬ ∃ c, occupant_unfinished s c) →
      (pa_schedule s).1 = (prio_schedule s).1 ∧
      (pa_schedule s).2.readyqueue = (prio_schedule s).2.readyqueue) ∧
    (∀ c, occupant_unfinished s c →
      (∃ p l1 l2, s.readyqueue ++ [c] = l1 ++ p :: l2 ∧
        (pa_schedule s).1 = some p ∧
        (∀ q ∈ l1, (s.procs q).prio < (s.procs p).prio) ∧
        (∀ q ∈ l2, (s.procs q).prio ≤ (s.procs p).prio) ∧
        (pa_schedule s).2.readyqueue = l1 ++ l2) ∧
      ((∃ q ∈ s.readyqueue, (s.procs c).prio < (s.procs q).prio) →
        ∃ p, p ≠ c ∧ (pa_schedule s).1 = some p ∧ (prio_schedule s).1 = some p ∧
          (pa_schedule s).2.readyqueue = s.readyqueue.erase p ++ [c] ∧
          (prio_schedule s).2.readyqueue = c :: s.readyqueue.erase p) ∧
      ((∀ q ∈ s.readyqueue, (s.procs q).prio < (s.procs c).prio) →
        (pa_schedule s).1 = some c ∧ (prio_schedule s).1 = some c ∧
        (pa_schedule s).2.readyqueue = s.readyqueue ∧
        (prio_schedule s).2.readyqueue = s.readyqueue)) := by
  constructor
  · intro hno
    rw [pa_schedule_no_occupant s hno, prio_schedule_no_occupant s hno]
    exact pa_pick_next_eq_pick_by s
  · intro c hc
    obtain ⟨hrq1, hprocs1⟩ := list_move_readyqueue s c (hdet c hc.1)
    obtain ⟨hrq2, hprocs2⟩ := list_move_tail_readyqueue s c (hdet c hc.1)
    -- the selection of `prio_schedule`, on `c :: readyqueue`
    obtain ⟨p, l1, l2, hq, he, h1, h2, hdel⟩ :=
      (pick_by_spec (list_move s c .readyqueue) (fun temp pos => temp.prio < pos.prio)
        (fun q => OrderDual.toDual (s.procs q).prio)
        (by intro a b; simp [hprocs1])).2 (by rw [hrq1]; simp)
    rw [hrq1] at hq
    -- the selection of `pa_schedule`, on `readyqueue ++ [c]`
    obtain ⟨p', m1, m2, hq', he', k1, k2, hdel'⟩ :=
      (pick_by_spec (list_move_tail s c .readyqueue) (fun temp pos => temp.prio < pos.prio)
        (fun q => OrderDual.toDual (s.procs q).prio)
        (by intro a b; simp [hprocs2])).2 (by rw [hrq2]; simp)
    rw [hrq2] at hq'
    have hpa1 : (pa_schedule s).1 = some p' := by
      rw [pa_schedule_unfinished s c hc, (pa_pick_next_eq_pick_by _).1, he']
    have hpa2 : (pa_schedule s).2.readyqueue = m1 ++ m2 := by
      rw [pa_schedule_unfinished s c hc, (pa_pick_next_eq_pick_by _).2, he']
      exact hdel'
    have hpr1 : (prio_schedule s).1 = some p := by
      rw [prio_schedule_unfinished s c hc, he]
    have hpr2 : (prio_schedule s).2.readyqueue = l1 ++ l2 := by
      rw [prio_schedule_unfinished s c hc, he]
      exact hdel
    refine ⟨⟨p', m1, m2, hq', hpa1, fun q hq0 => OrderDual.toDual_lt_toDual.mp (k1 q hq0),
      fun q hq0 => OrderDual.toDual_le_toDual.mp (k2 q hq0), hpa2⟩, ?_, ?_⟩
    · rintro ⟨q0, hq0, hlt0⟩
      cases l1 with
      | nil =>
        simp only [List.nil_append, List.cons.injEq] at hq
        obtain ⟨e1, e2⟩ := hq
        have := OrderDual.toDual_le_toDual.mp (h2 q0 (e2 ▸ hq0))
        rw [← e1] at this
        exact absurd hlt0 (not_lt.mpr this)
      | cons a l1' =>
        simp only [List.cons_append, List.cons.injEq] at hq
        obtain ⟨e1, e2⟩ := hq
        subst e1
        have hpc : OrderDual.toDual (s.procs p).prio < OrderDual.toDual (s.procs c).prio :=
          h1 c (by simp)
        have hne : p ≠ c := by
          intro e
          rw [e] at hpc
          exact lt_irrefl _ hpc
        have hsplit : s.readyqueue ++ [c] = l1' ++ p :: (l2 ++ [c]) := by
          rw [e2]
          simp
        obtain ⟨u1, u2, u3⟩ := first_least_unique
          (fun q => OrderDual.toDual (s.procs q).prio) m1 p' m2 l1' p (l2 ++ [c])
          (hq'.symm.trans hsplit) k1 k2 (fun q hq0 => h1 q (by simp [hq0]))
          (by
            intro q hq0
            rcases List.mem_append.mp hq0 with hq0 | hq0
            · exact h2 q hq0
            · rw [List.mem_singleton.mp hq0]
              exact le_of_lt hpc)
        have hpl : p ∉ l1' := fun hmem => lt_irrefl _ (h1 p (by simp [hmem]))
        have herase : s.readyqueue.erase p = l1' ++ l2 := by
          rw [e2, List.erase_append_right _ hpl, List.erase_cons_head]
        refine ⟨p, hne, by rw [hpa1, u2], hpr1, ?_, ?_⟩
        · rw [hpa2, u1, u3, herase]
          simp
        · rw [hpr2, herase]
          simp
    · intro hall
      have hc1 : ∀ q ∈ s.readyqueue,
          OrderDual.toDual (s.procs c).prio < OrderDual.toDual (s.procs q).prio :=
        fun q hq0 => OrderDual.toDual_lt_toDual.mpr (hall q hq0)
      obtain ⟨u1, u2, u3⟩ := first_least_unique
        (fun q => OrderDual.toDual (s.procs q).prio) l1 p l2 [] c s.readyqueue
        (by simpa using hq.symm) h1 h2 (by simp) (fun q hq0 => le_of_lt (hc1 q hq0))
      obtain ⟨v1, v2, v3⟩ := first_least_unique
        (fun q => OrderDual.toDual (s.procs q).prio) m1 p' m2 s.readyqueue c []
        (hq'.symm) k1 k2 hc1 (by simp)
      refine ⟨by rw [hpa1, v2], by rw [hpr1, u2], ?_, ?_⟩
      · rw [hpa2, v1, v3]
        simp
      · rw [hpr2, u1, u3]
        simp

/-- Witness of C12: in `ex_state` the occupant, process 1 (prio 3), is not in
the ready queue `[2, 3]`, whose processes have prio 2: both policies return
process 1 and leave the ready queue as it was. -/
theorem pa_schedule_vs_prio_schedule_witness :
    (pa_schedule ex_state).1 = some 1 ∧ (prio_schedule ex_state).1 = some 1 ∧
    (pa_schedule ex_state).2.readyqueue = ex_state.readyqueue ∧
    (prio_schedule ex_state).2.readyqueue = ex_state.readyqueue :=
  ((pa_schedule_vs_prio_schedule ex_state (by
      intro c hc
      obtain rfl : 1 = c := Option.some.inj hc
      decide)).2 1 (by decide)).2.2 (by decide)

/-! ### Protocol release -/

/-- The wake-all loop of `prio_release` over the wait queue `l` of resource
`r`, when `l` has no repetition, none of its processes is in the ready queue,
and `cur` is in neither: the waiters are put in front of the ready queue, the
last one first, the wait queue ends empty, the waiters get status
`PROCESS_READY`, and no owner and no other field of a record changes. -/
theorem prio_release_loop_spec (cur r : Nat) (l : List Nat) (st : State)
    (hq : (st.resources r).waitqueue = l) (hnd : l.Nodup)
    (hdisj : ∀ w ∈ l, w ∉ st.readyqueue) (hcl : cur ∉ l) (hcq : cur ∉ st.readyqueue) :
    (l.foldl (prio_release_body cur) st).readyqueue = l.reverse ++ st.readyqueue ∧
    ((l.foldl (prio_release_body cur) st).resources r).waitqueue = [] ∧
    (∀ r', ((l.foldl (prio_release_body cur) st).resources r').owner
        = (st.resources r').owner) ∧
    (∀ p, (l.foldl (prio_release_body cur) st).procs p
        = if p ∈ l then { st.procs p with status := .PROCESS_READY } else st.procs p) := by
  induction l generalizing st with
  | nil => simp [hq]
  | cons w l ih =>
    obtain ⟨hwl, hl⟩ := List.nodup_cons.mp hnd
    have hwq : w ∉ st.readyqueue := hdisj w (by simp)
    have hcw : cur ≠ w := fun e => hcl (by simp [e])
    have hcl' : cur ∉ l := fun h => hcl (by simp [h])
    have hrq1 : (prio_release_body cur st w).readyqueue = w :: st.readyqueue := by
      simp [prio_release_body, list_move, list_add, set_entries, entries, list_del_init,
        set_status, List.erase_of_not_mem hwq, hcw, List.erase_of_not_mem hcq, hcq]
    have hwq1 : ((prio_release_body cur st w).resources r).waitqueue = l := by
      simp [prio_release_body, list_move, list_add, set_entries, entries, list_del_init,
        set_status, hq, List.erase_of_not_mem hwl, List.erase_of_not_mem hcl']
    have hown1 : ∀ r', ((prio_release_body cur st w).resources r').owner
        = (st.resources r').owner := by
      intro r'
      simp [prio_release_body, list_move, list_add, set_entries, entries, list_del_init,
        set_status]
    have hprocs1 : ∀ p, (prio_release_body cur st w).procs p
        = if p = w then { st.procs p with status := .PROCESS_READY } else st.procs p := by
      intro p
      by_cases hp : p = w
      · subst hp
        simp [prio_release_body, list_move, list_add, set_entries, entries, list_del_init,
          set_status]
      · simp [prio_release_body, list_move, list_add, set_entries, entries, list_del_init,
          set_status, hp]
    obtain ⟨i1, i2, i3, i4⟩ := ih (prio_release_body cur st w) hwq1 hl
      (by
        intro x hx
        rw [hrq1]
        have hxw : x ≠ w := fun e => hwl (e ▸ hx)
        have := hdisj x (by simp [hx])
        simp [hxw, this])
      hcl'
      (by
        rw [hrq1]
        simp [hcw, hcq])
    simp only [List.foldl_cons]
    refine ⟨?_, i2, ?_, ?_⟩
    · rw [i1, hrq1]
      simp
    · intro r'
      rw [i3 r', hown1 r']
    · intro p
      rw [i4 p, hprocs1 p]
      by_cases hp : p = w
      · subst hp
        simp [hwl]
      · by_cases hpl : p ∈ l <;> simp [hp, hpl]

/-- The result of `prio_release` when the current process `c` owns the
resource, the wait queue has no repetition, no waiter is in the ready queue
and `c` is in neither queue. -/
theorem prio_release_ok (s : State) (r c : Nat)
    (hc : s.current = some c) (ho : (s.resources r).owner = some c)
    (hnd : (s.resources r).waitqueue.Nodup)
    (hdisj : ∀ w ∈ (s.resources r).waitqueue, w ∉ s.readyqueue)
    (hcq : c ∉ s.readyqueue) (hcw : c ∉ (s.resources r).waitqueue) :
    ∃ s', prio_release s r = .ok s' ∧
      s'.readyqueue = (s.resources r).waitqueue.reverse ++ s.readyqueue ∧
      (s'.resources r).waitqueue = [] ∧
      (s'.resources r).owner = none ∧
      (∀ r', r' ≠ r → (s'.resources r').owner = (s.resources r').owner) ∧
      (∀ p, s'.procs p =
        if p ∈ (s.resources r).waitqueue then { s.procs p with status := .PROCESS_READY }
        else if p = c then { s.procs c with prio := (s.procs c).prio_orig }
        else s.procs p) := by
  have hq0 : ((set_owner (set_prio s c (s.procs c).prio_orig) r none).resources r).waitqueue
      = (s.resources r).waitqueue := by simp [set_owner, set_prio]
  obtain ⟨h1, h2, h3, h4⟩ := prio_release_loop_spec c r (s.resources r).waitqueue
    (set_owner (set_prio s c (s.procs c).prio_orig) r none) hq0 hnd hdisj hcw hcq
  have hrun : prio_release s r = .ok ((s.resources r).waitqueue.foldl (prio_release_body c)
      (set_owner (set_prio s c (s.procs c).prio_orig) r none)) := by
    cases hw : (s.resources r).waitqueue with
    | nil => simp [prio_release, ho, hc, list_empty, entries, set_owner, set_prio, hw]
    | cons a t => simp [prio_release, ho, hc, list_empty, entries, set_owner, set_prio, hw]
  refine ⟨_, hrun, h1, h2, ?_, ?_, ?_⟩
  · rw [h3 r]
    simp [set_owner]
  · intro r' hr
    rw [h3 r']
    simp [set_owner, set_prio, hr]
  · intro p
    rw [h4 p]
    by_cases hp : p ∈ (s.resources r).waitqueue
    · have hpc : p ≠ c := fun e => hcw (e ▸ hp)
      simp [hp, set_owner, set_prio, hpc]
    · by_cases hpc : p = c
      · subst hpc
        simp [hp, set_owner, set_prio]
      · simp [hp, set_owner, set_prio, hpc]

/-- C16: when the current process `c` owns the resource (its wait queue has no
repetition, no waiter is in the ready queue and `c` is in neither queue),
`prio_release` succeeds, sets the `prio` of `c` to its `prio_orig`, clears the
owner and empties the wait queue; the ready queue afterwards consists of the
former waiters and the former ready processes (a permutation of the two lists
together), every former waiter has status `PROCESS_READY` and occurs in the
ready queue exactly once, and every process that was in the ready queue is
still in it. -/
theorem prio_release_wakes_all (s : State) (r c : Nat)
    (hc : s.current = some c) (ho : (s.resources r).owner = some c)
    (hnd : (s.resources r).waitqueue.Nodup)
    (hdisj : ∀ w ∈ (s.resources r).waitqueue, w ∉ s.readyqueue)
    (hcq : c ∉ s.readyqueue) (hcw : c ∉ (s.resources r).waitqueue) :
    ∃ s', prio_release s r = .ok s' ∧
      (s'.procs c).prio = (s.procs c).prio_orig ∧
      (s'.resources r).owner = none ∧
      (s'.resources r).waitqueue = [] ∧
      s'.readyqueue.Perm ((s.resources r).waitqueue ++ s.readyqueue) ∧
      (∀ w ∈ (s.resources r).waitqueue,
        (s'.procs w).status = .PROCESS_READY ∧ s'.readyqueue.count w = 1) ∧
      (∀ q ∈ s.readyqueue, q ∈ s'.readyqueue ∧
        s'.readyqueue.count q = s.readyqueue.count q) := by
  obtain ⟨s', hrun, hrq, hwq, hown, -, hprocs⟩ := prio_release_ok s r c hc ho hnd hdisj hcq hcw
  have hperm : s'.readyqueue.Perm ((s.resources r).waitqueue ++ s.readyqueue) := by
    rw [hrq]
    exact List.Perm.append_right _ (List.reverse_perm _)
  refine ⟨s', hrun, ?_, hown, hwq, hperm, ?_, ?_⟩
  · rw [hprocs c]
    simp [hcw]
  · intro w hw
    constructor
    · rw [hprocs w]
      simp [hw]
    · rw [hperm.count_eq, List.count_append, List.count_eq_one_of_mem hnd hw,
        List.count_eq_zero_of_not_mem (hdisj w hw)]
  · intro q hq
    constructor
    · rw [hrq]
      simp [hq]
    · have hqw : q ∉ (s.resources r).waitqueue := fun h => hdisj q h hq
      rw [hperm.count_eq, List.count_append, List.count_eq_zero_of_not_mem hqw]
      simp

/-- Witness of C16: in `ex_boosted` process 1 runs with `prio` 9 and
`prio_orig` 3 and owns resource 0, for which processes 5 and 4 wait; the ready
queue is `[2, 3]`.  After `prio_release` the `prio` of process 1 is 3, the
resource has no owner and an empty wait queue, both waiters are READY and
occur once in the ready queue, and processes 2 and 3 are still in it. -/
theorem prio_release_wakes_all_witness :
    (ex_boosted.procs 1).prio = 9 ∧ (ex_boosted.procs 1).prio_orig = 3 ∧
    (ex_boosted.resources 0).waitqueue = [5, 4] ∧ ex_boosted.readyqueue = [2, 3] ∧
    (ex_boosted.procs 4).status = .PROCESS_WAIT ∧ (ex_boosted.procs 5).status = .PROCESS_WAIT ∧
    ∃ s', prio_release ex_boosted 0 = .ok s' ∧
      (s'.procs 1).prio = 3 ∧
      (s'.resources 0).owner = none ∧
      (s'.resources 0).waitqueue = [] ∧
      s'.readyqueue.Perm [5, 4, 2, 3] ∧
      ((s'.procs 5).status = .PROCESS_READY ∧ s'.readyqueue.count 5 = 1) ∧
      ((s'.procs 4).status = .PROCESS_READY ∧ s'.readyqueue.count 4 = 1) ∧
      (2 ∈ s'.readyqueue ∧ s'.readyqueue.count 2 = 1) ∧
      (3 ∈ s'.readyqueue ∧ s'.readyqueue.count 3 = 1) := by
  obtain ⟨s', h1, h2, h3, h4, h5, h6, h7⟩ :=
    prio_release_wakes_all ex_boosted 0 1 rfl rfl (by decide) (by decide) (by decide)
      (by decide)
  exact ⟨by decide, by decide, rfl, rfl, by decide, by decide,
    s', h1, h2, h3, h4, h5, h6 5 (by decide), h6 4 (by decide),
    h7 2 (by decide), h7 3 (by decide)⟩

/-- On the same state `fcfs_release` wakes the head of the wait queue only and
writes no `prio`: process 4 still waits and process 1 keeps `prio` 9. -/
theorem fcfs_release_at_ex_boosted :
    ∃ t, fcfs_release ex_boosted 0 = .ok t ∧
      (t.procs 1).prio = 9 ∧ (t.resources 0).waitqueue = [4] ∧
      (t.procs 4).status = .PROCESS_WAIT ∧ t.readyqueue = [2, 3, 5] :=
  ⟨_, rfl, by decide, by decide, by decide, by decide⟩

/-! ### The protocol policies and the idle result -/

/-- The scan reads the state only through the process records. -/
theorem scan_congr (s t : State) (f : process → process → Bool) (hp : s.procs = t.procs)
    (acc : Option Nat) (l : List Nat) : scan s f acc l = scan t f acc l := by
  induction l generalizing acc with
  | nil => cases acc <;> simp [scan]
  | cons a l ih =>
    cases acc with
    | none => simp [scan, ih]
    | some x => simp [scan, ih, hp]

/-- The scan of a list, started with some `temp`, ends with some `temp`. -/
theorem scan_some_exists (s : State) (f : process → process → Bool) (l : List Nat) (x : Nat) :
    ∃ p, scan s f (some x) l = some p := by
  induction l generalizing x with
  | nil => exact ⟨x, by simp [scan]⟩
  | cons a l ih =>
    by_cases h : f (s.procs x) (s.procs a) = true
    · obtain ⟨p, hp⟩ := ih a
      exact ⟨p, by simp [scan, h, hp]⟩
    · obtain ⟨p, hp⟩ := ih x
      exact ⟨p, by simp [scan, h, hp]⟩

/-- When the test replaces only entries that are not worse and always
replaces by a strictly better entry, the scan started with `x` ends with an
entry that is at least as good as `x` and as every entry scanned. -/
theorem scan_some_least {α : Type} [LinearOrder α] (s : State)
    (f : process → process → Bool) (key : Nat → α)
    (R1 : ∀ a b, f (s.procs a) (s.procs b) = true → key b ≤ key a)
    (R2 : ∀ a b, key b < key a → f (s.procs a) (s.procs b) = true)
    (l : List Nat) (x p : Nat) (h : scan s f (some x) l = some p) :
    (p = x ∨ p ∈ l) ∧ key p ≤ key x ∧ ∀ q ∈ l, key p ≤ key q := by
  induction l generalizing x with
  | nil =>
    simp only [scan, Option.some.injEq] at h
    exact ⟨Or.inl h.symm, by rw [h], by simp⟩
  | cons a l ih =>
    by_cases hf : f (s.procs x) (s.procs a) = true
    · simp only [scan, hf, if_true] at h
      obtain ⟨i1, i2, i3⟩ := ih a h
      refine ⟨Or.inr ?_, le_trans i2 (R1 x a hf), ?_⟩
      · rcases i1 with e | e
        · simp [e]
        · simp [e]
      · intro q hq
        rcases List.mem_cons.mp hq with e | e
        · rw [e]
          exact i2
        · exact i3 q e
    · simp only [scan, hf] at h
      obtain ⟨i1, i2, i3⟩ := ih x h
      have hxa : key x ≤ key a := not_lt.mp (fun hlt => hf (R2 x a hlt))
      refine ⟨?_, i2, ?_⟩
      · rcases i1 with e | e
        · exact Or.inl e
        · exact Or.inr (by simp [e])
      · intro q hq
        rcases List.mem_cons.mp hq with e | e
        · rw [e]
          exact le_trans i2 hxa
        · exact i3 q e

/-- The scan started with `x` ends with `x` or with an entry scanned. -/
theorem scan_some_mem (s : State) (f : process → process → Bool) (l : List Nat) (x p : Nat)
    (h : scan s f (some x) l = some p) : p = x ∨ p ∈ l := by
  induction l generalizing x with
  | nil =>
    simp only [scan, Option.some.injEq] at h
    exact Or.inl h.symm
  | cons a l ih =>
    by_cases hf : f (s.procs x) (s.procs a) = true
    · simp only [scan, hf, if_true] at h
      rcases ih a h with e | e
      · exact Or.inr (by simp [e])
      · exact Or.inr (by simp [e])
    · simp only [scan, hf] at h
      rcases ih x h with e | e
      · exact Or.inl e
      · exact Or.inr (by simp [e])

/-- The selecting `pick_next` returns nothing exactly on an empty ready
queue, and then changes nothing; otherwise it returns a process of the ready
queue and unlinks it. -/
theorem pick_by_cases (s : State) (f : process → process → Bool) :
    (s.readyqueue = [] ∧ pick_by s f = (none, s)) ∨
    (s.readyqueue ≠ [] ∧ ∃ p, p ∈ s.readyqueue ∧ pick_by s f = (some p, list_del_init s p) ∧
      scan s f none s.readyqueue = some p) := by
  cases hq : s.readyqueue with
  | nil => exact Or.inl ⟨rfl, by simp [pick_by, list_empty, entries, hq]⟩
  | cons x rest =>
    obtain ⟨p, hp⟩ := scan_some_exists s f rest x
    refine Or.inr ⟨by simp, p, ?_, ?_, by simp [scan, hp]⟩
    · rcases scan_some_mem s f rest x p hp with e | e
      · simp [e]
      · simp [e]
    · simp [pick_by, list_empty, entries, hq, scan, hp]

/-- The selection reads the state only through the ready queue and the
process records, and changes the queues only: its result and the ready queue,
resource table and records it leaves depend on nothing else. -/
theorem pick_by_congr (s t : State) (f : process → process → Bool)
    (hq : s.readyqueue = t.readyqueue) (hp : s.procs = t.procs)
    (hr : s.resources = t.resources) :
    (pick_by s f).1 = (pick_by t f).1 ∧
    (pick_by s f).2.readyqueue = (pick_by t f).2.readyqueue ∧
    (pick_by s f).2.resources = (pick_by t f).2.resources ∧
    (pick_by s f).2.procs = (pick_by t f).2.procs := by
  rcases pick_by_cases t f with ⟨hnil, he⟩ | ⟨hne, p, -, he, hs⟩
  · have : pick_by s f = (none, s) := by
      simp [pick_by, list_empty, entries, hq, hnil]
    rw [this, he]
    exact ⟨rfl, hq, hr, hp⟩
  · have hs' : scan s f none s.readyqueue = some p := by
      rw [scan_congr s t f hp, hq]
      exact hs
    have : pick_by s f = (some p, list_del_init s p) := by
      have hne' : s.readyqueue ≠ [] := hq ▸ hne
      cases hl : s.readyqueue with
      | nil => exact absurd hl hne'
      | cons x rest =>
        rw [hl] at hs'
        simp [pick_by, list_empty, entries, hl, hs']
    rw [this, he]
    simp [list_del_init, hq, hp, hr]

/-- The state the selection runs on after `list_move`: same records; its ready
queue is empty exactly when the ready queue is empty and there is no
unfinished, non-waiting occupant; without such an occupant it is the state
itself, and when the occupant is not in the ready queue its ready queue is
the list of candidates. -/
theorem sched_state_spec (s : State) :
    (sched_state s).procs = s.procs ∧
    ((sched_state s).readyqueue = [] ↔ (s.readyqueue = [] ∧ ¬ ∃ c, occupant_unfinished s c)) ∧
    ((¬ ∃ c, occupant_unfinished s c) → sched_state s = s) ∧
    ((∀ c, s.current = some c → c ∉ s.readyqueue) →
      (sched_state s).readyqueue = candidates s) := by
  cases hc : s.current with
  | none =>
    have hno : ¬ ∃ c, occupant_unfinished s c := by
      rintro ⟨c, h, -⟩
      rw [hc] at h
      exact absurd h (by simp)
    simp [sched_state, candidates, hc, hno]
  | some c =>
    by_cases ho : occupant_unfinished s c
    · have hex : ∃ c, occupant_unfinished s c := ⟨c, ho⟩
      refine ⟨?_, ?_, fun h => absurd hex h, ?_⟩
      · simp [sched_state, hc, ho, list_move, list_add, set_entries, list_del_init]
      · simp [sched_state, hc, ho, list_move, list_add, set_entries, list_del_init, hex]
      · intro hdet
        simp [sched_state, candidates, hc, ho, list_move, list_add, set_entries, entries,
          list_del_init, List.erase_of_not_mem (hdet c rfl)]
    · have hno : ¬ ∃ c, occupant_unfinished s c := by
        rintro ⟨c', h⟩
        have : c' = c := Option.some.inj (h.1.symm.trans hc)
        exact ho (this ▸ h)
      simp [sched_state, candidates, hc, ho, hno]

/-- The state the selection runs on after `list_move_tail`: its ready queue is
empty exactly when the ready queue is empty and there is no unfinished,
non-waiting occupant, and without such an occupant it is the state itself. -/
theorem sched_state_tail_spec (s : State) :
    ((sched_state_tail s).readyqueue = [] ↔
      (s.readyqueue = [] ∧ ¬ ∃ c, occupant_unfinished s c)) ∧
    ((¬ ∃ c, occupant_unfinished s c) → sched_state_tail s = s) := by
  cases hc : s.current with
  | none =>
    have hno : ¬ ∃ c, occupant_unfinished s c := by
      rintro ⟨c, h, -⟩
      rw [hc] at h
      exact absurd h (by simp)
    simp [sched_state_tail, hc, hno]
  | some c =>
    by_cases ho : occupant_unfinished s c
    · have hex : ∃ c, occupant_unfinished s c := ⟨c, ho⟩
      refine ⟨?_, fun h => absurd hex h⟩
      simp [sched_state_tail, hc, ho, list_move_tail, list_add_tail, set_entries,
        list_del_init, entries, hex]
    · have hno : ¬ ∃ c, occupant_unfinished s c := by
        rintro ⟨c', h⟩
        have : c' = c := Option.some.inj (h.1.symm.trans hc)
        exact ho (this ▸ h)
      simp [sched_state_tail, hc, ho, hno]

/-- The function `prio_schedule` is the selection by `prio` on `sched_state`. -/
theorem prio_schedule_eq (s : State) :
    prio_schedule s = pick_by (sched_state s) (fun temp pos => temp.prio < pos.prio) := by
  cases hc : s.current with
  | none => simp [prio_schedule, sched_state, hc]
  | some c =>
    by_cases hw : (s.procs c).status = .PROCESS_WAIT
    · simp [prio_schedule, sched_state, occupant_unfinished, hc, hw]
    · by_cases hl : (s.procs c).age < (s.procs c).lifespan
      · simp [prio_schedule, sched_state, occupant_unfinished, hc, hw, hl]
      · simp [prio_schedule, sched_state, occupant_unfinished, hc, hw, hl]

/-- The function `srtf_schedule` is the selection by `lifespan` on
`sched_state`. -/
theorem srtf_schedule_eq (s : State) :
    srtf_schedule s
      = pick_by (sched_state s) (fun temp pos => temp.lifespan > pos.lifespan) := by
  cases hc : s.current with
  | none => simp [srtf_schedule, sched_state, hc]
  | some c =>
    by_cases hw : (s.procs c).status = .PROCESS_WAIT
    · simp [srtf_schedule, sched_state, occupant_unfinished, hc, hw]
    · by_cases hl : (s.procs c).age < (s.procs c).lifespan
      · simp [srtf_schedule, sched_state, occupant_unfinished, hc, hw, hl]
      · simp [srtf_schedule, sched_state, occupant_unfinished, hc, hw, hl]

/-- The function `rr_schedule` takes the first entry on `sched_state_tail`. -/
theorem rr_schedule_eq (s : State) : rr_schedule s = pick_first (sched_state_tail s) := by
  cases hc : s.current with
  | none => simp [rr_schedule, sched_state_tail, hc]
  | some c =>
    by_cases hw : (s.procs c).status = .PROCESS_WAIT
    · simp [rr_schedule, sched_state_tail, occupant_unfinished, hc, hw]
    · by_cases hl : (s.procs c).age < (s.procs c).lifespan
      · simp [rr_schedule, sched_state_tail, occupant_unfinished, hc, hw, hl]
      · simp [rr_schedule, sched_state_tail, occupant_unfinished, hc, hw, hl]

/-- The function `pa_schedule` is its selection on `sched_state_tail`. -/
theorem pa_schedule_eq (s : State) : pa_schedule s = pa_pick_next (sched_state_tail s) := by
  cases hc : s.current with
  | none => simp [pa_schedule, sched_state_tail, hc]
  | some c =>
    by_cases hw : (s.procs c).status = .PROCESS_WAIT
    · simp [pa_schedule, sched_state_tail, occupant_unfinished, hc, hw]
    · by_cases hl : (s.procs c).age < (s.procs c).lifespan
      · simp [pa_schedule, sched_state_tail, occupant_unfinished, hc, hw, hl]
      · simp [pa_schedule, sched_state_tail, occupant_unfinished, hc, hw, hl]

/-- The function `pip_schedule` returns what the selection with its test
returns on `sched_state`, and leaves the ready queue, resource table and
records that selection leaves. -/
theorem pip_schedule_eq (s : State) :
    (pip_schedule s).1 = (pick_by (sched_state s)
      (fun temp pos => decide (temp.prio < pos.prio) && (s.first == false))).1 ∧
    (pip_schedule s).2.readyqueue = (pick_by (sched_state s)
      (fun temp pos => decide (temp.prio < pos.prio) && (s.first == false))).2.readyqueue ∧
    (pip_schedule s).2.resources = (pick_by (sched_state s)
      (fun temp pos => decide (temp.prio < pos.prio) && (s.first == false))).2.resources ∧
    (pip_schedule s).2.procs = (pick_by (sched_state s)
      (fun temp pos => decide (temp.prio < pos.prio) && (s.first == false))).2.procs := by
  cases hc : s.current with
  | none =>
    simp only [pip_schedule, sched_state, hc]
    exact pick_by_congr _ _ _ rfl rfl rfl
  | some c =>
    by_cases hw : (s.procs c).status = .PROCESS_WAIT
    · simp only [pip_schedule, sched_state, occupant_unfinished, hc, hw, if_true, ne_eq,
        not_true_eq_false, false_and, and_false, if_false]
      exact pick_by_congr _ _ _ rfl rfl rfl
    · by_cases hl : (s.procs c).age < (s.procs c).lifespan
      · simp only [pip_schedule, sched_state, occupant_unfinished, hc, hw, hl, if_true, ne_eq,
          not_false_eq_true, and_self, if_false]
        exact pick_by_congr _ _ _ rfl rfl rfl
      · simp only [pip_schedule, sched_state, occupant_unfinished, hc, hw, hl, if_true, ne_eq,
          not_false_eq_true, and_false, and_self, if_false]
        exact pick_by_congr _ _ _ rfl rfl rfl

/-- The function `pcp_schedule` returns what the selection with its test
returns on `sched_state`, and leaves the ready queue, resource table and
records that selection leaves. -/
theorem pcp_schedule_eq (s : State) :
    (pcp_schedule s).1 = (pick_by (sched_state s)
      (fun temp pos => decide (temp.prio ≤ pos.prio) && (s.first == false))).1 ∧
    (pcp_schedule s).2.readyqueue = (pick_by (sched_state s)
      (fun temp pos => decide (temp.prio ≤ pos.prio) && (s.first == false))).2.readyqueue ∧
    (pcp_schedule s).2.resources = (pick_by (sched_state s)
      (fun temp pos => decide (temp.prio ≤ pos.prio) && (s.first == false))).2.resources ∧
    (pcp_schedule s).2.procs = (pick_by (sched_state s)
      (fun temp pos => decide (temp.prio ≤ pos.prio) && (s.first == false))).2.procs := by
  cases hc : s.current with
  | none =>
    simp only [pcp_schedule, sched_state, hc]
    exact pick_by_congr _ _ _ rfl rfl rfl
  | some c =>
    by_cases hw : (s.procs c).status = .PROCESS_WAIT
    · simp only [pcp_schedule, sched_state, occupant_unfinished, hc, hw, if_true, ne_eq,
        not_true_eq_false, false_and, and_false, if_false]
      exact pick_by_congr _ _ _ rfl rfl rfl
    · by_cases hl : (s.procs c).age < (s.procs c).lifespan
      · simp only [pcp_schedule, sched_state, occupant_unfinished, hc, hw, hl, if_true, ne_eq,
          not_false_eq_true, and_self, if_false]
        exact pick_by_congr _ _ _ rfl rfl rfl
      · simp only [pcp_schedule, sched_state, occupant_unfinished, hc, hw, hl, if_true, ne_eq,
          not_false_eq_true, and_false, and_self, if_false]
        exact pick_by_congr _ _ _ rfl rfl rfl

/-- When the test replaces only entries that are not worse and always
replaces by a strictly better entry, the selection on a ready queue that is
not empty returns a process of least key and unlinks it. -/
theorem pick_by_least {α : Type} [LinearOrder α] (s : State)
    (f : process → process → Bool) (key : Nat → α)
    (R1 : ∀ a b, f (s.procs a) (s.procs b) = true → key b ≤ key a)
    (R2 : ∀ a b, key b < key a → f (s.procs a) (s.procs b) = true)
    (hne : s.readyqueue ≠ []) :
    ∃ p, p ∈ s.readyqueue ∧ pick_by s f = (some p, list_del_init s p) ∧
      ∀ q ∈ s.readyqueue, key p ≤ key q := by
  rcases pick_by_cases s f with ⟨hnil, -⟩ | ⟨-, p, hmem, he, hs⟩
  · exact absurd hnil hne
  · refine ⟨p, hmem, he, ?_⟩
    cases hq : s.readyqueue with
    | nil => exact absurd hq hne
    | cons x rest =>
      rw [hq] at hs
      simp only [scan] at hs
      obtain ⟨-, i2, i3⟩ := scan_some_least s f key R1 R2 rest x p hs
      intro q hq'
      rcases List.mem_cons.mp hq' with e | e
      · rw [e]
        exact i2
      · exact i3 q e

/-- C19, counterexample: on the first call (`ex_first`, `first` set) the ready
processes are 2 (prio 1) and 3 (prio 9); `prio_schedule` returns process 3
while `pip_schedule` and `pcp_schedule` return process 2.  With `first` clear
(`ex_tie`), the occupant 1 and the ready process 2 tie for the maximum prio;
`prio_schedule` returns process 1 while `pcp_schedule` returns process 2. -/
theorem protocol_schedule_differs_from_prio_schedule :
    (prio_schedule ex_first).1 = some 3 ∧
    (pip_schedule ex_first).1 = some 2 ∧
    (pcp_schedule ex_first).1 = some 2 ∧
    ex_tie.first = false ∧
    (prio_schedule ex_tie).1 = some 1 ∧
    (pcp_schedule ex_tie).1 = some 2 ∧
    ¬ ((pip_schedule ex_first).1 = (prio_schedule ex_first).1 ∧
       (pcp_schedule ex_first).1 = (prio_schedule ex_first).1) := by
  decide

/-- C19, amended: when the occupant is not itself in the ready queue and
`first` is clear, `pip_schedule` returns the same process as `prio_schedule`
and leaves the same ready queue, and so does `pcp_schedule` whenever the
process `prio_schedule` returns has a strictly greater `prio` than every
other candidate.  When `first` is set (the first call after
`prio_initialize`), `pip_schedule` and `pcp_schedule` return the first
candidate (the unfinished, non-waiting occupant, else the head of the ready
queue) and leave the other candidates, in their order. -/
theorem protocol_schedule_vs_prio_schedule (s : State)
    (hdet : ∀ c, s.current = some c → c ∉ s.readyqueue) :
    (s.first = false →
      ((pip_schedule s).1 = (prio_schedule s).1 ∧
        (pip_schedule s).2.readyqueue = (prio_schedule s).2.readyqueue) ∧
      ((∀ p, (prio_schedule s).1 = some p →
          ∀ q ∈ candidates s, q ≠ p → (s.procs q).prio < (s.procs p).prio) →
        (pcp_schedule s).1 = (prio_schedule s).1 ∧
        (pcp_schedule s).2.readyqueue = (prio_schedule s).2.readyqueue)) ∧
    (s.first = true →
      (pip_schedule s).1 = (candidates s).head? ∧
      (pip_schedule s).2.readyqueue = (candidates s).tail ∧
      (pcp_schedule s).1 = (candidates s).head? ∧
      (pcp_schedule s).2.readyqueue = (candidates s).tail) := by
  obtain ⟨hprocs, -, -, hcand⟩ := sched_state_spec s
  have hrq := hcand hdet
  obtain ⟨hip1, hip2, -, -⟩ := pip_schedule_eq s
  obtain ⟨hcp1, hcp2, -, -⟩ := pcp_schedule_eq s
  constructor
  · intro hfirst
    constructor
    · rw [hip1, hip2, prio_schedule_eq s]
      have : (fun temp pos : process => decide (temp.prio < pos.prio) && (s.first == false))
          = (fun temp pos : process => decide (temp.prio < pos.prio)) := by
        funext temp pos
        simp [hfirst]
      rw [this]
      exact ⟨rfl, rfl⟩
    · intro hmax
      rw [hcp1, hcp2, prio_schedule_eq s]
      rw [prio_schedule_eq s] at hmax
      by_cases hne : (sched_state s).readyqueue = []
      · rcases pick_by_cases (sched_state s)
          (fun temp pos => decide (temp.prio ≤ pos.prio) && (s.first == false)) with
          ⟨-, e1⟩ | ⟨h, -⟩
        · rcases pick_by_cases (sched_state s) (fun temp pos => temp.prio < pos.prio) with
            ⟨-, e2⟩ | ⟨h, -⟩
          · rw [e1, e2]
            exact ⟨rfl, rfl⟩
          · exact absurd hne h
        · exact absurd hne h
      · obtain ⟨p, hp, he, -⟩ := pick_by_least (sched_state s)
          (fun temp pos => temp.prio < pos.prio)
          (fun q => OrderDual.toDual (s.procs q).prio)
          (by
            intro a b h
            simp only [hprocs, decide_eq_true_eq] at h
            exact le_of_lt (OrderDual.toDual_lt_toDual.mpr h))
          (by
            intro a b h
            simpa [hprocs] using OrderDual.toDual_lt_toDual.mp h)
          hne
        obtain ⟨p', hp', he', hmax'⟩ := pick_by_least (sched_state s)
          (fun temp pos => decide (temp.prio ≤ pos.prio) && (s.first == false))
          (fun q => OrderDual.toDual (s.procs q).prio)
          (by
            intro a b h
            simp only [hprocs, hfirst, Bool.and_eq_true, decide_eq_true_eq] at h
            exact OrderDual.toDual_le_toDual.mpr h.1)
          (by
            intro a b h
            simpa [hprocs, hfirst] using le_of_lt (OrderDual.toDual_lt_toDual.mp h))
          hne
        have hpp : p' = p := by
          by_contra hneq
          have h1 := hmax p (by rw [he]) p' (hrq ▸ hp') hneq
          have h2 := OrderDual.toDual_le_toDual.mp (hmax' p hp)
          exact absurd h1 (not_lt.mpr h2)
        rw [he, he', hpp]
        exact ⟨rfl, rfl⟩
  · intro hfirst
    have hhead : ∀ f : process → process → Bool, (∀ a b, f a b = false) →
        (pick_by (sched_state s) f).1 = (candidates s).head? ∧
        (pick_by (sched_state s) f).2.readyqueue = (candidates s).tail := by
      intro f hf
      obtain ⟨hnil, hcons⟩ := pick_by_spec (sched_state s) f (fun _ => (0 : Nat))
        (by intro a b; simp [hf])
      cases hq : (sched_state s).readyqueue with
      | nil =>
        rw [hnil hq, ← hrq, hq]
        simp [hq]
      | cons x rest =>
        obtain ⟨p, l1, l2, hl, he, h1, -, hdel⟩ := hcons (by rw [hq]; simp)
        cases l1 with
        | nil =>
          rw [hq] at hl
          simp only [List.nil_append, List.cons.injEq] at hl
          rw [he, ← hrq, hq]
          simp only [List.head?_cons, List.tail_cons]
          refine ⟨by rw [hl.1], ?_⟩
          rw [hdel, hl.2]
          simp
        | cons a t => exact absurd (h1 a (by simp)) (lt_irrefl _)
    have h1 := hhead (fun temp pos => decide (temp.prio < pos.prio) && (s.first == false))
      (by intro a b; simp [hfirst])
    have h2 := hhead (fun temp pos => decide (temp.prio ≤ pos.prio) && (s.first == false))
      (by intro a b; simp [hfirst])
    exact ⟨hip1.trans h1.1, hip2.trans h1.2, hcp1.trans h2.1, hcp2.trans h2.2⟩

/-- Witness of C19: in `ex_state` (with `first` clear) the occupant, process 1,
is not in the ready queue and has the strictly greatest prio. -/
theorem protocol_schedule_vs_prio_schedule_witness :
    ((pip_schedule ex_state).1 = (prio_schedule ex_state).1 ∧
      (pip_schedule ex_state).2.readyqueue = (prio_schedule ex_state).2.readyqueue) ∧
    ((pcp_schedule ex_state).1 = (prio_schedule ex_state).1 ∧
      (pcp_schedule ex_state).2.readyqueue = (prio_schedule ex_state).2.readyqueue) :=
  have h := (protocol_schedule_vs_prio_schedule ex_state (by
      intro c hc
      obtain rfl : 1 = c := Option.some.inj hc
      decide)).1 rfl
  ⟨h.1, h.2 (by
      intro p hp q hq hne
      obtain rfl : 1 = p := Option.some.inj hp
      have hcand : candidates ex_state = [1, 2, 3] := by decide
      have hq' : q = 1 ∨ q = 2 ∨ q = 3 := by simpa [hcand] using hq
      rcases hq' with e | e | e
      · exact absurd e hne
      · subst e
        decide
      · subst e
        decide)⟩

/-- The idle contract of a schedule function whose result, ready queue and
resource table are those of a selection `res` run on a state `S`, where `S`
has an empty ready queue exactly in the idle situation and is then the state
of the call, and the selection returns nothing exactly on an empty ready
queue, changing nothing. -/
theorem idle_contract_of (F : State → Option Nat × State) (s S : State)
    (res : Option Nat × State)
    (h1 : (F s).1 = res.1) (h2 : (F s).2.readyqueue = res.2.readyqueue)
    (h3 : (F s).2.resources = res.2.resources)
    (hS : S.readyqueue = [] ↔ (s.readyqueue = [] ∧ ¬ ∃ c, occupant_unfinished s c))
    (hSs : (¬ ∃ c, occupant_unfinished s c) → S = s)
    (hres : (res.1 = none ↔ S.readyqueue = []) ∧ (S.readyqueue = [] → res = (none, S))) :
    idle_contract F s := by
  constructor
  · rw [h1, hres.1, hS]
  · intro hnone
    rw [h1, hres.1] at hnone
    have hidle := hS.mp hnone
    rw [h2, h3, hres.2 hnone, hSs hidle.2]
    exact ⟨rfl, rfl⟩

/-- The selecting `pick_next` returns nothing exactly on an empty ready
queue, and then changes nothing. -/
theorem pick_by_idle (S : State) (f : process → process → Bool) :
    ((pick_by S f).1 = none ↔ S.readyqueue = []) ∧
    (S.readyqueue = [] → pick_by S f = (none, S)) := by
  rcases pick_by_cases S f with ⟨hnil, he⟩ | ⟨hne, p, -, he, -⟩
  · exact ⟨by simp [he, hnil], fun _ => he⟩
  · exact ⟨by simp [he, hne], fun h => absurd h hne⟩

/-- The `pick_next` of FIFO and Round-Robin returns nothing exactly on an
empty ready queue, and then changes nothing. -/
theorem pick_first_idle (S : State) :
    ((pick_first S).1 = none ↔ S.readyqueue = []) ∧
    (S.readyqueue = [] → pick_first S = (none, S)) := by
  cases hq : S.readyqueue with
  | nil => simp [pick_first, list_empty, entries, hq]
  | cons a l => simp [pick_first, list_empty, entries, hq]

/-- The `pick_next` of `pa_schedule` returns nothing exactly on an empty
ready queue, and then changes nothing. -/
theorem pa_pick_next_idle (S : State) :
    ((pa_pick_next S).1 = none ↔ S.readyqueue = []) ∧
    (S.readyqueue = [] → pa_pick_next S = (none, S)) := by
  constructor
  · rw [(pa_pick_next_eq_pick_by S).1]
    exact (pick_by_idle S _).1
  · intro h
    simp [pa_pick_next, list_empty, entries, h]

/-- The idle contract of a policy that keeps an unfinished, non-waiting
occupant and otherwise runs a selection `pick` on the state of the call. -/
theorem idle_contract_keep (F pick : State → Option Nat × State) (s : State)
    (hkeep : ∀ c, occupant_unfinished s c → F s = (some c, s))
    (hpick : (¬ ∃ c, occupant_unfinished s c) → F s = pick s)
    (hres : ((pick s).1 = none ↔ s.readyqueue = []) ∧
      (s.readyqueue = [] → pick s = (none, s))) :
    idle_contract F s := by
  by_cases hocc : ∃ c, occupant_unfinished s c
  · obtain ⟨c, hc⟩ := hocc
    have hF := hkeep c hc
    constructor
    · rw [hF]
      simp only [reduceCtorEq, false_iff, not_and, not_not]
      exact fun _ => ⟨c, hc⟩
    · rw [hF]
      intro h
      simp at h
  · have hF := hpick hocc
    constructor
    · rw [hF, hres.1]
      simp [hocc]
    · rw [hF]
      intro h
      rw [hres.2 (hres.1.mp h)]
      exact ⟨rfl, rfl⟩

/-- C20: each of the eight schedule functions is total (it returns a result
for every state, with no failure alternative) and returns no process exactly
when the ready queue is empty and there is no occupant that is both not
waiting and unfinished; in that case the ready queue and the resource table
are unchanged. -/
theorem schedule_idle_result (s : State) :
    idle_contract fifo_schedule s ∧ idle_contract sjf_schedule s ∧
    idle_contract srtf_schedule s ∧ idle_contract rr_schedule s ∧
    idle_contract prio_schedule s ∧ idle_contract pa_schedule s ∧
    idle_contract pcp_schedule s ∧ idle_contract pip_schedule s := by
  obtain ⟨-, hS, hSs, -⟩ := sched_state_spec s
  obtain ⟨hT, hTs⟩ := sched_state_tail_spec s
  refine ⟨?_, ?_, ?_, ?_, ?_, ?_, ?_, ?_⟩
  · refine idle_contract_keep fifo_schedule pick_first s ?_ ?_ (pick_first_idle s)
    · rintro c ⟨hc, hw, hl⟩
      simp [fifo_schedule, hc, hw, hl]
    · intro hno
      cases hc : s.current with
      | none => simp [fifo_schedule, hc]
      | some c =>
        by_cases hw : (s.procs c).status = .PROCESS_WAIT
        · simp [fifo_schedule, hc, hw]
        · by_cases hl : (s.procs c).age < (s.procs c).lifespan
          · exact absurd ⟨c, hc, hw, hl⟩ hno
          · simp [fifo_schedule, hc, hw, hl]
  · refine idle_contract_keep sjf_schedule
      (fun s => pick_by s (fun temp pos => temp.lifespan > pos.lifespan)) s ?_ ?_
      (pick_by_idle s _)
    · rintro c ⟨hc, hw, hl⟩
      simp [sjf_schedule, hc, hw, hl]
    · intro hno
      cases hc : s.current with
      | none => simp [sjf_schedule, hc]
      | some c =>
        by_cases hw : (s.procs c).status = .PROCESS_WAIT
        · simp [sjf_schedule, hc, hw]
        · by_cases hl : (s.procs c).age < (s.procs c).lifespan
          · exact absurd ⟨c, hc, hw, hl⟩ hno
          · simp [sjf_schedule, hc, hw, hl]
  · exact idle_contract_of srtf_schedule s (sched_state s) _
      (by rw [srtf_schedule_eq]) (by rw [srtf_schedule_eq]) (by rw [srtf_schedule_eq])
      hS hSs (pick_by_idle _ _)
  · exact idle_contract_of rr_schedule s (sched_state_tail s) _
      (by rw [rr_schedule_eq]) (by rw [rr_schedule_eq]) (by rw [rr_schedule_eq])
      hT hTs (pick_first_idle _)
  · exact idle_contract_of prio_schedule s (sched_state s) _
      (by rw [prio_schedule_eq]) (by rw [prio_schedule_eq]) (by rw [prio_schedule_eq])
      hS hSs (pick_by_idle _ _)
  · exact idle_contract_of pa_schedule s (sched_state_tail s) _
      (by rw [pa_schedule_eq]) (by rw [pa_schedule_eq]) (by rw [pa_schedule_eq])
      hT hTs (pa_pick_next_idle _)
  · obtain ⟨e1, e2, e3, -⟩ := pcp_schedule_eq s
    exact idle_contract_of pcp_schedule s (sched_state s) _ e1 e2 e3 hS hSs (pick_by_idle _ _)
  · obtain ⟨e1, e2, e3, -⟩ := pip_schedule_eq s
    exact idle_contract_of pip_schedule s (sched_state s) _ e1 e2 e3 hS hSs (pick_by_idle _ _)

/-! ### Priority inheritance and priority ceiling over time -/

/-- The selection changes no process record, no owner, neither flag, and not
`current`. -/
theorem pick_by_fields (S : State) (f : process → process → Bool) :
    (pick_by S f).2.procs = S.procs ∧
    (∀ r, ((pick_by S f).2.resources r).owner = (S.resources r).owner) ∧
    (pick_by S f).2.boostingType = S.boostingType ∧
    (pick_by S f).2.current = S.current := by
  rcases pick_by_cases S f with ⟨-, he⟩ | ⟨-, p, -, he, -⟩
  · rw [he]
    exact ⟨rfl, fun _ => rfl, rfl, rfl⟩
  · rw [he]
    exact ⟨rfl, fun _ => rfl, rfl, rfl⟩

/-- Re-enqueueing the occupant changes no process record, no owner, neither
flag, and not `current`. -/
theorem sched_state_fields (s : State) :
    (sched_state s).procs = s.procs ∧
    (∀ r, ((sched_state s).resources r).owner = (s.resources r).owner) ∧
    (sched_state s).boostingType = s.boostingType ∧
    (sched_state s).current = s.current := by
  cases hc : s.current with
  | none => simp [sched_state, hc]
  | some c =>
    by_cases ho : occupant_unfinished s c
    · simp [sched_state, hc, ho, list_move, list_add, set_entries, list_del_init]
    · simp [sched_state, hc, ho]

/-- The function `pip_schedule` changes no process record and no owner. -/
theorem pip_schedule_fields (s : State) :
    (pip_schedule s).2.procs = s.procs ∧
    (∀ r, ((pip_schedule s).2.resources r).owner = (s.resources r).owner) := by
  obtain ⟨-, -, e3, e4⟩ := pip_schedule_eq s
  obtain ⟨f1, f2, -, -⟩ := pick_by_fields (sched_state s)
    (fun temp pos => decide (temp.prio < pos.prio) && (s.first == false))
  obtain ⟨g1, g2, -, -⟩ := sched_state_fields s
  refine ⟨by rw [e4, f1, g1], ?_⟩
  intro r
  rw [e3, f2 r, g2 r]

/-- The wake-all loop of `prio_release` changes no `prio`, no `prio_orig`
and no owner, whatever the queues hold. -/
theorem prio_release_loop_fields (cur : Nat) (l : List Nat) (st : State) :
    (∀ p, ((l.foldl (prio_release_body cur) st).procs p).prio = (st.procs p).prio) ∧
    (∀ p, ((l.foldl (prio_release_body cur) st).procs p).prio_orig
        = (st.procs p).prio_orig) ∧
    (∀ r, ((l.foldl (prio_release_body cur) st).resources r).owner
        = (st.resources r).owner) ∧
    (l.foldl (prio_release_body cur) st).boostingType = st.boostingType ∧
    (l.foldl (prio_release_body cur) st).current = st.current := by
  induction l generalizing st with
  | nil => simp
  | cons w l ih =>
    obtain ⟨i1, i2, i3, i4, i5⟩ := ih (prio_release_body cur st w)
    simp only [List.foldl_cons]
    refine ⟨?_, ?_, ?_, ?_, ?_⟩
    · intro p
      rw [i1 p]
      by_cases hp : p = w
      · subst hp
        simp [prio_release_body, list_move, list_add, set_entries, list_del_init, set_status]
      · simp [prio_release_body, list_move, list_add, set_entries, list_del_init, set_status,
          hp]
    · intro p
      rw [i2 p]
      by_cases hp : p = w
      · subst hp
        simp [prio_release_body, list_move, list_add, set_entries, list_del_init, set_status]
      · simp [prio_release_body, list_move, list_add, set_entries, list_del_init, set_status,
          hp]
    · intro r
      rw [i3 r]
      simp [prio_release_body, list_move, list_add, set_entries, list_del_init, set_status]
    · rw [i4]
      simp [prio_release_body, list_move, list_add, set_entries, list_del_init, set_status]
    · rw [i5]
      simp [prio_release_body, list_move, list_add, set_entries, list_del_init, set_status]

/-- A successful `prio_release`, in any state: the caller `c` is the current
process and the owner; afterwards its `prio` is its `prio_orig`, the resource
has no owner, and no other `prio`, no `prio_orig`, no other owner, neither
flag and not `current` has changed. -/
theorem prio_release_fields (s : State) (r : Nat) (s' : State)
    (h : prio_release s r = .ok s') :
    ∃ c, s.current = some c ∧ (s.resources r).owner = some c ∧
      (∀ p, (s'.procs p).prio = if p = c then (s.procs c).prio_orig else (s.procs p).prio) ∧
      (∀ p, (s'.procs p).prio_orig = (s.procs p).prio_orig) ∧
      (∀ r', (s'.resources r').owner = if r' = r then none else (s.resources r').owner) ∧
      s'.boostingType = s.boostingType ∧ s'.current = s.current := by
  unfold prio_release at h
  by_cases hoc : (s.resources r).owner = s.current
  · simp only [hoc, ne_eq, not_true_eq_false, if_false] at h
    cases hcur : s.current with
    | none => simp [hcur] at h
    | some c =>
      simp only [hcur] at h
      obtain ⟨i1, i2, i3, i4, i5⟩ := prio_release_loop_fields c
        (entries (set_owner (set_prio s c (s.procs c).prio_orig) r none) (.waitqueue r))
        (set_owner (set_prio s c (s.procs c).prio_orig) r none)
      have hs' : s' = (entries (set_owner (set_prio s c (s.procs c).prio_orig) r none)
          (.waitqueue r)).foldl (prio_release_body c)
          (set_owner (set_prio s c (s.procs c).prio_orig) r none) := by
        by_cases hemp : list_empty (set_owner (set_prio s c (s.procs c).prio_orig) r none)
            (.waitqueue r) = true
        · simp only [hemp, if_true, Except.ok.injEq] at h
          have hnil : entries (set_owner (set_prio s c (s.procs c).prio_orig) r none)
              (.waitqueue r) = [] := by
            simpa [list_empty] using hemp
          rw [hnil, ← h]
          rfl
        · simp only [hemp, Bool.false_eq_true, if_false, Except.ok.injEq] at h
          exact h.symm
      refine ⟨c, rfl, by rw [hoc, hcur], ?_, ?_, ?_, ?_, ?_⟩
      · intro p
        rw [hs', i1 p]
        by_cases hp : p = c
        · subst hp
          simp [set_owner, set_prio]
        · simp [set_owner, set_prio, hp]
      · intro p
        rw [hs', i2 p]
        by_cases hp : p = c
        · subst hp
          simp [set_owner, set_prio]
        · simp [set_owner, set_prio, hp]
      · intro r'
        rw [hs', i3 r']
        by_cases hr : r' = r
        · subst hr
          simp [set_owner, set_prio]
        · simp [set_owner, set_prio, hr]
      · rw [hs', i4]
        rfl
      · rw [hs', i5]
        simp [set_owner, set_prio, hcur]
  · simp [hoc] at h

/-- The function `prio_release` succeeds when the current process is the
owner. -/
theorem prio_release_succeeds (s : State) (r c : Nat)
    (hc : s.current = some c) (ho : (s.resources r).owner = some c) :
    ∃ s', prio_release s r = .ok s' := by
  unfold prio_release
  simp only [ho, hc, ne_eq, not_true_eq_false, if_false]
  split
  · exact ⟨_, rfl⟩
  · exact ⟨_, rfl⟩

/-- C17: under the PIP mode, when `B` owns the resource with
`prio = prio_orig = pb` and the current process `A` has `prio = pa > pb`,
`prio_acquire` by `A` is refused and leaves the `prio` of `B` at least `pa`;
in every state reached afterwards by `pip_schedule` calls (with the driver
updating ages, statuses and the occupant in between) the `prio` of `B` is
still at least `pa`, and there a `prio_release` by `B` succeeds and sets the
`prio` of `B` to exactly `pb`. -/
theorem pip_boost_round_trip ( MAX_PRIO : Nat) (s : State) (r A B pa pb : Nat)
    (hgt : pa > pb) (hpip : s.boostingType.pip = true)
    (hA : s.current = some A) (hB : (s.resources r).owner = some B)
    (hBp : (s.procs B).prio = pb) (hBo : (s.procs B).prio_orig = pb)
    (hAp : (s.procs A).prio = pa) :
    ∃ s1, prio_acquire MAX_PRIO s r = .ok (false, s1) ∧
      (s1.procs B).prio ≥ pa ∧
      ∀ t, pip_later s1 t →
        (t.procs B).prio ≥ pa ∧
        (t.current = some B →
          ∃ t', prio_release t r = .ok t' ∧ (t'.procs B).prio = pb) := by
  have hAB : A ≠ B := by
    intro e
    rw [e, hBp] at hAp
    omega
  have hlt : (s.procs A).prio > (s.procs B).prio := by rw [hAp, hBp]; exact hgt
  refine ⟨list_move (set_status (set_prio s B (s.procs A).prio) A .PROCESS_WAIT) A
    (.waitqueue r), ?_, ?_, ?_⟩
  · simp [prio_acquire, hB, hA, hpip, hlt]
  · simp [list_move, list_add, set_entries, list_del_init, set_status, set_prio,
      Ne.symm hAB, hAp]
  · intro t ht
    have hinv : (t.procs B).prio = pa ∧ (t.procs B).prio_orig = pb ∧
        (t.resources r).owner = some B := by
      induction ht with
      | refl =>
        refine ⟨?_, ?_, ?_⟩
        · simp [list_move, list_add, set_entries, list_del_init, set_status, set_prio,
            Ne.symm hAB, hAp]
        · simp [list_move, list_add, set_entries, list_del_init, set_status, set_prio,
            Ne.symm hAB, hBo]
        · simp [list_move, list_add, set_entries, list_del_init, set_status, set_prio, hB]
      | schedule t _ ih =>
        obtain ⟨f1, f2⟩ := pip_schedule_fields t
        rw [f1, f2 r]
        exact ih
      | driver t procs' cur _ hkeep ih =>
        exact ⟨(hkeep B).1.trans ih.1, (hkeep B).2.trans ih.2.1, ih.2.2⟩
    refine ⟨by rw [hinv.1], ?_⟩
    intro hcur
    obtain ⟨t', ht'⟩ := prio_release_succeeds t r B hcur hinv.2.2
    obtain ⟨c, hc, -, hprio, -⟩ := prio_release_fields t r t' ht'
    have hcB : c = B := Option.some.inj (hc.symm.trans hcur)
    refine ⟨t', ht', ?_⟩
    rw [hprio B, hcB]
    simp [hinv.2.1]

/-- Witness of C17, with `pa = 5` and `pb = 2`: in `ex_pip` process 1 (prio 5)
asks for resource 0, owned by process 2 (prio 2). -/
theorem pip_boost_round_trip_witness :
    ∃ s1, prio_acquire 64 ex_pip 0 = .ok (false, s1) ∧
      (s1.procs 2).prio ≥ 5 ∧
      ∀ t, pip_later s1 t →
        (t.procs 2).prio ≥ 5 ∧
        (t.current = some 2 →
          ∃ t', prio_release t 0 = .ok t' ∧ (t'.procs 2).prio = 2) :=
  pip_boost_round_trip 64 ex_pip 0 1 2 5 2 (by decide) rfl rfl rfl rfl rfl rfl

/-- The function `pcp_schedule` changes no process record and no owner, and
leaves the flags in the PCP mode. -/
theorem pcp_schedule_fields (s : State) :
    (pcp_schedule s).2.procs = s.procs ∧
    (∀ r, ((pcp_schedule s).2.resources r).owner = (s.resources r).owner) ∧
    (pcp_schedule s).2.boostingType = { pip := false, pcp := true } := by
  obtain ⟨-, -, e3, e4⟩ := pcp_schedule_eq s
  obtain ⟨f1, f2, -, -⟩ := pick_by_fields (sched_state s)
    (fun temp pos => decide (temp.prio ≤ pos.prio) && (s.first == false))
  obtain ⟨g1, g2, -, -⟩ := sched_state_fields s
  refine ⟨by rw [e4, f1, g1], ?_, ?_⟩
  · intro r
    rw [e3, f2 r, g2 r]
  · cases hc : s.current with
    | none =>
      simp only [pcp_schedule, hc]
      exact (pick_by_fields _ _).2.2.1
    | some c =>
      by_cases hw : (s.procs c).status = .PROCESS_WAIT
      · simp only [pcp_schedule, hc, hw, if_true]
        exact (pick_by_fields _ _).2.2.1
      · by_cases hl : (s.procs c).age < (s.procs c).lifespan
        · simp only [pcp_schedule, hc, hw, hl, if_true, if_false]
          exact (pick_by_fields _ _).2.2.1
        · simp only [pcp_schedule, hc, hw, hl, if_false]
          exact (pick_by_fields _ _).2.2.1

/-- A `prio_acquire` that returns, in a state whose `pip` flag is clear if the
resource is owned: it
changes no `prio_orig`, neither flag and not `current`; when refused it
changes no `prio` and no owner; when granted the resource was free and
becomes owned by `current`, and if the `pcp` flag is set the current process
exists and its `prio` becomes `MAX_PRIO`, every other `prio` being
unchanged. -/
theorem prio_acquire_fields ( MAX_PRIO : Nat) (s : State) (r : Nat) (b : Bool) (s' : State)
    (hpip : (s.resources r).owner ≠ none → s.boostingType.pip = false)
    (h : prio_acquire MAX_PRIO s r = .ok (b, s')) :
    (∀ p, (s'.procs p).prio_orig = (s.procs p).prio_orig) ∧
    s'.boostingType = s.boostingType ∧ s'.current = s.current ∧
    (b = false → (s.resources r).owner ≠ none ∧
      (∀ p, (s'.procs p).prio = (s.procs p).prio) ∧
      (∀ r', (s'.resources r').owner = (s.resources r').owner)) ∧
    (b = true → (s.resources r).owner = none ∧
      (∀ r', (s'.resources r').owner = if r' = r then s.current else (s.resources r').owner) ∧
      (s.boostingType.pcp = false → ∀ p, (s'.procs p).prio = (s.procs p).prio) ∧
      (s.boostingType.pcp = true → ∃ c, s.current = some c ∧
        ∀ p, (s'.procs p).prio = if p = c then MAX_PRIO else (s.procs p).prio)) := by
  unfold prio_acquire at h
  cases ho : (s.resources r).owner with
  | none =>
    simp only [ho] at h
    by_cases hpcp : s.boostingType.pcp = true
    · have hpcp' : (set_owner s r s.current).boostingType.pcp = true := hpcp
      simp only [hpcp', if_true] at h
      cases hc : s.current with
      | none =>
        have : (set_owner s r s.current).current = none := hc
        simp [this] at h
      | some c =>
        have : (set_owner s r s.current).current = some c := hc
        simp only [this, Except.ok.injEq, Prod.mk.injEq] at h
        obtain ⟨hb, hs'⟩ := h
        subst hb
        subst hs'
        refine ⟨?_, rfl, by simp [set_prio, set_owner, hc], by simp, fun _ => ⟨rfl, ?_, ?_, ?_⟩⟩
        · intro p
          by_cases hp : p = c
          · subst hp
            simp [set_prio, set_owner]
          · simp [set_prio, set_owner, hp]
        · intro r'
          by_cases hr : r' = r
          · subst hr
            simp [set_prio, set_owner, hc]
          · simp [set_prio, set_owner, hr]
        · intro hf
          rw [hf] at hpcp
          exact absurd hpcp (by simp)
        · intro _
          refine ⟨c, rfl, ?_⟩
          intro p
          by_cases hp : p = c
          · subst hp
            simp [set_prio, set_owner]
          · simp [set_prio, set_owner, hp]
    · have hpcp' : ¬ (set_owner s r s.current).boostingType.pcp = true := hpcp
      simp only [hpcp', Bool.false_eq_true, if_false, Except.ok.injEq, Prod.mk.injEq] at h
      obtain ⟨hb, hs'⟩ := h
      subst hb
      subst hs'
      refine ⟨fun _ => rfl, rfl, rfl, by simp, fun _ => ⟨rfl, ?_, fun _ _ => rfl, ?_⟩⟩
      · intro r'
        by_cases hr : r' = r
        · subst hr
          simp [set_owner]
        · simp [set_owner, hr]
      · intro ht
        exact absurd ht hpcp
  | some o =>
    simp only [ho] at h
    cases hc : s.current with
    | none => simp [hc] at h
    | some c =>
      have hpip' : s.boostingType.pip = false := hpip (by simp [ho])
      simp only [hc, hpip', Bool.false_eq_true, if_false, Except.ok.injEq, Prod.mk.injEq] at h
      obtain ⟨hb, hs'⟩ := h
      subst hb
      subst hs'
      refine ⟨?_, rfl, by simp [list_move, list_add, set_entries, list_del_init, set_status, hc],
        fun _ => ⟨by simp, ?_, ?_⟩, by simp⟩
      · intro p
        by_cases hp : p = c
        · subst hp
          simp [list_move, list_add, set_entries, list_del_init, set_status]
        · simp [list_move, list_add, set_entries, list_del_init, set_status, hp]
      · intro p
        by_cases hp : p = c
        · subst hp
          simp [list_move, list_add, set_entries, list_del_init, set_status]
        · simp [list_move, list_add, set_entries, list_del_init, set_status, hp]
      · intro r'
        by_cases hr : r' = r
        · subst hr
          simp [list_move, list_add, set_entries, list_del_init, set_status]
        · simp [list_move, list_add, set_entries, list_del_init, set_status, hr]

/-- One step of the PCP simulation from a state satisfying `pcp_invariant` to
a state in which no process owns two resources keeps the invariant and
changes no `prio_orig`. -/
theorem pcp_step_invariant ( MAX_PRIO : Nat) (s t : State)
    (hinv : pcp_invariant MAX_PRIO s) (hstep : pcp_step MAX_PRIO s t)
    (hsingle : single_holder t) :
    pcp_invariant MAX_PRIO t ∧ ∀ p, (t.procs p).prio_orig = (s.procs p).prio_orig := by
  obtain ⟨ha, hb, hc, hd⟩ := hinv
  cases hstep with
  | schedule =>
    obtain ⟨f1, f2, f3⟩ := pcp_schedule_fields s
    refine ⟨⟨Or.inl ?_, ?_, ?_, hsingle⟩, ?_⟩
    · show (pcp_schedule s).2.boostingType.pcp = true ∧ (pcp_schedule s).2.boostingType.pip = false
      rw [f3]
      exact ⟨rfl, rfl⟩
    · intro p r ho
      have ho' : ((pcp_schedule s).2.resources r).owner = some p := ho
      rw [f2 r] at ho'
      show ((pcp_schedule s).2.procs p).prio = MAX_PRIO
      rw [f1]
      exact hb p r ho'
    · intro p hp
      show ((pcp_schedule s).2.procs p).prio = ((pcp_schedule s).2.procs p).prio_orig
      rw [f1]
      apply hc p
      intro r
      have := hp r
      have h' : ((pcp_schedule s).2.resources r).owner ≠ some p := this
      rwa [f2 r] at h'
    · intro p
      show ((pcp_schedule s).2.procs p).prio_orig = (s.procs p).prio_orig
      rw [f1]
  | acquire r b _ hacq =>
    have hpip : (s.resources r).owner ≠ none → s.boostingType.pip = false := by
      intro hne
      rcases ha with ⟨-, h⟩ | ⟨-, h⟩
      · exact h
      · exact absurd (h r) hne
    obtain ⟨g1, g2, g3, g4, g5⟩ := prio_acquire_fields MAX_PRIO s r b t hpip hacq
    refine ⟨⟨?_, ?_, ?_, hsingle⟩, g1⟩
    · rcases ha with h | ⟨hcur, hnone⟩
      · exact Or.inl (by rw [g2]; exact h)
      · cases b with
        | false => exact absurd (hnone r) (g4 rfl).1
        | true =>
          refine Or.inr ⟨by rw [g3]; exact hcur, ?_⟩
          intro r'
          rw [(g5 rfl).2.1 r', hcur]
          by_cases hr : r' = r
          · simp [hr]
          · simp [hr, hnone r']
    · intro p r' ho
      cases b with
      | false =>
        obtain ⟨-, k1, k2⟩ := g4 rfl
        rw [k2 r'] at ho
        rw [k1 p]
        exact hb p r' ho
      | true =>
        obtain ⟨hfree, k1, k2, k3⟩ := g5 rfl
        rw [k1 r'] at ho
        by_cases hpcp : s.boostingType.pcp = true
        · obtain ⟨c, hcur, hprio⟩ := k3 hpcp
          rw [hprio p]
          by_cases hpc : p = c
          · simp [hpc]
          · simp only [hpc, if_false]
            by_cases hr : r' = r
            · rw [if_pos hr, hcur] at ho
              exact absurd (Option.some.inj ho).symm hpc
            · rw [if_neg hr] at ho
              exact hb p r' ho
        · rcases ha with ⟨h, -⟩ | ⟨hcur, hnone⟩
          · exact absurd h hpcp
          · by_cases hr : r' = r
            · rw [if_pos hr, hcur] at ho
              exact absurd ho (by simp)
            · rw [if_neg hr, hnone r'] at ho
              exact absurd ho (by simp)
    · intro p hp
      cases b with
      | false =>
        obtain ⟨-, k1, k2⟩ := g4 rfl
        rw [k1 p, g1 p]
        apply hc p
        intro r'
        have := hp r'
        rwa [k2 r'] at this
      | true =>
        obtain ⟨hfree, k1, k2, k3⟩ := g5 rfl
        have hown : ∀ r', (s.resources r').owner ≠ some p := by
          intro r'
          by_cases hr : r' = r
          · rw [hr, hfree]
            simp
          · have := hp r'
            rwa [k1 r', if_neg hr] at this
        by_cases hpcp : s.boostingType.pcp = true
        · obtain ⟨c, hcur, hprio⟩ := k3 hpcp
          have hpc : p ≠ c := by
            intro e
            have := hp r
            rw [k1 r, if_pos rfl, hcur, e] at this
            exact this rfl
          rw [hprio p, if_neg hpc, g1 p]
          exact hc p hown
        · have hpcp' : s.boostingType.pcp = false := by simpa using hpcp
          rw [k2 hpcp' p, g1 p]
          exact hc p hown
  | release r _ hrel =>
    obtain ⟨c, hcur, hown, k1, k2, k3, k4, k5⟩ := prio_release_fields s r t hrel
    refine ⟨⟨?_, ?_, ?_, hsingle⟩, k2⟩
    · rcases ha with h | ⟨-, hnone⟩
      · exact Or.inl (by rw [k4]; exact h)
      · rw [hnone r] at hown
        exact absurd hown (by simp)
    · intro p r' ho
      rw [k3 r'] at ho
      by_cases hr : r' = r
      · rw [if_pos hr] at ho
        exact absurd ho (by simp)
      · rw [if_neg hr] at ho
        have hpc : p ≠ c := by
          intro e
          rw [e] at ho
          exact hr (hd c r' r ho hown)
        rw [k1 p, if_neg hpc]
        exact hb p r' ho
    · intro p hp
      rw [k1 p, k2 p]
      by_cases hpc : p = c
      · rw [if_pos hpc, hpc]
      · rw [if_neg hpc]
        apply hc p
        intro r'
        by_cases hr : r' = r
        · rw [hr, hown]
          intro e
          exact hpc (Option.some.inj e).symm
        · have := hp r'
          rwa [k3 r', if_neg hr] at this
  | driver procs' hkeep =>
    refine ⟨⟨ha, ?_, ?_, hsingle⟩, fun p => (hkeep p).2⟩
    · intro p r ho
      show (procs' p).prio = MAX_PRIO
      rw [(hkeep p).1]
      exact hb p r ho
    · intro p hp
      show (procs' p).prio = (procs' p).prio_orig
      rw [(hkeep p).1, (hkeep p).2]
      exact hc p hp

/-- Along a run of the PCP simulation in which no process owns two resources
at once, the invariant is kept and no `prio_orig` changes. -/
theorem pcp_run_invariant ( MAX_PRIO : Nat) (a b : State)
    (hinv : pcp_invariant MAX_PRIO a) (hrun : pcp_run MAX_PRIO a b) :
    pcp_invariant MAX_PRIO b ∧ ∀ p, (b.procs p).prio_orig = (a.procs p).prio_orig := by
  induction hrun with
  | init => exact ⟨hinv, fun _ => rfl⟩
  | step s t _ hstep hsingle ih =>
    obtain ⟨i1, i2⟩ := ih
    obtain ⟨j1, j2⟩ := pcp_step_invariant MAX_PRIO s t i1 hstep hsingle
    exact ⟨j1, fun p => (j2 p).trans (i2 p)⟩

/-- C18, counterexample: from `ex_pcp_init` (nothing owned), after
`pcp_schedule`, `prio_acquire(0)`, `prio_acquire(1)` and `prio_release(0)`,
process 1 still owns resource 1 but its `prio` is 3 again, not
`MAX_PRIO = 64`. -/
theorem pcp_ceiling_lost_on_release :
    ∃ s, Relation.ReflTransGen (pcp_step 64) ex_pcp_init s ∧
      (s.resources 1).owner = some 1 ∧ (s.procs 1).prio = 3 ∧ (s.procs 1).prio ≠ 64 := by
  have h1 : pcp_step 64 ex_pcp_init ex_pcp_running := pcp_step.schedule ex_pcp_init
  have h2 : pcp_step 64 ex_pcp_running
      (set_prio (set_owner ex_pcp_running 0 ex_pcp_running.current) 1 64) :=
    pcp_step.acquire ex_pcp_running 0 true _ rfl
  have h3 : pcp_step 64 (set_prio (set_owner ex_pcp_running 0 ex_pcp_running.current) 1 64)
      (set_prio (set_owner (set_prio (set_owner ex_pcp_running 0 ex_pcp_running.current) 1 64)
        1 ex_pcp_running.current) 1 64) :=
    pcp_step.acquire _ 1 true _ rfl
  have h4 : ∃ s4, prio_release
      (set_prio (set_owner (set_prio (set_owner ex_pcp_running 0 ex_pcp_running.current) 1 64)
        1 ex_pcp_running.current) 1 64) 0 = .ok s4 ∧
      (s4.resources 1).owner = some 1 ∧ (s4.procs 1).prio = 3 :=
    ⟨_, rfl, by decide, by decide⟩
  obtain ⟨s4, e4, o4, p4⟩ := h4
  refine ⟨s4, ?_, o4, p4, by rw [p4]; decide⟩
  exact (((Relation.ReflTransGen.single h1).tail h2).tail h3).tail (pcp_step.release _ 0 s4 e4)

/-- C18, amended: along every run of `pcp_schedule` (with the result installed
as occupant), `prio_acquire` and `prio_release` calls that starts with nothing
running, no resource owned and `prio_orig = prio` for every process, and in
which no process ever owns two resources at once, every process that owns a
resource has `prio = MAX_PRIO`; and when the occupant `c` is granted a
resource in a reached state, then in every state reached later in such a run
a `prio_release` of that resource by `c` leaves the `prio` of `c` equal to
the value it had right before the acquisition. -/
theorem pcp_ceiling_single_holder ( MAX_PRIO : Nat) (s0 : State)
    (h0 : ∀ r, (s0.resources r).owner = none) (hcur0 : s0.current = none)
    (hprio0 : ∀ p, (s0.procs p).prio = (s0.procs p).prio_orig)
    (s : State) (hrun : pcp_run MAX_PRIO s0 s) :
    (∀ p r, (s.resources r).owner = some p → (s.procs p).prio = MAX_PRIO) ∧
    (∀ c r s1, s.current = some c → prio_acquire MAX_PRIO s r = .ok (true, s1) →
      single_holder s1 →
      (s1.procs c).prio = MAX_PRIO ∧
      ∀ t, pcp_run MAX_PRIO s1 t → t.current = some c →
        ∀ t', prio_release t r = .ok t' → (t'.procs c).prio = (s.procs c).prio) := by
  have hinv0 : pcp_invariant MAX_PRIO s0 := by
    refine ⟨Or.inr ⟨hcur0, h0⟩, ?_, fun p _ => hprio0 p, ?_⟩
    · intro p r ho
      rw [h0 r] at ho
      exact absurd ho (by simp)
    · intro p r1 r2 ho
      rw [h0 r1] at ho
      exact absurd ho (by simp)
  obtain ⟨hinv, -⟩ := pcp_run_invariant MAX_PRIO s0 s hinv0 hrun
  refine ⟨hinv.2.1, ?_⟩
  intro c r s1 hcur hacq hsingle1
  obtain ⟨hinv1, horig1⟩ := pcp_step_invariant MAX_PRIO s s1 hinv
    (pcp_step.acquire s r true s1 hacq) hsingle1
  have hpip : (s.resources r).owner ≠ none → s.boostingType.pip = false := by
    intro hne
    rcases hinv.1 with ⟨-, h⟩ | ⟨-, h⟩
    · exact h
    · exact absurd (h r) hne
  obtain ⟨-, -, -, -, g5⟩ := prio_acquire_fields MAX_PRIO s r true s1 hpip hacq
  obtain ⟨hfree, k1, -, -⟩ := g5 rfl
  have hown1 : (s1.resources r).owner = some c := by
    rw [k1 r, if_pos rfl, hcur]
  -- before the acquisition `c` owned nothing
  have hnone : ∀ r', (s.resources r').owner ≠ some c := by
    intro r' ho
    have hr : r' ≠ r := by
      intro e
      rw [e, hfree] at ho
      exact absurd ho (by simp)
    have ho1 : (s1.resources r').owner = some c := by
      rw [k1 r', if_neg hr]
      exact ho
    exact hr (hsingle1 c r' r ho1 hown1)
  have hbefore : (s.procs c).prio = (s.procs c).prio_orig := hinv.2.2.1 c hnone
  refine ⟨hinv1.2.1 c r hown1, ?_⟩
  intro t hrun1 hcurt t' hrel
  obtain ⟨-, horigt⟩ := pcp_run_invariant MAX_PRIO s1 t hinv1 hrun1
  obtain ⟨c', hc', -, kprio, -⟩ := prio_release_fields t r t' hrel
  have hcc : c' = c := Option.some.inj (hc'.symm.trans hcurt)
  rw [kprio c, hcc, if_pos rfl, horigt c, horig1 c, hbefore]

/-- The state `ex_pcp_running` is reached from `ex_pcp_init` by one
`pcp_schedule` call. -/
theorem ex_pcp_running_run : pcp_run 64 ex_pcp_init ex_pcp_running :=
  pcp_run.step ex_pcp_init ex_pcp_running pcp_run.init (pcp_step.schedule ex_pcp_init)
    (by
      intro p r1 r2 h
      exact absurd h (by
        show ¬ ((none : Option Nat) = some p)
        simp))

/-- In `ex_pcp_owned` resource 0 is the only resource with an owner. -/
theorem ex_pcp_owned_owner (r p : Nat) (h : (ex_pcp_owned.resources r).owner = some p) :
    r = 0 := by
  by_cases hr : r = 0
  · exact hr
  · have : (ex_pcp_owned.resources r).owner = none := by
      simp [ex_pcp_owned, set_prio, set_owner, hr, ex_pcp_running, pcp_schedule, ex_pcp_init,
        pick_by, list_empty, entries, scan, list_del_init]
    rw [this] at h
    exact absurd h (by simp)

/-- No process owns two resources in `ex_pcp_owned`. -/
theorem ex_pcp_owned_single_holder : single_holder ex_pcp_owned := by
  intro p r1 r2 h1 h2
  rw [ex_pcp_owned_owner r1 p h1, ex_pcp_owned_owner r2 p h2]

/-- The state `ex_pcp_owned` is reached from `ex_pcp_init` by a `pcp_schedule`
call and the `prio_acquire` call for resource 0, which is granted. -/
theorem ex_pcp_owned_run : pcp_run 64 ex_pcp_init ex_pcp_owned :=
  pcp_run.step ex_pcp_running ex_pcp_owned ex_pcp_running_run
    (pcp_step.acquire ex_pcp_running 0 true ex_pcp_owned rfl) ex_pcp_owned_single_holder

/-- The `pcp_schedule` call on `ex_pcp_owned` leaves the owners as they are. -/
theorem ex_pcp_owned_later_owner (r : Nat) :
    (ex_pcp_owned_later.resources r).owner = (ex_pcp_owned.resources r).owner := by
  by_cases hr : r = 0
  · subst hr
    rfl
  · simp [ex_pcp_owned_later, ex_pcp_owned, set_prio, set_owner, hr, ex_pcp_running,
      pcp_schedule, ex_pcp_init, pick_by, list_empty, entries, scan, list_del_init,
      list_move, list_add, set_entries, mkproc]

/-- No process owns two resources in `ex_pcp_owned_later`. -/
theorem ex_pcp_owned_later_single_holder : single_holder ex_pcp_owned_later := by
  intro p r1 r2 h1 h2
  rw [ex_pcp_owned_later_owner] at h1 h2
  exact ex_pcp_owned_single_holder p r1 r2 h1 h2

/-- The state `ex_pcp_owned_later` is reached from `ex_pcp_owned` by one
`pcp_schedule` call. -/
theorem ex_pcp_owned_later_run : pcp_run 64 ex_pcp_owned ex_pcp_owned_later :=
  pcp_run.step ex_pcp_owned ex_pcp_owned_later pcp_run.init (pcp_step.schedule ex_pcp_owned)
    ex_pcp_owned_later_single_holder

/-- Witness of C18: from `ex_pcp_init` one `pcp_schedule` call makes process 1
(prio 3) the occupant (`ex_pcp_running`); its `prio_acquire` for resource 0
is granted and leads to `ex_pcp_owned`, a state of the run in which process 1
owns resource 0 with `prio = 64`; after one more `pcp_schedule` call
(`ex_pcp_owned_later`) process 1 is the occupant and still the owner with
`prio = 64`, and its `prio_release` of resource 0 there leaves it with
`prio = 3`, the value it had before the acquisition. -/
theorem pcp_ceiling_single_holder_witness :
    (ex_pcp_running.procs 1).prio = 3 ∧
    prio_acquire 64 ex_pcp_running 0 = .ok (true, ex_pcp_owned) ∧
    (ex_pcp_owned.resources 0).owner = some 1 ∧
    (ex_pcp_owned.procs 1).prio = 64 ∧
    (ex_pcp_owned_later.resources 0).owner = some 1 ∧
    (ex_pcp_owned_later.procs 1).prio = 64 ∧
    ∃ t', prio_release ex_pcp_owned_later 0 = .ok t' ∧
      (t'.resources 0).owner = none ∧ (t'.procs 1).prio = 3 :=
  ⟨by decide, rfl, rfl,
    (pcp_ceiling_single_holder 64 ex_pcp_init (fun _ => rfl) rfl (fun _ => rfl)
      ex_pcp_owned ex_pcp_owned_run).1 1 0 rfl,
    rfl,
    (pcp_ceiling_single_holder 64 ex_pcp_init (fun _ => rfl) rfl (fun _ => rfl)
      ex_pcp_owned_later
      (pcp_run.step ex_pcp_owned ex_pcp_owned_later ex_pcp_owned_run
        (pcp_step.schedule ex_pcp_owned) ex_pcp_owned_later_single_holder)).1 1 0 rfl,
    _, rfl, by decide,
    ((pcp_ceiling_single_holder 64 ex_pcp_init (fun _ => rfl) rfl (fun _ => rfl)
      ex_pcp_running ex_pcp_running_run).2 1 0 ex_pcp_owned rfl rfl
        ex_pcp_owned_single_holder).2 ex_pcp_owned_later ex_pcp_owned_later_run rfl _ rfl⟩

/-! ### The scenarios -/

/-- C25: in the FIFO scenario the ten first ticks dispatch P1 five times, then
P2 three times, then P3 once, and then nothing; each process is dispatched in
one uninterrupted block of as many ticks as its lifespan, and the completion
order is P1, P2, P3. -/
theorem fifo_scenario :
    dispatches fifo_schedule 10 ex_scenario
      = [some 1, some 1, some 1, some 1, some 1, some 2, some 2, some 2, some 3, none] ∧
    completions fifo_schedule 10 ex_scenario = [1, 2, 3] := by
  decide

/-- C26: in the SJF scenario the completion order is P3, P2, P1, and each
process is dispatched in one uninterrupted block of as many ticks as its
lifespan: P3 once, then P2 three times, then P1 five times, then nothing. -/
theorem sjf_scenario :
    completions sjf_schedule 10 ex_scenario = [3, 2, 1] ∧
    dispatches sjf_schedule 10 ex_scenario
      = [some 3, some 2, some 2, some 2, some 1, some 1, some 1, some 1, some 1, none] := by
  decide

/-- C27: in the Round-Robin scenario the dispatch sequence begins
P1, P2, P3, P1, P2, P1; the nine first ticks each dispatch a process and the
tenth is the first idle one; P1, P2 and P3 are dispatched 5, 3 and 1 times. -/
theorem rr_scenario :
    (dispatches rr_schedule 10 ex_scenario).take 6
      = [some 1, some 2, some 3, some 1, some 2, some 1] ∧
    (∀ x ∈ (dispatches rr_schedule 10 ex_scenario).take 9, x ≠ none) ∧
    (dispatches rr_schedule 10 ex_scenario).drop 9 = [none] ∧
    (dispatches rr_schedule 10 ex_scenario).count (some 1) = 5 ∧
    (dispatches rr_schedule 10 ex_scenario).count (some 2) = 3 ∧
    (dispatches rr_schedule 10 ex_scenario).count (some 3) = 1 := by
  decide

/-! ### The shape of a schedule call -/

/-- The relation `layout_eq` is reflexive. -/
theorem layout_eq_refl (a : State) : layout_eq a a :=
  ⟨rfl, rfl, fun _ => ⟨rfl, rfl, rfl⟩⟩

/-- The relation `layout_eq` is transitive. -/
theorem layout_eq_trans (a b c : State) (h1 : layout_eq a b) (h2 : layout_eq b c) :
    layout_eq a c :=
  ⟨h1.1.trans h2.1, h1.2.1.trans h2.2.1, fun p =>
    ⟨(h1.2.2 p).1.trans (h2.2.2 p).1, (h1.2.2 p).2.1.trans (h2.2.2 p).2.1,
      (h1.2.2 p).2.2.trans (h2.2.2 p).2.2⟩⟩

/-- The aging loop of `pa_schedule` changes `prio` fields only. -/
theorem aging_loop_layout (l : List Nat) (st : State) :
    layout_eq (l.foldl (fun st pos => set_prio st pos (((st.procs pos).prio + 1) % 2 ^ 32)) st) st := by
  induction l generalizing st with
  | nil => exact layout_eq_refl st
  | cons a l ih =>
    simp only [List.foldl_cons]
    refine layout_eq_trans _ _ _ (ih _) ⟨rfl, rfl, ?_⟩
    intro p
    by_cases hp : p = a
    · subst hp
      simp [set_prio]
    · simp [set_prio, hp]

/-- The result of the selecting `pick_next`: nothing on an empty ready queue,
the state being unchanged, or a process of the ready queue, which is unlinked. -/
theorem pick_by_shape (S : State) (f : process → process → Bool) :
    ((pick_by S f).1 = none ∧ S.readyqueue = [] ∧ layout_eq (pick_by S f).2 S) ∨
    (∃ p, p ∈ S.readyqueue ∧ (pick_by S f).1 = some p ∧
      layout_eq (pick_by S f).2 (list_del_init S p)) := by
  rcases pick_by_cases S f with ⟨hnil, he⟩ | ⟨-, p, hp, he, -⟩
  · left
    rw [he]
    exact ⟨rfl, hnil, layout_eq_refl S⟩
  · right
    refine ⟨p, hp, ?_, ?_⟩
    · rw [he]
    · rw [he]
      exact layout_eq_refl _

/-- The result of the `pick_next` of FIFO and Round-Robin. -/
theorem pick_first_shape (S : State) :
    ((pick_first S).1 = none ∧ S.readyqueue = [] ∧ layout_eq (pick_first S).2 S) ∨
    (∃ p, p ∈ S.readyqueue ∧ (pick_first S).1 = some p ∧
      layout_eq (pick_first S).2 (list_del_init S p)) := by
  cases hq : S.readyqueue with
  | nil =>
    left
    have : pick_first S = (none, S) := by simp [pick_first, list_empty, entries, hq]
    rw [this]
    exact ⟨rfl, rfl, layout_eq_refl S⟩
  | cons a l =>
    right
    have : pick_first S = (some a, list_del_init S a) := by
      simp [pick_first, list_empty, entries, hq]
    rw [this]
    exact ⟨a, by simp, rfl, layout_eq_refl _⟩

/-- The result of the `pick_next` of `pa_schedule`. -/
theorem pa_pick_next_shape (S : State) :
    ((pa_pick_next S).1 = none ∧ S.readyqueue = [] ∧ layout_eq (pa_pick_next S).2 S) ∨
    (∃ p, p ∈ S.readyqueue ∧ (pa_pick_next S).1 = some p ∧
      layout_eq (pa_pick_next S).2 (list_del_init S p)) := by
  rcases pick_by_cases S (fun temp pos => temp.prio < pos.prio) with
    ⟨hnil, -⟩ | ⟨hne, p, hp, -, hs⟩
  · left
    have : pa_pick_next S = (none, S) := by simp [pa_pick_next, list_empty, entries, hnil]
    rw [this]
    exact ⟨rfl, hnil, layout_eq_refl S⟩
  · right
    have hemp : list_empty S .readyqueue = false := by
      cases hq : S.readyqueue with
      | nil => exact absurd hq hne
      | cons a l => simp [list_empty, entries, hq]
    have hrun : pa_pick_next S = (some p,
        (entries (list_del_init (set_prio S p (S.procs p).prio_orig) p) .readyqueue).foldl
          (fun st pos => set_prio st pos (((st.procs pos).prio + 1) % 2 ^ 32))
          (list_del_init (set_prio S p (S.procs p).prio_orig) p)) := by
      simp only [pa_pick_next, hemp, entries, Bool.false_eq_true, if_false]
      rw [hs]
    rw [hrun]
    refine ⟨p, hp, rfl, layout_eq_trans _ _ _ (aging_loop_layout _ _) ⟨rfl, rfl, ?_⟩⟩
    intro q
    by_cases hq : q = p
    · subst hq
      simp [list_del_init, set_prio]
    · simp [list_del_init, set_prio, hq]

/-- The shape of a schedule call of any policy: either the unfinished,
non-waiting occupant is returned and nothing changes, or the selection runs on
the state with that occupant re-enqueued (at the head or at the tail) and
returns nothing, the ready queue being empty, or returns a process of that
ready queue, which is unlinked; apart from that only `prio` fields and the
flags change. -/
theorem schedule_shape (f : State → Option Nat × State) (hf : is_schedule f) (s : State) :
    (∃ c, occupant_unfinished s c ∧ f s = (some c, s)) ∨
    ∃ S, (S = sched_state s ∨ S = sched_state_tail s) ∧
      (((f s).1 = none ∧ S.readyqueue = [] ∧ layout_eq (f s).2 S) ∨
       (∃ p, p ∈ S.readyqueue ∧ (f s).1 = some p ∧
          layout_eq (f s).2 (list_del_init S p))) := by
  have hkeep : ∀ (g : State → Option Nat × State) (pick : State → Option Nat × State),
      (∀ c, occupant_unfinished s c → g s = (some c, s)) →
      ((¬ ∃ c, occupant_unfinished s c) → g s = pick s) →
      (((pick s).1 = none ∧ s.readyqueue = [] ∧ layout_eq (pick s).2 s) ∨
        (∃ p, p ∈ s.readyqueue ∧ (pick s).1 = some p ∧
          layout_eq (pick s).2 (list_del_init s p))) →
      (∃ c, occupant_unfinished s c ∧ g s = (some c, s)) ∨
      ∃ S, (S = sched_state s ∨ S = sched_state_tail s) ∧
        (((g s).1 = none ∧ S.readyqueue = [] ∧ layout_eq (g s).2 S) ∨
         (∃ p, p ∈ S.readyqueue ∧ (g s).1 = some p ∧
            layout_eq (g s).2 (list_del_init S p))) := by
    intro g pick h1 h2 h3
    by_cases hocc : ∃ c, occupant_unfinished s c
    · obtain ⟨c, hc⟩ := hocc
      exact Or.inl ⟨c, hc, h1 c hc⟩
    · right
      refine ⟨s, Or.inl ((sched_state_spec s).2.2.1 hocc).symm, ?_⟩
      rw [h2 hocc]
      exact h3
  rcases hf with h | h | h | h | h | h | h | h
  · subst h
    refine hkeep fifo_schedule pick_first ?_ ?_ (pick_first_shape s)
    · rintro c ⟨hc, hw, hl⟩
      simp [fifo_schedule, hc, hw, hl]
    · intro hno
      cases hc : s.current with
      | none => simp [fifo_schedule, hc]
      | some c =>
        by_cases hw : (s.procs c).status = .PROCESS_WAIT
        · simp [fifo_schedule, hc, hw]
        · by_cases hl : (s.procs c).age < (s.procs c).lifespan
          · exact absurd ⟨c, hc, hw, hl⟩ hno
          · simp [fifo_schedule, hc, hw, hl]
  · subst h
    refine hkeep sjf_schedule
      (fun s => pick_by s (fun temp pos => temp.lifespan > pos.lifespan)) ?_ ?_
      (pick_by_shape s _)
    · rintro c ⟨hc, hw, hl⟩
      simp [sjf_schedule, hc, hw, hl]
    · intro hno
      cases hc : s.current with
      | none => simp [sjf_schedule, hc]
      | some c =>
        by_cases hw : (s.procs c).status = .PROCESS_WAIT
        · simp [sjf_schedule, hc, hw]
        · by_cases hl : (s.procs c).age < (s.procs c).lifespan
          · exact absurd ⟨c, hc, hw, hl⟩ hno
          · simp [sjf_schedule, hc, hw, hl]
  · subst h
    right
    refine ⟨sched_state s, Or.inl rfl, ?_⟩
    rw [srtf_schedule_eq]
    exact pick_by_shape _ _
  · subst h
    right
    refine ⟨sched_state_tail s, Or.inr rfl, ?_⟩
    rw [rr_schedule_eq]
    exact pick_first_shape _
  · subst h
    right
    refine ⟨sched_state s, Or.inl rfl, ?_⟩
    rw [prio_schedule_eq]
    exact pick_by_shape _ _
  · subst h
    right
    refine ⟨sched_state_tail s, Or.inr rfl, ?_⟩
    rw [pa_schedule_eq]
    exact pa_pick_next_shape _
  · subst h
    right
    refine ⟨sched_state s, Or.inl rfl, ?_⟩
    obtain ⟨e1, e2, e3, e4⟩ := pcp_schedule_eq s
    have hl : layout_eq (pcp_schedule s).2 (pick_by (sched_state s)
        (fun temp pos => decide (temp.prio ≤ pos.prio) && (s.first == false))).2 :=
      ⟨e2, e3, fun p => by rw [e4]; exact ⟨rfl, rfl, rfl⟩⟩
    rcases pick_by_shape (sched_state s)
        (fun temp pos => decide (temp.prio ≤ pos.prio) && (s.first == false)) with
      ⟨a1, a2, a3⟩ | ⟨p, b1, b2, b3⟩
    · exact Or.inl ⟨e1.trans a1, a2, layout_eq_trans _ _ _ hl a3⟩
    · exact Or.inr ⟨p, b1, e1.trans b2, layout_eq_trans _ _ _ hl b3⟩
  · subst h
    right
    refine ⟨sched_state s, Or.inl rfl, ?_⟩
    obtain ⟨e1, e2, e3, e4⟩ := pip_schedule_eq s
    have hl : layout_eq (pip_schedule s).2 (pick_by (sched_state s)
        (fun temp pos => decide (temp.prio < pos.prio) && (s.first == false))).2 :=
      ⟨e2, e3, fun p => by rw [e4]; exact ⟨rfl, rfl, rfl⟩⟩
    rcases pick_by_shape (sched_state s)
        (fun temp pos => decide (temp.prio < pos.prio) && (s.first == false)) with
      ⟨a1, a2, a3⟩ | ⟨p, b1, b2, b3⟩
    · exact Or.inl ⟨e1.trans a1, a2, layout_eq_trans _ _ _ hl a3⟩
    · exact Or.inr ⟨p, b1, e1.trans b2, layout_eq_trans _ _ _ hl b3⟩

/-! ### The effect of the arbitration calls -/

/-- The two ways `fcfs_acquire` returns. -/
theorem fcfs_acquire_effect (s : State) (r : Nat) (b : Bool) (s' : State)
    (h : fcfs_acquire s r = .ok (b, s')) :
    (b = true ∧ (s.resources r).owner = none ∧ s' = set_owner s r s.current) ∨
    (b = false ∧ ∃ o c, (s.resources r).owner = some o ∧ s.current = some c ∧
      s' = list_add_tail (set_status s c .PROCESS_WAIT) c (.waitqueue r)) := by
  unfold fcfs_acquire at h
  cases ho : (s.resources r).owner with
  | none =>
    simp only [ho, Except.ok.injEq, Prod.mk.injEq] at h
    exact Or.inl ⟨h.1.symm, rfl, h.2.symm⟩
  | some o =>
    simp only [ho] at h
    cases hc : s.current with
    | none => simp [hc] at h
    | some c =>
      simp only [hc, Except.ok.injEq, Prod.mk.injEq] at h
      exact Or.inr ⟨h.1.symm, o, c, rfl, rfl, h.2.symm⟩

/-- The ways `prio_acquire` returns. -/
theorem prio_acquire_effect ( MAX_PRIO : Nat) (s : State) (r : Nat) (b : Bool) (s' : State)
    (h : prio_acquire MAX_PRIO s r = .ok (b, s')) :
    (b = true ∧ (s.resources r).owner = none ∧
      (s' = set_owner s r s.current ∨
        ∃ c, s.current = some c ∧ s' = set_prio (set_owner s r s.current) c MAX_PRIO)) ∨
    (b = false ∧ ∃ o c s0, (s.resources r).owner = some o ∧ s.current = some c ∧
      (s0 = s ∨ s0 = set_prio s o (s.procs c).prio) ∧
      s' = list_move (set_status s0 c .PROCESS_WAIT) c (.waitqueue r)) := by
  unfold prio_acquire at h
  cases ho : (s.resources r).owner with
  | none =>
    simp only [ho] at h
    by_cases hpcp : (set_owner s r s.current).boostingType.pcp = true
    · simp only [hpcp, if_true] at h
      cases hc : s.current with
      | none =>
        have : (set_owner s r s.current).current = none := hc
        simp [this] at h
      | some c =>
        have : (set_owner s r s.current).current = some c := hc
        simp only [this, Except.ok.injEq, Prod.mk.injEq] at h
        exact Or.inl ⟨h.1.symm, rfl, Or.inr ⟨c, rfl, by rw [← h.2, hc]⟩⟩
    · simp only [hpcp, Bool.false_eq_true, if_false, Except.ok.injEq, Prod.mk.injEq] at h
      exact Or.inl ⟨h.1.symm, rfl, Or.inl h.2.symm⟩
  | some o =>
    simp only [ho] at h
    cases hc : s.current with
    | none => simp [hc] at h
    | some c =>
      simp only [hc, Except.ok.injEq, Prod.mk.injEq] at h
      refine Or.inr ⟨h.1.symm, o, c, _, rfl, rfl, ?_, h.2.symm⟩
      by_cases hpip : s.boostingType.pip = true
      · by_cases hgt : (s.procs c).prio > (s.procs o).prio
        · simp [hpip, hgt]
        · simp [hpip, hgt]
      · simp [hpip]

/-- The ways `fcfs_release` returns. -/
theorem fcfs_release_effect (s : State) (r : Nat) (s' : State)
    (h : fcfs_release s r = .ok s') :
    (s.resources r).owner = s.current ∧
    (((s.resources r).waitqueue = [] ∧ s' = set_owner s r none) ∨
     (∃ w rest, (s.resources r).waitqueue = w :: rest ∧
        (s.procs w).status = .PROCESS_WAIT ∧
        s' = list_add_tail (set_status (list_del_init (set_owner s r none) w) w
          .PROCESS_READY) w .readyqueue)) := by
  unfold fcfs_release at h
  by_cases hoc : (s.resources r).owner = s.current
  · refine ⟨hoc, ?_⟩
    simp only [hoc, ne_eq, not_true_eq_false, if_false] at h
    have hq : entries (set_owner s r none) (.waitqueue r) = (s.resources r).waitqueue := by
      simp [entries, set_owner]
    cases hw : (s.resources r).waitqueue with
    | nil =>
      rw [hq, hw] at h
      simp only [Except.ok.injEq] at h
      exact Or.inl ⟨rfl, h.symm⟩
    | cons w rest =>
      rw [hq, hw] at h
      by_cases hst : (s.procs w).status = .PROCESS_WAIT
      · have hst' : ((set_owner s r none).procs w).status = .PROCESS_WAIT := hst
        simp only [hst', ne_eq, not_true_eq_false, if_false, Except.ok.injEq] at h
        exact Or.inr ⟨w, rest, rfl, hst, h.symm⟩
      · have hst' : ¬ ((set_owner s r none).procs w).status = .PROCESS_WAIT := hst
        simp [hst'] at h
  · simp [hoc] at h

/-- The way `prio_release` returns. -/
theorem prio_release_effect (s : State) (r : Nat) (s' : State)
    (h : prio_release s r = .ok s') :
    ∃ c, s.current = some c ∧ (s.resources r).owner = some c ∧
      s' = (s.resources r).waitqueue.foldl (prio_release_body c)
        (set_owner (set_prio s c (s.procs c).prio_orig) r none) := by
  unfold prio_release at h
  by_cases hoc : (s.resources r).owner = s.current
  · simp only [hoc, ne_eq, not_true_eq_false, if_false] at h
    cases hcur : s.current with
    | none => simp [hcur] at h
    | some c =>
      simp only [hcur] at h
      have hq : entries (set_owner (set_prio s c (s.procs c).prio_orig) r none)
          (.waitqueue r) = (s.resources r).waitqueue := by
        simp [entries, set_owner, set_prio]
      refine ⟨c, rfl, by rw [hoc, hcur], ?_⟩
      by_cases hemp : list_empty (set_owner (set_prio s c (s.procs c).prio_orig) r none)
          (.waitqueue r) = true
      · simp only [hemp, if_true, Except.ok.injEq] at h
        have hnil : (s.resources r).waitqueue = [] := by
          rw [← hq]
          simpa [list_empty] using hemp
        rw [hnil, ← h]
        rfl
      · simp only [hemp, Bool.false_eq_true, if_false, Except.ok.injEq] at h
        rw [← hq]
        exact h.symm
  · simp [hoc] at h

/-- The wake-all loop of `prio_release` changes no age and no lifespan. -/
theorem prio_release_loop_age (cur : Nat) (l : List Nat) (st : State) (p : Nat) :
    ((l.foldl (prio_release_body cur) st).procs p).age = (st.procs p).age ∧
    ((l.foldl (prio_release_body cur) st).procs p).lifespan = (st.procs p).lifespan := by
  induction l generalizing st with
  | nil => simp
  | cons w l ih =>
    simp only [List.foldl_cons]
    rw [(ih _).1, (ih _).2]
    by_cases hp : p = w
    · subst hp
      simp [prio_release_body, list_move, list_add, set_entries, list_del_init, set_status]
    · simp [prio_release_body, list_move, list_add, set_entries, list_del_init, set_status, hp]

/-- Re-enqueueing the occupant at the tail changes no process record and no
owner. -/
theorem sched_state_tail_fields (s : State) :
    (sched_state_tail s).procs = s.procs ∧
    (∀ r, ((sched_state_tail s).resources r).owner = (s.resources r).owner) := by
  cases hc : s.current with
  | none => simp [sched_state_tail, hc]
  | some c =>
    by_cases ho : occupant_unfinished s c
    · simp [sched_state_tail, hc, ho, list_move_tail, list_add_tail, set_entries,
        list_del_init]
    · simp [sched_state_tail, hc, ho]

/-- A schedule call of any policy changes no age, no lifespan, no status and
no owner. -/
theorem schedule_keeps (f : State → Option Nat × State) (hf : is_schedule f) (s : State) :
    (∀ p, ((f s).2.procs p).age = (s.procs p).age ∧
      ((f s).2.procs p).lifespan = (s.procs p).lifespan ∧
      ((f s).2.procs p).status = (s.procs p).status) ∧
    (∀ r, ((f s).2.resources r).owner = (s.resources r).owner) := by
  rcases schedule_shape f hf s with ⟨c, -, he⟩ | ⟨S, hS, hres⟩
  · rw [he]
    exact ⟨fun _ => ⟨rfl, rfl, rfl⟩, fun _ => rfl⟩
  · have hSp : S.procs = s.procs ∧ ∀ r, (S.resources r).owner = (s.resources r).owner := by
      rcases hS with e | e
      · rw [e]
        exact ⟨(sched_state_fields s).1, (sched_state_fields s).2.1⟩
      · rw [e]
        exact sched_state_tail_fields s
    rcases hres with ⟨-, -, hl⟩ | ⟨p, -, -, hl⟩
    · refine ⟨fun q => ?_, fun r => ?_⟩
      · rw [(hl.2.2 q).1, (hl.2.2 q).2.1, (hl.2.2 q).2.2, hSp.1]
        exact ⟨rfl, rfl, rfl⟩
      · rw [hl.2.1]
        exact hSp.2 r
    · refine ⟨fun q => ?_, fun r => ?_⟩
      · rw [(hl.2.2 q).1, (hl.2.2 q).2.1, (hl.2.2 q).2.2]
        show (S.procs q).age = _ ∧ (S.procs q).lifespan = _ ∧ (S.procs q).status = _
        rw [hSp.1]
        exact ⟨rfl, rfl, rfl⟩
      · rw [hl.2.1]
        exact hSp.2 r

/-- An arbitration call that aborts has changed no process record. -/
theorem abort_keeps_procs ( MAX_PRIO : Nat) (s : State) (r : Nat) (e : Fault) (s' : State)
    (h : fcfs_acquire s r = .error (e, s') ∨ fcfs_release s r = .error (e, s') ∨
      prio_acquire MAX_PRIO s r = .error (e, s') ∨ prio_release s r = .error (e, s')) :
    s'.procs = s.procs := by
  rcases h with h | h | h | h
  · unfold fcfs_acquire at h
    split at h
    · simp at h
    · split at h
      · simp only [Except.error.injEq, Prod.mk.injEq] at h
        rw [← h.2]
      · simp at h
  · unfold fcfs_release at h
    split at h
    · simp only [Except.error.injEq, Prod.mk.injEq] at h
      rw [← h.2]
    · dsimp only at h
      split at h
      · simp at h
      · split at h
        · simp only [Except.error.injEq, Prod.mk.injEq] at h
          rw [← h.2]
          rfl
        · simp at h
  · unfold prio_acquire at h
    split at h
    · dsimp only at h
      split at h
      · split at h
        · simp only [Except.error.injEq, Prod.mk.injEq] at h
          rw [← h.2]
          rfl
        · simp at h
      · simp at h
    · split at h
      · simp only [Except.error.injEq, Prod.mk.injEq] at h
        rw [← h.2]
      · simp at h
  · unfold prio_release at h
    split at h
    · simp only [Except.error.injEq, Prod.mk.injEq] at h
      rw [← h.2]
    · split at h
      · simp only [Except.error.injEq, Prod.mk.injEq] at h
        rw [← h.2]
      · dsimp only at h
        split at h <;> simp at h

/-- An arbitration call that returns has changed no age and no lifespan. -/
theorem arbitration_keeps_age ( MAX_PRIO : Nat) (s : State) (r : Nat) (s' : State)
    (h : (∃ b, fcfs_acquire s r = .ok (b, s')) ∨ fcfs_release s r = .ok s' ∨
      (∃ b, prio_acquire MAX_PRIO s r = .ok (b, s')) ∨ prio_release s r = .ok s') (p : Nat) :
    (s'.procs p).age = (s.procs p).age ∧ (s'.procs p).lifespan = (s.procs p).lifespan := by
  rcases h with ⟨b, h⟩ | h | ⟨b, h⟩ | h
  · rcases fcfs_acquire_effect s r b s' h with ⟨-, -, e⟩ | ⟨-, o, c, -, -, e⟩
    · rw [e]
      exact ⟨rfl, rfl⟩
    · rw [e]
      by_cases hp : p = c
      · subst hp
        simp [list_add_tail, set_entries, set_status]
      · simp [list_add_tail, set_entries, set_status, hp]
  · rcases (fcfs_release_effect s r s' h).2 with ⟨-, e⟩ | ⟨w, rest, -, -, e⟩
    · rw [e]
      exact ⟨rfl, rfl⟩
    · rw [e]
      by_cases hp : p = w
      · subst hp
        simp [list_add_tail, set_entries, set_status, list_del_init, set_owner]
      · simp [list_add_tail, set_entries, set_status, list_del_init, set_owner, hp]
  · rcases prio_acquire_effect MAX_PRIO s r b s' h with
      ⟨-, -, e | ⟨c, -, e⟩⟩ | ⟨-, o, c, s0, -, -, e0, e⟩
    · rw [e]
      exact ⟨rfl, rfl⟩
    · rw [e]
      by_cases hp : p = c
      · subst hp
        simp [set_prio, set_owner]
      · simp [set_prio, set_owner, hp]
    · have h0 : (s0.procs p).age = (s.procs p).age ∧
          (s0.procs p).lifespan = (s.procs p).lifespan := by
        rcases e0 with e0 | e0
        · rw [e0]
          exact ⟨rfl, rfl⟩
        · rw [e0]
          by_cases hp : p = o
          · subst hp
            simp [set_prio]
          · simp [set_prio, hp]
      rw [e, ← h0.1, ← h0.2]
      by_cases hp : p = c
      · subst hp
        simp [list_move, list_add, set_entries, set_status, list_del_init]
      · simp [list_move, list_add, set_entries, set_status, list_del_init, hp]
  · obtain ⟨c, -, -, e⟩ := prio_release_effect s r s' h
    rw [e, (prio_release_loop_age c _ _ p).1, (prio_release_loop_age c _ _ p).2]
    by_cases hp : p = c
    · subst hp
      simp [set_prio, set_owner]
    · simp [set_prio, set_owner, hp]

/-- C24: for each of the eight schedule functions and every state whose
occupant `c` is finished (`age ≥ lifespan`) and not in the ready queue, the
call does not return `c` and `c` is not in the ready queue afterwards; and no
schedule call, no acquire call and no release call (whether it returns or
aborts) changes the age or the lifespan of any process. -/
theorem finished_occupant_not_offered ( MAX_PRIO : Nat) (s : State) :
    (∀ f, is_schedule f → ∀ c, s.current = some c →
      (s.procs c).lifespan ≤ (s.procs c).age → c ∉ s.readyqueue →
      (f s).1 ≠ some c ∧ c ∉ (f s).2.readyqueue) ∧
    (∀ f, is_schedule f → ∀ p,
      ((f s).2.procs p).age = (s.procs p).age ∧
      ((f s).2.procs p).lifespan = (s.procs p).lifespan) ∧
    (∀ r s', ((∃ b, fcfs_acquire s r = .ok (b, s')) ∨ fcfs_release s r = .ok s' ∨
        (∃ b, prio_acquire MAX_PRIO s r = .ok (b, s')) ∨ prio_release s r = .ok s') →
      ∀ p, (s'.procs p).age = (s.procs p).age ∧
        (s'.procs p).lifespan = (s.procs p).lifespan) ∧
    (∀ r e s', (fcfs_acquire s r = .error (e, s') ∨ fcfs_release s r = .error (e, s') ∨
        prio_acquire MAX_PRIO s r = .error (e, s') ∨ prio_release s r = .error (e, s')) →
      ∀ p, (s'.procs p).age = (s.procs p).age ∧
        (s'.procs p).lifespan = (s.procs p).lifespan) := by
  refine ⟨?_, ?_, ?_, ?_⟩
  · intro f hf c hc hfin hcq
    have hno : ¬ ∃ c', occupant_unfinished s c' := by
      rintro ⟨c', h1, -, h3⟩
      have : c' = c := Option.some.inj (h1.symm.trans hc)
      rw [this] at h3
      omega
    rcases schedule_shape f hf s with ⟨c', h, -⟩ | ⟨S, hS, hres⟩
    · exact absurd ⟨c', h⟩ hno
    · have hSs : S = s := by
        rcases hS with e | e
        · rw [e]
          exact (sched_state_spec s).2.2.1 hno
        · rw [e]
          exact (sched_state_tail_spec s).2 hno
      rw [hSs] at hres
      rcases hres with ⟨h1, h2, hl⟩ | ⟨p, hp, h1, hl⟩
      · refine ⟨by rw [h1]; simp, ?_⟩
        rw [hl.1, h2]
        simp
      · refine ⟨?_, ?_⟩
        · rw [h1]
          intro e
          exact hcq ((Option.some.inj e) ▸ hp)
        · rw [hl.1]
          intro hmem
          exact hcq (List.mem_of_mem_erase hmem)
  · intro f hf p
    exact ⟨((schedule_keeps f hf s).1 p).1, ((schedule_keeps f hf s).1 p).2.1⟩
  · intro r s' h p
    exact arbitration_keeps_age MAX_PRIO s r s' h p
  · intro r e s' h p
    rw [abort_keeps_procs MAX_PRIO s r e s' h]
    exact ⟨rfl, rfl⟩

/-- Witness of C24: in `ex_sched` the occupant, process 1, is finished (age 4
of lifespan 4) and not in the ready queue. -/
theorem finished_occupant_not_offered_witness :
    (rr_schedule ex_sched).1 ≠ some 1 ∧ 1 ∉ (rr_schedule ex_sched).2.readyqueue :=
  (finished_occupant_not_offered 64 ex_sched).1 rr_schedule
    (Or.inr (Or.inr (Or.inr (Or.inl rfl)))) 1 rfl (by decide) (by decide)

/-! ### The single-membership invariant -/

/-- The example `ex_stale` satisfies the membership part of the invariant. -/
theorem ex_stale_single_membership : single_membership ex_stale := by
  refine ⟨by decide, ?_, ?_, ?_, ?_, ?_, ?_⟩
  · intro r
    simp [ex_stale]
  · intro r p
    simp [ex_stale]
  · intro r1 r2 p
    simp [ex_stale]
  · intro c
    simp [ex_stale]
    rintro rfl
    decide
  · intro c r
    simp [ex_stale]
  · intro p
    by_cases h1 : p = 1
    · subst h1
      simp [ex_stale]
    · by_cases h2 : p = 2
      · subst h2
        simp [ex_stale]
      · simp [ex_stale, h1, h2, mkproc]

/-- The schedule functions rely on a waiting occupant being in a wait queue
(the comment at pa2.c:179-183 says so): `waiters_queued` is part of the list
discipline, kept by every function that writes `PROCESS_WAIT`.  In the
artificial state `ex_stale`, where process 1 occupies the running slot in
status `PROCESS_WAIT` and is in no wait queue, `fifo_schedule` does not
re-enqueue it and returns process 2, and once that result is installed the
unfinished process 1 is neither the occupant nor in any queue. -/
theorem fifo_schedule_relies_on_waiters_queued :
    single_membership ex_stale ∧
    sim_step 0 ex_stale (install (fifo_schedule ex_stale)) ∧
    (install (fifo_schedule ex_stale)).current = some 2 ∧
    ((install (fifo_schedule ex_stale)).procs 1).age
      < ((install (fifo_schedule ex_stale)).procs 1).lifespan ∧
    (install (fifo_schedule ex_stale)).current ≠ some 1 ∧
    1 ∉ (install (fifo_schedule ex_stale)).readyqueue ∧
    (∀ r, 1 ∉ ((install (fifo_schedule ex_stale)).resources r).waitqueue) ∧
    ¬ single_membership (install (fifo_schedule ex_stale)) := by
  have hres : ∀ r, 1 ∉ ((install (fifo_schedule ex_stale)).resources r).waitqueue := by
    intro r
    have : ((install (fifo_schedule ex_stale)).resources r).waitqueue = [] := rfl
    rw [this]
    simp
  refine ⟨ex_stale_single_membership, sim_step.schedule fifo_schedule ex_stale (Or.inl rfl),
    by decide, by decide, by decide, by decide, hres, ?_⟩
  intro h
  rcases h.placed 1 (by decide) with h1 | h1 | ⟨r, h1⟩
  · exact absurd h1 (by decide)
  · exact absurd h1 (by decide)
  · exact hres r h1

/-- The wake-all loop of `prio_release` adds nothing to a wait queue. -/
theorem prio_release_loop_waitqueue (cur r' : Nat) (l : List Nat) (st : State) (x : Nat)
    (hx : x ∈ ((l.foldl (prio_release_body cur) st).resources r').waitqueue) :
    x ∈ (st.resources r').waitqueue := by
  induction l generalizing st with
  | nil => exact hx
  | cons w l ih =>
    have h1 := ih (prio_release_body cur st w) hx
    have h2 : ((prio_release_body cur st w).resources r').waitqueue
        = (((st.resources r').waitqueue.erase w).erase w).erase cur := by
      simp [prio_release_body, list_move, list_add, set_entries, list_del_init, set_status]
    rw [h2] at h1
    exact List.mem_of_mem_erase (List.mem_of_mem_erase (List.mem_of_mem_erase h1))

/-- A release adds nothing to a wait queue, and every owner it leaves was the
owner before. -/
theorem release_shrinks (s : State) (r : Nat) (s' : State)
    (hrel : fcfs_release s r = .ok s' ∨ prio_release s r = .ok s') :
    ∀ r', (∀ x, x ∈ (s'.resources r').waitqueue → x ∈ (s.resources r').waitqueue) ∧
      (∀ o, (s'.resources r').owner = some o → (s.resources r').owner = some o) := by
  intro r'
  rcases hrel with hrel | hrel
  · obtain ⟨-, hcase⟩ := fcfs_release_effect s r s' hrel
    rcases hcase with ⟨-, e⟩ | ⟨w, rest, -, -, e⟩
    · rw [e]
      by_cases hr : r' = r
      · subst hr
        simp [set_owner]
      · simp [set_owner, hr]
    · rw [e]
      constructor
      · intro x hx
        have hx' : x ∈ ((set_owner s r none).resources r').waitqueue.erase w := by
          simpa [list_add_tail, set_entries, set_status, list_del_init] using hx
        have hx2 := List.mem_of_mem_erase hx'
        by_cases hr : r' = r
        · subst hr
          simpa [set_owner] using hx2
        · simpa [set_owner, hr] using hx2
      · intro o ho
        have ho' : ((set_owner s r none).resources r').owner = some o := by
          simpa [list_add_tail, set_entries, set_status, list_del_init] using ho
        by_cases hr : r' = r
        · subst hr
          simp [set_owner] at ho'
        · simpa [set_owner, hr] using ho'
  · obtain ⟨c, -, -, e⟩ := prio_release_effect s r s' hrel
    obtain ⟨-, -, m3, -, -⟩ := prio_release_loop_fields c (s.resources r).waitqueue
      (set_owner (set_prio s c (s.procs c).prio_orig) r none)
    constructor
    · intro x hx
      rw [e] at hx
      have hx2 := prio_release_loop_waitqueue c r' _ _ x hx
      by_cases hr : r' = r
      · subst hr
        simpa [set_owner, set_prio] using hx2
      · simpa [set_owner, set_prio, hr] using hx2
    · intro o ho
      rw [e, m3 r'] at ho
      by_cases hr : r' = r
      · subst hr
        simp [set_owner] at ho
      · simpa [set_owner, set_prio, hr] using ho

/-- In `ex_state` no owner is in the wait queue of its resource. -/
theorem ex_state_owner_not_waiting : owner_not_waiting ex_state := by
  intro r o
  by_cases hr : r = 0
  · subst hr
    simp [ex_state]
    rintro rfl
    decide
  · simp [ex_state, hr]

/-- C22 (counterexample): an acquire by the owner itself, or by a process
that is in the wait queue, breaks the property.  In `ex_state` no owner is in
the wait queue of its resource (resource 0 is owned by process 1 and has the
wait queue `[4]`); process 1, the current process, calls `fcfs_acquire` (or
`prio_acquire`) on resource 0 again, is refused and is put in the wait queue
of resource 0, whose owner it still is.  In `ex_current_waiting` no resource
has an owner; the current process 4, which is in the wait queue of
resource 0, is granted resource 0 and is then both its owner and in its wait
queue. -/
theorem owner_waits_after_acquire_by_owner :
    (owner_not_waiting ex_state ∧
      (∃ s', fcfs_acquire ex_state 0 = .ok (false, s') ∧
        (s'.resources 0).owner = some 1 ∧ (s'.resources 0).waitqueue = [4, 1] ∧
        ¬ owner_not_waiting s') ∧
      (∃ s', prio_acquire 64 ex_state 0 = .ok (false, s') ∧
        (s'.resources 0).owner = some 1 ∧ (s'.resources 0).waitqueue = [1, 4] ∧
        ¬ owner_not_waiting s')) ∧
    (owner_not_waiting ex_current_waiting ∧
      ∃ s', fcfs_acquire ex_current_waiting 0 = .ok (true, s') ∧
        (s'.resources 0).owner = some 4 ∧ (s'.resources 0).waitqueue = [4] ∧
        ¬ owner_not_waiting s') := by
  refine ⟨⟨ex_state_owner_not_waiting, ⟨_, rfl, rfl, rfl, ?_⟩, ⟨_, rfl, rfl, rfl, ?_⟩⟩,
    ⟨?_, _, rfl, rfl, rfl, ?_⟩⟩
  · intro h
    exact h 0 1 rfl (by decide)
  · intro h
    exact h 0 1 rfl (by decide)
  · intro r o ho
    exact absurd ho (by simp [ex_current_waiting])
  · intro h
    exact h 0 4 rfl (by decide)

/-- C22 (amended): when no owner of a resource is in the wait queue of that
resource, this still holds after every `fcfs_release` and `prio_release` call
that returns, and after every `fcfs_acquire` and `prio_acquire` call that
returns when the current process is neither the owner of the requested
resource nor in its wait queue. -/
theorem owner_not_waiting_kept ( MAX_PRIO : Nat) (s : State) (r : Nat)
    (h : owner_not_waiting s) :
    (∀ s', (fcfs_release s r = .ok s' ∨ prio_release s r = .ok s') → owner_not_waiting s') ∧
    (∀ b s', (fcfs_acquire s r = .ok (b, s') ∨ prio_acquire MAX_PRIO s r = .ok (b, s')) →
      (∀ c, s.current = some c →
        (s.resources r).owner ≠ some c ∧ c ∉ (s.resources r).waitqueue) →
      owner_not_waiting s') := by
  constructor
  · intro s' hrel r' o ho hin
    obtain ⟨h1, h2⟩ := release_shrinks s r s' hrel r'
    exact h r' o (h2 o ho) (h1 o hin)
  · intro b s' hacq hcur
    have hgrant : owner_not_waiting (set_owner s r s.current) := by
      intro r' o ho hin
      by_cases hr : r' = r
      · subst hr
        have ho' : s.current = some o := by simpa [set_owner] using ho
        have hin' : o ∈ (s.resources r').waitqueue := by simpa [set_owner] using hin
        exact (hcur o ho').2 hin'
      · have ho' : (s.resources r').owner = some o := by simpa [set_owner, hr] using ho
        have hin' : o ∈ (s.resources r').waitqueue := by simpa [set_owner, hr] using hin
        exact h r' o ho' hin'
    rcases hacq with hacq | hacq
    · rcases fcfs_acquire_effect s r b s' hacq with ⟨-, -, e⟩ | ⟨-, o, c, ho, hc, e⟩
      · rw [e]
        exact hgrant
      · rw [e]
        intro r' o' ho' hin
        by_cases hr : r' = r
        · subst hr
          have ho2 : (s.resources r').owner = some o' := by
            simpa [list_add_tail, set_entries, set_status] using ho'
          have hin2 : o' ∈ (s.resources r').waitqueue ∨ o' = c := by
            simpa [list_add_tail, set_entries, set_status, entries] using hin
          rcases hin2 with e1 | e1
          · exact h r' o' ho2 e1
          · subst e1
            exact (hcur o' hc).1 ho2
        · have ho2 : (s.resources r').owner = some o' := by
            simpa [list_add_tail, set_entries, set_status, hr] using ho'
          have hin2 : o' ∈ (s.resources r').waitqueue := by
            simpa [list_add_tail, set_entries, set_status, hr] using hin
          exact h r' o' ho2 hin2
    · rcases prio_acquire_effect MAX_PRIO s r b s' hacq with
        ⟨-, -, e | ⟨c, -, e⟩⟩ | ⟨-, o, c, s0, ho, hc, hs0, e⟩
      · rw [e]
        exact hgrant
      · rw [e]
        intro r' o' ho' hin
        exact hgrant r' o' (by simpa [set_prio] using ho') (by simpa [set_prio] using hin)
      · have hres : s0.resources = s.resources := by
          rcases hs0 with e0 | e0 <;> rw [e0]
          rfl
        rw [e]
        intro r' o' ho' hin
        by_cases hr : r' = r
        · subst hr
          have ho2 : (s.resources r').owner = some o' := by
            simpa [list_move, list_add, set_entries, list_del_init, set_status, hres] using ho'
          have hin2 : o' = c ∨ o' ∈ (s.resources r').waitqueue.erase c := by
            simpa [list_move, list_add, set_entries, list_del_init, set_status, hres,
              entries] using hin
          rcases hin2 with e1 | e1
          · subst e1
            exact (hcur o' hc).1 ho2
          · exact h r' o' ho2 (List.mem_of_mem_erase e1)
        · have ho2 : (s.resources r').owner = some o' := by
            simpa [list_move, list_add, set_entries, list_del_init, set_status, hres, hr]
              using ho'
          have hin2 : o' ∈ (s.resources r').waitqueue.erase c := by
            simpa [list_move, list_add, set_entries, list_del_init, set_status, hres, hr]
              using hin
          exact h r' o' ho2 (List.mem_of_mem_erase hin2)

/-- Witness of C22: in `ex_state` process 1 releases resource 0 with
`fcfs_release`, and process 1 acquires the free resource 1 with
`prio_acquire`; no owner is in the wait queue of its resource afterwards. -/
theorem owner_not_waiting_kept_witness :
    owner_not_waiting ex_state ∧
    (∃ s', fcfs_release ex_state 0 = .ok s' ∧ owner_not_waiting s') ∧
    (∃ s', prio_acquire 64 ex_state 1 = .ok (true, s') ∧ owner_not_waiting s') :=
  ⟨ex_state_owner_not_waiting,
    ⟨_, rfl, (owner_not_waiting_kept 64 ex_state 0 ex_state_owner_not_waiting).1 _
      (Or.inl rfl)⟩,
    ⟨_, rfl, (owner_not_waiting_kept 64 ex_state 1 ex_state_owner_not_waiting).2 true _
      (Or.inr rfl) (by
        intro c hc
        have hc1 : c = 1 := by
          have : some 1 = some c := hc
          exact (Option.some.inj this).symm
        subst hc1
        exact ⟨by decide, by decide⟩)⟩⟩

/-! ### The order in which waiters are woken -/

/-- C33 (counterexample): `srtf_schedule` re-enqueues the occupant at the
head.  In `ex_srtf_tie` the occupant 1 ties with the ready process 2 (same
lifespan, same remaining lifetime) and is returned, so it does not lose the
tie.  In `ex_srtf_head` process 3 is returned and the ready queue afterwards
is `[1, 2]`: the occupant is its first element, not its last. -/
theorem srtf_schedule_requeues_at_head :
    (occupant_unfinished ex_srtf_tie 1 ∧ ex_srtf_tie.readyqueue = [2] ∧
      remaining ex_srtf_tie 1 = remaining ex_srtf_tie 2 ∧
      (ex_srtf_tie.procs 1).lifespan = (ex_srtf_tie.procs 2).lifespan ∧
      (srtf_schedule ex_srtf_tie).1 = some 1 ∧
      (srtf_schedule ex_srtf_tie).2.readyqueue = [2]) ∧
    (occupant_unfinished ex_srtf_head 1 ∧ ex_srtf_head.readyqueue = [2, 3] ∧
      (srtf_schedule ex_srtf_head).1 = some 3 ∧
      (srtf_schedule ex_srtf_head).2.readyqueue = [1, 2] ∧
      (srtf_schedule ex_srtf_head).2.readyqueue.getLast? ≠ some 1) := by
  decide

/-- C33 (amended): for every state with an unfinished, non-waiting occupant
`c` (not itself in the ready queue) and a ready queue `q`, `srtf_schedule`
selects from the queue `c :: q`: it returns the entry `p` nearest the head
among those of least key in the comparison of the scan (`lifespan`), and the
ready queue afterwards is `c :: q` without `p`.  So when `c` is not the
process returned, `c` is the first element of the ready queue afterwards, and
`c` wins ties: it is returned whenever no ready process has a strictly
smaller key. -/
theorem srtf_schedule_requeue (s : State) (c : Nat) (hocc : occupant_unfinished s c)
    (hdet : c ∉ s.readyqueue) :
    ∃ p l1 l2, c :: s.readyqueue = l1 ++ p :: l2 ∧
      (srtf_schedule s).1 = some p ∧
      (∀ x ∈ l1, (s.procs p).lifespan < (s.procs x).lifespan) ∧
      (∀ x ∈ l2, (s.procs p).lifespan ≤ (s.procs x).lifespan) ∧
      (srtf_schedule s).2.readyqueue = l1 ++ l2 ∧
      (p ≠ c → ∃ t, (srtf_schedule s).2.readyqueue = c :: t) ∧
      ((∀ x ∈ s.readyqueue, (s.procs c).lifespan ≤ (s.procs x).lifespan) → p = c) := by
  have hS : sched_state s = list_move s c .readyqueue := by
    simp [sched_state, hocc.1, hocc]
  have hrq : (sched_state s).readyqueue = c :: s.readyqueue := by
    rw [hS]
    simp [list_move, list_add, set_entries, entries, list_del_init,
      List.erase_of_not_mem hdet]
  have hprocs : (sched_state s).procs = s.procs := (sched_state_spec s).1
  obtain ⟨p, l1, l2, hq, he, h1, h2, hdel⟩ :=
    (pick_by_spec (sched_state s) (fun temp pos => temp.lifespan > pos.lifespan)
      (fun q => (s.procs q).lifespan) (by intro a b; simp [hprocs])).2
      (by rw [hrq]; simp)
  rw [hrq] at hq
  have hres : (srtf_schedule s).2.readyqueue = l1 ++ l2 := by
    rw [srtf_schedule_eq, he]
    exact hdel
  refine ⟨p, l1, l2, hq, by rw [srtf_schedule_eq, he], h1, h2, hres, ?_, ?_⟩
  · intro hpc
    cases l1 with
    | nil =>
      simp only [List.nil_append, List.cons.injEq] at hq
      exact absurd hq.1.symm hpc
    | cons a t =>
      simp only [List.cons_append, List.cons.injEq] at hq
      exact ⟨t ++ l2, by rw [hres, hq.1]; simp⟩
  · intro hle
    cases l1 with
    | nil =>
      simp only [List.nil_append, List.cons.injEq] at hq
      exact hq.1.symm
    | cons a t =>
      simp only [List.cons_append, List.cons.injEq] at hq
      have hlt := h1 a (by simp)
      rw [← hq.1] at hlt
      have hp : p ∈ s.readyqueue := by
        rw [hq.2]
        simp
      exact absurd hlt (not_lt.mpr (hle p hp))

/-- Witness of C33: in `ex_srtf_head` the occupant, process 1, is unfinished
and not in the ready queue. -/
theorem srtf_schedule_requeue_witness :
    ∃ p l1 l2, 1 :: ex_srtf_head.readyqueue = l1 ++ p :: l2 ∧
      (srtf_schedule ex_srtf_head).1 = some p ∧
      (∀ x ∈ l1, (ex_srtf_head.procs p).lifespan < (ex_srtf_head.procs x).lifespan) ∧
      (∀ x ∈ l2, (ex_srtf_head.procs p).lifespan ≤ (ex_srtf_head.procs x).lifespan) ∧
      (srtf_schedule ex_srtf_head).2.readyqueue = l1 ++ l2 ∧
      (p ≠ 1 → ∃ t, (srtf_schedule ex_srtf_head).2.readyqueue = 1 :: t) ∧
      ((∀ x ∈ ex_srtf_head.readyqueue,
        (ex_srtf_head.procs 1).lifespan ≤ (ex_srtf_head.procs x).lifespan) → p = 1) :=
  srtf_schedule_requeue ex_srtf_head 1 (by decide) (by decide)

/-! ### The order in which the wake-all release readies the waiters -/

/-- A process that is in neither the ready queue nor the wait queue of an
owned resource and calls `prio_acquire` on it is refused and put at the head
of that wait queue; the ready queue and the owner stay. -/
theorem prio_acquire_blocks ( MAX_PRIO : Nat) (s : State) (r o a : Nat)
    (ho : (s.resources r).owner = some o) (hrq : a ∉ s.readyqueue)
    (hwq : a ∉ (s.resources r).waitqueue) :
    ∃ s1, prio_acquire MAX_PRIO (install (some a, s)) r = .ok (false, s1) ∧
      s1.readyqueue = s.readyqueue ∧
      (s1.resources r).waitqueue = a :: (s.resources r).waitqueue ∧
      (s1.resources r).owner = some o := by
  have ho' : ((install (some a, s)).resources r).owner = some o := ho
  cases hres : prio_acquire MAX_PRIO (install (some a, s)) r with
  | error e =>
    simp [prio_acquire, install, ho] at hres
  | ok v =>
    obtain ⟨b, s1⟩ := v
    rcases prio_acquire_effect MAX_PRIO (install (some a, s)) r b s1 hres with
      ⟨-, hnone, -⟩ | ⟨hb, o', c, s0, ho'', hc, hs0, e⟩
    · rw [ho'] at hnone
      exact absurd hnone (by simp)
    · have hca : c = a := by
        have : some a = some c := hc
        exact (Option.some.inj this).symm
      subst hca
      subst hb
      have hq0 : s0.readyqueue = s.readyqueue ∧ s0.resources = s.resources := by
        rcases hs0 with e0 | e0 <;> rw [e0] <;> exact ⟨rfl, rfl⟩
      refine ⟨s1, rfl, ?_, ?_, ?_⟩
      · rw [e]
        simp [list_move, list_add, set_entries, list_del_init, set_status, hq0.1,
          List.erase_of_not_mem hrq]
      · rw [e]
        simp [list_move, list_add, set_entries, list_del_init, set_status, hq0.2, entries,
          List.erase_of_not_mem hwq]
      · rw [e]
        simp [list_move, list_add, set_entries, list_del_init, set_status, hq0.2, ho]

/-- Processes that are in no queue and block on an owned resource one after
the other leave its wait queue with the last one first; the ready queue and
the owner stay. -/
theorem blocked_in_order_spec ( MAX_PRIO : Nat) (r o : Nat) (l : List Nat) (s : State)
    (ho : (s.resources r).owner = some o)
    (hnd : (l.reverse ++ (s.resources r).waitqueue).Nodup)
    (hrq : ∀ a ∈ l, a ∉ s.readyqueue) :
    ∃ t, blocked_in_order MAX_PRIO r s l t ∧
      (t.resources r).waitqueue = l.reverse ++ (s.resources r).waitqueue ∧
      t.readyqueue = s.readyqueue ∧ (t.resources r).owner = some o := by
  induction l generalizing s with
  | nil => exact ⟨s, blocked_in_order.done s, by simp, rfl, ho⟩
  | cons a l ih =>
    have hnd' : (l.reverse ++ a :: (s.resources r).waitqueue).Nodup := by
      simpa using hnd
    have hawq : a ∉ (s.resources r).waitqueue := by
      have h2 := (List.nodup_append.mp hnd').2.1
      exact (List.nodup_cons.mp h2).1
    obtain ⟨s1, h1, h2, h3, h4⟩ := prio_acquire_blocks MAX_PRIO s r o a ho
      (hrq a (by simp)) hawq
    obtain ⟨t, i1, i2, i3, i4⟩ := ih s1 h4 (by rw [h3]; exact hnd')
      (by
        intro x hx
        rw [h2]
        exact hrq x (by simp [hx]))
    refine ⟨t, blocked_in_order.step s a s1 l t h1 i1, ?_, by rw [i3, h2], i4⟩
    rw [i2, h3]
    simp

/-- C34: let the wait queue of `r` be `w` (head first) and the ready queue
`q`, the owner `o` of `r` being in neither, no waiter being in the ready
queue and no process twice in the wait queue.  When `o` calls
`prio_release(r)`, the ready queue afterwards is the reversed wait queue
followed by `q`.  And when the processes of `l` first block on `r`, one after
the other in the order of `l`, each by a refused `prio_acquire`, the wait
queue becomes `l` reversed followed by `w` (each is inserted at the head), so
that after the `prio_release(r)` of the owner the ready queue is `w` reversed,
then the processes of `l` in the order in which they blocked, then `q`. -/
theorem prio_release_wake_order ( MAX_PRIO : Nat) (s : State) (r o : Nat) (l : List Nat)
    (ho : (s.resources r).owner = some o)
    (hnd : (l.reverse ++ (s.resources r).waitqueue).Nodup)
    (hl : ∀ a ∈ l, a ∉ s.readyqueue)
    (hw : ∀ a ∈ (s.resources r).waitqueue, a ∉ s.readyqueue)
    (hol : o ∉ l) (how : o ∉ (s.resources r).waitqueue) (hoq : o ∉ s.readyqueue) :
    (∃ s', prio_release (install (some o, s)) r = .ok s' ∧
      s'.readyqueue = (s.resources r).waitqueue.reverse ++ s.readyqueue) ∧
    (∃ t, blocked_in_order MAX_PRIO r s l t ∧
      (t.resources r).waitqueue = l.reverse ++ (s.resources r).waitqueue ∧
      t.readyqueue = s.readyqueue ∧
      ∃ t', prio_release (install (some o, t)) r = .ok t' ∧
        t'.readyqueue = (s.resources r).waitqueue.reverse ++ l ++ s.readyqueue) := by
  constructor
  · obtain ⟨s', h1, h2, -⟩ := prio_release_ok (install (some o, s)) r o rfl ho
      (List.nodup_append.mp hnd).2.1 hw hoq how
    exact ⟨s', h1, h2⟩
  · obtain ⟨t, i1, i2, i3, i4⟩ := blocked_in_order_spec MAX_PRIO r o l s ho hnd hl
    have hwt : ((install (some o, t)).resources r).waitqueue
        = l.reverse ++ (s.resources r).waitqueue := i2
    have hqt : (install (some o, t)).readyqueue = s.readyqueue := i3
    obtain ⟨t', h1, h2, -⟩ := prio_release_ok (install (some o, t)) r o rfl i4
      (by rw [hwt]; exact hnd)
      (by
        intro x hx
        rw [hwt] at hx
        rw [hqt]
        rcases List.mem_append.mp hx with e | e
        · exact hl x (List.mem_reverse.mp e)
        · exact hw x e)
      (by rw [hqt]; exact hoq)
      (by
        rw [hwt]
        intro hx
        rcases List.mem_append.mp hx with e | e
        · exact hol (List.mem_reverse.mp e)
        · exact how e)
    refine ⟨t, i1, i2, i3, t', h1, ?_⟩
    rw [h2, hwt, hqt]
    simp

/-- Witness of C34: in `ex_state` process 1 owns resource 0, for which
process 4 waits, and processes 2 and 3 are ready; processes 6 and 7 then
block on resource 0 in this order, and the release readies 4, 6, 7 in front
of 2, 3. -/
theorem prio_release_wake_order_witness :
    (∃ s', prio_release (install (some 1, ex_state)) 0 = .ok s' ∧
      s'.readyqueue = [4, 2, 3]) ∧
    (∃ t, blocked_in_order 64 0 ex_state [6, 7] t ∧
      (t.resources 0).waitqueue = [7, 6, 4] ∧ t.readyqueue = [2, 3] ∧
      ∃ t', prio_release (install (some 1, t)) 0 = .ok t' ∧
        t'.readyqueue = [4, 6, 7, 2, 3]) :=
  prio_release_wake_order 64 ex_state 0 1 [6, 7] rfl (by decide) (by decide) (by decide)
    (by decide) (by decide) (by decide)

/-! ### Blocking under the protocols and under FCFS -/

/-- C32, the code at `ex_state_owned`: resource 0 is owned by process 1 and
process 4 waits for it; the current process 5 is refused by both functions
and gets status `PROCESS_WAIT`, but `fcfs_acquire` leaves the wait queue
`[4, 5]` and `prio_acquire` leaves `[5, 4]`: `list_move` puts the current
process in front of the earlier waiter, not behind it. -/
theorem prio_acquire_blocks_at_head :
    (ex_state_owned.resources 0).owner = some 1 ∧
    (ex_state_owned.resources 0).waitqueue = [4] ∧ ex_state_owned.current = some 5 ∧
    ∃ s1 s2, fcfs_acquire ex_state_owned 0 = .ok (false, s1) ∧
      prio_acquire 64 ex_state_owned 0 = .ok (false, s2) ∧
      (s1.procs 5).status = .PROCESS_WAIT ∧ (s2.procs 5).status = .PROCESS_WAIT ∧
      (s1.resources 0).waitqueue = [4, 5] ∧ (s2.resources 0).waitqueue = [5, 4] ∧
      (s1.resources 0).waitqueue ≠ (s2.resources 0).waitqueue :=
  ⟨rfl, rfl, rfl, _, _, rfl, rfl, rfl, rfl, rfl, rfl, by decide⟩

/-- The two acquire functions on an owned resource: for every state in which
resource `r` is owned and the current process `c` is not in the wait queue of
`r`, `fcfs_acquire` and
`prio_acquire` both return false and both give `c` the status
`PROCESS_WAIT`; `fcfs_acquire` puts `c` at the tail of the wait queue of `r`,
behind the earlier waiters, and `prio_acquire` puts `c` at its head, in front
of them.  The two wait queues have the same members, and are equal when
there was no earlier waiter. -/
theorem prio_acquire_vs_fcfs_acquire ( MAX_PRIO : Nat) (s : State) (r o c : Nat)
    (ho : (s.resources r).owner = some o) (hc : s.current = some c)
    (hcw : c ∉ (s.resources r).waitqueue) :
    ∃ s1 s2, fcfs_acquire s r = .ok (false, s1) ∧
      prio_acquire MAX_PRIO s r = .ok (false, s2) ∧
      (s1.procs c).status = .PROCESS_WAIT ∧ (s2.procs c).status = .PROCESS_WAIT ∧
      (s1.resources r).waitqueue = (s.resources r).waitqueue ++ [c] ∧
      (s2.resources r).waitqueue = c :: (s.resources r).waitqueue ∧
      (s2.resources r).waitqueue.Perm (s1.resources r).waitqueue ∧
      ((s.resources r).waitqueue = [] →
        (s2.resources r).waitqueue = (s1.resources r).waitqueue) := by
  have h1 : fcfs_acquire s r
      = .ok (false, list_add_tail (set_status s c .PROCESS_WAIT) c (.waitqueue r)) := by
    simp [fcfs_acquire, ho, hc]
  have h2 : ∃ s0, (s0 = s ∨ s0 = set_prio s o (s.procs c).prio) ∧
      prio_acquire MAX_PRIO s r
        = .ok (false, list_move (set_status s0 c .PROCESS_WAIT) c (.waitqueue r)) := by
    by_cases hpip : s.boostingType.pip = true
    · by_cases hgt : (s.procs c).prio > (s.procs o).prio
      · exact ⟨_, Or.inr rfl, by simp [prio_acquire, ho, hc, hpip, hgt]⟩
      · exact ⟨_, Or.inl rfl, by simp [prio_acquire, ho, hc, hpip, hgt]⟩
    · exact ⟨_, Or.inl rfl, by simp [prio_acquire, ho, hc, hpip]⟩
  obtain ⟨s0, hs0, h2⟩ := h2
  have hres : s0.resources = s.resources := by
    rcases hs0 with e | e <;> rw [e]
    rfl
  have w1 : ((list_add_tail (set_status s c .PROCESS_WAIT) c (.waitqueue r)).resources
      r).waitqueue = (s.resources r).waitqueue ++ [c] := by
    simp [list_add_tail, set_entries, set_status, entries]
  have w2 : ((list_move (set_status s0 c .PROCESS_WAIT) c (.waitqueue r)).resources
      r).waitqueue = c :: (s.resources r).waitqueue := by
    simp [list_move, list_add, set_entries, list_del_init, set_status, entries, hres,
      List.erase_of_not_mem hcw]
  refine ⟨_, _, h1, h2, ?_, ?_, w1, w2, ?_, ?_⟩
  · simp [list_add_tail, set_entries, set_status]
  · simp [list_move, list_add, set_entries, list_del_init, set_status]
  · rw [w1, w2]
    show ([c] ++ (s.resources r).waitqueue).Perm ((s.resources r).waitqueue ++ [c])
    exact List.perm_append_comm
  · intro hnil
    rw [w1, w2, hnil]
    rfl

/-- An instance: in `ex_state_owned` resource 0 is owned by process 1 and
the current process 5 is not in its wait queue `[4]`. -/
theorem prio_acquire_vs_fcfs_acquire_witness :
    ∃ s1 s2, fcfs_acquire ex_state_owned 0 = .ok (false, s1) ∧
      prio_acquire 64 ex_state_owned 0 = .ok (false, s2) ∧
      (s1.procs 5).status = .PROCESS_WAIT ∧ (s2.procs 5).status = .PROCESS_WAIT ∧
      (s1.resources 0).waitqueue = [4] ++ [5] ∧
      (s2.resources 0).waitqueue = 5 :: [4] ∧
      (s2.resources 0).waitqueue.Perm (s1.resources 0).waitqueue ∧
      ((ex_state_owned.resources 0).waitqueue = [] →
        (s2.resources 0).waitqueue = (s1.resources 0).waitqueue) :=
  prio_acquire_vs_fcfs_acquire 64 ex_state_owned 0 1 5 rfl rfl (by decide)

end PA2

namespace PA3

/-! ## Theorems on the page-table simulator -/

/-- The scan for a free frame returns `limit` when none of the `n` frames
from `i` on has mapcount 0, and otherwise the first of them that has. -/
theorem free_scan_spec (mapcounts : Nat → Nat) (limit : Nat) (n i : Nat) :
    (free_scan mapcounts limit n i = limit ∧
      ∀ j, i ≤ j → j < i + n → mapcounts j ≠ 0) ∨
    (i ≤ free_scan mapcounts limit n i ∧ free_scan mapcounts limit n i < i + n ∧
      mapcounts (free_scan mapcounts limit n i) = 0 ∧
      ∀ j, i ≤ j → j < free_scan mapcounts limit n i → mapcounts j ≠ 0) := by
  induction n generalizing i with
  | zero =>
    left
    exact ⟨rfl, fun j h1 h2 => by omega⟩
  | succ n ih =>
    by_cases h0 : mapcounts i = 0
    · right
      have e : free_scan mapcounts limit (n + 1) i = i := by simp [free_scan, h0]
      rw [e]
      exact ⟨le_refl i, by omega, h0, fun j h1 h2 => by omega⟩
    · have e : free_scan mapcounts limit (n + 1) i = free_scan mapcounts limit n (i + 1) := by
        simp [free_scan, h0]
      rw [e]
      rcases ih (i + 1) with ⟨h1, h2⟩ | ⟨h1, h2, h3, h4⟩
      · left
        refine ⟨h1, ?_⟩
        intro j hj1 hj2
        by_cases hji : j = i
        · rw [hji]
          exact h0
        · exact h2 j (by omega) (by omega)
      · right
        refine ⟨by omega, by omega, h3, ?_⟩
        intro j hj1 hj2
        by_cases hji : j = i
        · rw [hji]
          exact h0
        · exact h4 j (by omega) hj2

/-- The entry that `upd_pte` leaves at the place it writes. -/
theorem upd_pte_get (s : State) (a outer inner : Nat) (f : pte → pte) (d : pte_directory)
    (hd : (s.procs a).pagetable.outer_ptes outer = some d) :
    ∃ s', upd_pte s a outer inner f = some s' ∧ s'.mapcounts = s.mapcounts ∧
      s'.ptbr = s.ptbr ∧
      (s'.procs a).pagetable.outer_ptes outer
        = some { ptes := fun k => if k = inner then f (d.ptes inner) else d.ptes k } := by
  refine ⟨set_dir s a outer
    { ptes := fun k => if k = inner then f (d.ptes inner) else d.ptes k },
    by simp [upd_pte, hd], rfl, rfl, ?_⟩
  simp [set_dir]

/-- The entry that `get_pte` reads in a directory that is present. -/
theorem get_pte_of (s : State) (a outer inner : Nat) (d : pte_directory)
    (hd : (s.procs a).pagetable.outer_ptes outer = some d) :
    get_pte s a outer inner = some (d.ptes inner) := by
  simp [get_pte, hd]

/-- C28: `alloc_page` returns the smallest page frame number whose mapcount is
0, leaves the PTE of `vpn` valid with that frame number, and adds exactly 1
to the mapcount of that frame and nothing to any other (when `ptbr` points to
a page table); when no frame below `NR_PAGEFRAMES` has mapcount 0 it returns
`-1` as `unsigned int` and leaves the whole state, page tables and mapcounts,
as it was. -/
theorem alloc_page_spec ( NR_PAGEFRAMES NR_PTES_PER_PAGE RW_WRITE : Nat)
    (fresh : pte_directory) (s : State) (vpn rw : Nat) :
    ((∃ i, i < NR_PAGEFRAMES ∧ s.mapcounts i = 0) → ∀ a, s.ptbr = some a →
      ∃ pfn s', alloc_page NR_PAGEFRAMES NR_PTES_PER_PAGE RW_WRITE fresh s vpn rw
          = some (pfn, s') ∧
        pfn < NR_PAGEFRAMES ∧ s.mapcounts pfn = 0 ∧ (∀ i, i < pfn → s.mapcounts i ≠ 0) ∧
        (∃ e, get_pte s' a (vpn / NR_PTES_PER_PAGE) (vpn % NR_PTES_PER_PAGE) = some e ∧
          e.valid = true ∧ e.pfn = pfn) ∧
        s'.mapcounts pfn = s.mapcounts pfn + 1 ∧
        (∀ i, i ≠ pfn → s'.mapcounts i = s.mapcounts i)) ∧
    ((∀ i, i < NR_PAGEFRAMES → s.mapcounts i ≠ 0) →
      alloc_page NR_PAGEFRAMES NR_PTES_PER_PAGE RW_WRITE fresh s vpn rw
        = some (2 ^ 32 - 1, s)) := by
  constructor
  · rintro ⟨i0, hi0, hz⟩ a ha
    rcases free_scan_spec s.mapcounts NR_PAGEFRAMES NR_PAGEFRAMES 0 with
      ⟨-, hall⟩ | ⟨-, hlt, hzero, hmin⟩
    · exact absurd hz (hall i0 (Nat.zero_le _) (by omega))
    · have hlt' : free_scan s.mapcounts NR_PAGEFRAMES NR_PAGEFRAMES 0 < NR_PAGEFRAMES := by
        omega
      have hge : ¬ free_scan s.mapcounts NR_PAGEFRAMES NR_PAGEFRAMES 0 ≥ NR_PAGEFRAMES := by
        omega
      refine ⟨free_scan s.mapcounts NR_PAGEFRAMES NR_PAGEFRAMES 0, ?_⟩
      simp only [alloc_page]
      generalize free_scan s.mapcounts NR_PAGEFRAMES NR_PAGEFRAMES 0 = pfn at *
      have hs1 : ∃ s1 d, s1.mapcounts = s.mapcounts ∧ s1.ptbr = s.ptbr ∧
          (s1.procs a).pagetable.outer_ptes (vpn / NR_PTES_PER_PAGE) = some d ∧
          s1 = (match (s.procs a).pagetable.outer_ptes (vpn / NR_PTES_PER_PAGE) with
            | none => set_dir s a (vpn / NR_PTES_PER_PAGE) fresh
            | some _ => s) := by
        cases hd : (s.procs a).pagetable.outer_ptes (vpn / NR_PTES_PER_PAGE) with
        | none =>
          exact ⟨set_dir s a (vpn / NR_PTES_PER_PAGE) fresh, fresh, rfl, rfl,
            by simp [set_dir], rfl⟩
        | some d => exact ⟨s, d, rfl, rfl, hd, rfl⟩
      obtain ⟨s1, d1, m1, p1, hd1, e1⟩ := hs1
      obtain ⟨s2, u2, m2, p2, hd2⟩ := upd_pte_get s1 a (vpn / NR_PTES_PER_PAGE)
        (vpn % NR_PTES_PER_PAGE) (fun e => { e with valid := true }) d1 hd1
      obtain ⟨s3, u3, m3, p3, hd3⟩ := upd_pte_get s2 a (vpn / NR_PTES_PER_PAGE)
        (vpn % NR_PTES_PER_PAGE) (fun e => { e with pfn := pfn }) _ hd2
      have hd4 : ((inc_mapcount s3 pfn).procs a).pagetable.outer_ptes
          (vpn / NR_PTES_PER_PAGE) = _ := hd3
      obtain ⟨s5, u5, m5, p5, hd5⟩ := upd_pte_get (inc_mapcount s3 pfn) a
        (vpn / NR_PTES_PER_PAGE) (vpn % NR_PTES_PER_PAGE)
        (fun e => { e with writable := true }) _ hd4
      have hm4 : ∀ i, (inc_mapcount s3 pfn).mapcounts i
          = if i = pfn then s.mapcounts pfn + 1 else s.mapcounts i := by
        intro i
        simp only [inc_mapcount, m3, m2, m1, hzero]
        by_cases hi : i = pfn <;> simp [hi]
      by_cases hrw : rw ≥ RW_WRITE
      · refine ⟨s5, ?_, hlt', hzero, fun i hi => hmin i (Nat.zero_le _) hi, ?_, ?_, ?_⟩
        · simp only [hge, if_false, ha, ← e1, u2, Option.bind, u3, hrw, if_true, u5]
        · exact ⟨_, get_pte_of _ _ _ _ _ hd5, by simp, by simp⟩
        · rw [m5, hm4]
          simp
        · intro i hi
          rw [m5, hm4]
          simp [hi]
      · refine ⟨inc_mapcount s3 pfn, ?_, hlt', hzero, fun i hi => hmin i (Nat.zero_le _) hi,
          ?_, ?_, ?_⟩
        · simp only [hge, if_false, ha, ← e1, u2, Option.bind, u3, hrw, if_false]
        · exact ⟨_, get_pte_of _ _ _ _ _ hd4, by simp, by simp⟩
        · rw [hm4]
          simp
        · intro i hi
          rw [hm4]
          simp [hi]
  · intro hall
    rcases free_scan_spec s.mapcounts NR_PAGEFRAMES NR_PAGEFRAMES 0 with
      ⟨he, -⟩ | ⟨-, hlt, hzero, -⟩
    · simp [alloc_page, he]
    · exact absurd hzero (hall _ (by omega))

/-- Witness of C28: in `ex_vm` frame 1 is the first free frame; `alloc_page`
for page 3 returns it, and with every frame in use it returns `-1`. -/
theorem alloc_page_spec_witness :
    (∃ s', alloc_page 4 2 2 zero_dir ex_vm 3 2 = some (1, s') ∧
      get_pte s' 0 1 1 = some { valid := true, writable := true, pfn := 1, private_ := 0 } ∧
      s'.mapcounts 1 = 1 ∧ s'.mapcounts 0 = 1 ∧ s'.mapcounts 2 = 0 ∧ s'.mapcounts 3 = 0) ∧
    alloc_page 4 2 2 zero_dir ex_vm_full 3 2 = some (2 ^ 32 - 1, ex_vm_full) :=
  ⟨⟨_, rfl, by decide, by decide, by decide, by decide, by decide⟩,
    (alloc_page_spec 4 2 2 zero_dir ex_vm_full 3 2).2 (fun _ _ => by simp [ex_vm_full])⟩

/-- The path of `switch_process` for a pid that is in `processes`: the first
entry with that pid becomes `current`, `ptbr` points to its page table, the
previous `current` is appended to `processes`, and no entry is removed, so
the new `current` is still in `processes`. -/
theorem switch_process_existing ( NR_PTES_PER_PAGE : Nat) (cp : Nat) (junk : process)
    (junkdir : Nat → pte_directory) (s : State) (pid pos c : Nat)
    (hfind : s.processes.find? (fun p => (s.procs p).pid = pid) = some pos)
    (hc : s.current = some c) :
    (s.procs pos).pid = pid ∧ pos ∈ s.processes ∧
    ∃ s', switch_process NR_PTES_PER_PAGE cp junk junkdir s pid = some s' ∧
      s'.current = some pos ∧ s'.ptbr = some pos ∧ s'.processes = s.processes ++ [c] ∧
      c ∈ s'.processes ∧ pos ∈ s'.processes ∧ s'.procs = s.procs ∧
      s'.mapcounts = s.mapcounts := by
  have h1 : (s.procs pos).pid = pid := by
    have := List.find?_some hfind
    simpa using this
  have h2 : pos ∈ s.processes := List.mem_of_find?_eq_some hfind
  refine ⟨h1, h2, ?_⟩
  have e : switch_process NR_PTES_PER_PAGE cp junk junkdir s pid
      = some (State.mk s.procs (some pos) (some pos) (s.processes ++ [c]) s.mapcounts) := by
    simp [switch_process, hfind, hc]
  refine ⟨_, e, rfl, rfl, rfl, ?_, ?_, rfl, rfl⟩
  · simp
  · simp [h2]

/-- C29, the code at `ex_vm`: the process with pid 1 is in `processes`;
after `switch_process(1)` it is `current`, `ptbr` points to its page table
and the previous `current`, process 0, is in `processes`, but the new
`current` has not been unlinked: `processes` is `[1, 0]`. -/
theorem switch_process_keeps_next_linked :
    ex_vm.processes = [1] ∧ (ex_vm.procs 1).pid = 1 ∧ ex_vm.current = some 0 ∧
    ∃ s', switch_process 2 2 (empty_process 7) (fun _ => zero_dir) ex_vm 1 = some s' ∧
      s'.current = some 1 ∧ s'.ptbr = some 1 ∧ 0 ∈ s'.processes ∧
      s'.processes = [1, 0] ∧ 1 ∈ s'.processes :=
  ⟨rfl, rfl, rfl, _, rfl, rfl, rfl, by decide, rfl, by decide⟩

/-- C30, the code at `ex_vm`: pid 2 is not in `processes`, so
`switch_process(2)` forks; the child at the fresh address 2 becomes
`current`.  For the valid PTE of the parent (page 0, frame 0) the child's
PTE is valid with frame 0, the parent's PTE is no longer writable and the
mapcount of frame 0 grows from 1 to 2.  The child's `writable` field is never
assigned and the child's PTE for the invalid PTE of the parent (page 1) is
never assigned: when the allocated blocks hold `junk_dir`, the child's PTE of
page 0 is writable and its PTE of page 1 is valid; when they hold `zero_dir`,
the child's PTE of page 0 is not writable and its PTE of page 1 is invalid. -/
theorem switch_process_fork_uninitialised :
    ex_vm.processes.find? (fun p => (ex_vm.procs p).pid = 2) = none ∧
    get_pte ex_vm 0 0 0 = some { valid := true, writable := true, pfn := 0, private_ := 0 } ∧
    get_pte ex_vm 0 0 1 = some { valid := false, writable := false, pfn := 0, private_ := 0 } ∧
    (∃ s', switch_process 2 2 (empty_process 7) (fun _ => junk_dir) ex_vm 2 = some s' ∧
      s'.current = some 2 ∧ s'.ptbr = some 2 ∧ (s'.procs 2).pid = 2 ∧
      s'.processes = [1, 0] ∧
      get_pte s' 0 0 0 = some { valid := true, writable := false, pfn := 0, private_ := 1 } ∧
      get_pte s' 2 0 0 = some { valid := true, writable := true, pfn := 0, private_ := 1 } ∧
      get_pte s' 2 0 1 = some { valid := true, writable := true, pfn := 3, private_ := 0 } ∧
      s'.mapcounts 0 = 2 ∧ s'.mapcounts 3 = 0) ∧
    (∃ s', switch_process 2 2 (empty_process 7) (fun _ => zero_dir) ex_vm 2 = some s' ∧
      s'.current = some 2 ∧
      get_pte s' 0 0 0 = some { valid := true, writable := false, pfn := 0, private_ := 1 } ∧
      get_pte s' 2 0 0 = some { valid := true, writable := false, pfn := 0, private_ := 1 } ∧
      get_pte s' 2 0 1 = some { valid := false, writable := false, pfn := 0, private_ := 0 } ∧
      s'.mapcounts 0 = 2) :=
  ⟨by decide, by decide, by decide,
    ⟨_, rfl, by decide, by decide, by decide, by decide, by decide, by decide, by decide,
      by decide, by decide⟩,
    ⟨_, rfl, by decide, by decide, by decide, by decide, by decide⟩⟩

/-- On a page whose directory is present and whose PTE is invalid,
`handle_page_fault` returns false and changes nothing. -/
theorem handle_page_fault_invalid ( NR_PAGEFRAMES NR_PTES_PER_PAGE RW_WRITE : Nat)
    (fresh : pte_directory) (s : State) (vpn rw a : Nat) (d : pte_directory)
    (ha : s.ptbr = some a)
    (hd : (s.procs a).pagetable.outer_ptes (vpn / NR_PTES_PER_PAGE) = some d)
    (hv : (d.ptes (vpn % NR_PTES_PER_PAGE)).valid = false) :
    handle_page_fault NR_PAGEFRAMES NR_PTES_PER_PAGE RW_WRITE fresh s vpn rw
      = some (false, s) := by
  simp [handle_page_fault, ha, get_pte, hd, hv]

/-- C31, the code at `ex_cow` and at `ex_vm`.  In `ex_cow` every frame is in
use and page 0 of the current process is shared with the parent (frame 0,
mapcount 2, the mapcounts sum to 4): `handle_page_fault(0, RW_WRITE)` returns
true although `alloc_page` finds no frame; afterwards the PTE is writable and
still maps frame 0, which the parent still maps, the mapcount of frame 0 is 1
and the mapcounts sum to 3.  In `ex_vm` page 2 lies in directory 1, which is
`NULL`: the call reads through that pointer before testing it and returns
nothing.  On the invalid PTE of page 1 of `ex_vm` the call returns false and
changes nothing, and in `ex_cow_single`, where frame 0 has mapcount 1, it
returns true and leaves the PTE writable on frame 0 with the mapcounts
unchanged; and in `ex_cow` with a third, free frame it returns true and
leaves the PTE writable on frame 2 with mapcount 1, the mapcounts still
summing to 4. -/
theorem handle_page_fault_ignores_alloc_failure :
    (get_pte ex_cow 1 0 0 = some { valid := true, writable := false, pfn := 0, private_ := 1 } ∧
      get_pte ex_cow 0 0 0 = some { valid := true, writable := false, pfn := 0, private_ := 1 } ∧
      ex_cow.mapcounts 0 = 2 ∧ mapcount_sum 2 ex_cow = 4 ∧
      ∃ s', handle_page_fault 2 2 2 zero_dir ex_cow 0 2 = some (true, s') ∧
        get_pte s' 1 0 0 = some { valid := true, writable := true, pfn := 0, private_ := 1 } ∧
        get_pte s' 0 0 0 = some { valid := true, writable := false, pfn := 0, private_ := 1 } ∧
        s'.mapcounts 0 = 1 ∧ mapcount_sum 2 s' = 3) ∧
    ((ex_vm.procs 0).pagetable.outer_ptes (2 / 2) = none ∧
      handle_page_fault 4 2 2 zero_dir ex_vm 2 2 = none) ∧
    handle_page_fault 4 2 2 zero_dir ex_vm 1 2 = some (false, ex_vm) ∧
    (∃ s', handle_page_fault 2 2 2 zero_dir ex_cow_single 0 2 = some (true, s') ∧
      get_pte s' 1 0 0 = some { valid := true, writable := true, pfn := 0, private_ := 1 } ∧
      s'.mapcounts 0 = 1 ∧ mapcount_sum 2 s' = mapcount_sum 2 ex_cow_single) ∧
    (∃ s', handle_page_fault 3 2 2 zero_dir ex_cow 0 2 = some (true, s') ∧
      get_pte s' 1 0 0 = some { valid := true, writable := true, pfn := 2, private_ := 1 } ∧
      s'.mapcounts 2 = 1 ∧ s'.mapcounts 0 = 1 ∧ mapcount_sum 3 ex_cow = 4 ∧
      mapcount_sum 3 s' = 4) :=
  ⟨⟨by decide, by decide, by decide, by decide, _, rfl, by decide, by decide, by decide,
      by decide⟩,
    ⟨rfl, rfl⟩,
    handle_page_fault_invalid 4 2 2 zero_dir ex_vm 1 2 0 _ rfl rfl rfl,
    ⟨_, rfl, by decide, by decide, by decide⟩,
    ⟨_, rfl, by decide, by decide, by decide, by decide, by decide⟩⟩

end PA3
